import Mathlib

/-!
Social-insight pipeline: validator, dedup gate, circuit breaker, post handler,
consumer, insights engine, trending scorer, topic and RSS parsing, HTTP fetcher,
recent-posts cache.

A shallow embedding of the Go sources of the processing service

* `internal/validation/validator.go`    (`ValidatePost`)
* `internal/crawler/crawler.go`         (`BaseCrawler.ProcessAndSend`)
* `internal/circuitbreaker/breaker.go`  (`CircuitBreaker`)
* `cmd/consumer/main.go`                (`PostHandler.HandlePost`, `flush`)
* `internal/database/postgres.go`       (`DB.InsertPosts`)
* `internal/models/post.go`             (`Post`)
* `internal/kafka/consumer.go`          (`ConsumeClaim`)
* `internal/kafka/producer.go`          (`Producer.SendPost`, the delivery counters)
* `internal/crawler/medium.go`          (`MediumCrawler.parseItem`)
* `internal/http/client.go`             (`Client.Get`, `calculateBackoff`, `getRetryAfter`)

of the API service

* `internal/insights/engine.go`         (`DetectTrending`, `DetectAnomalies`)
* `internal/trending/scorer.go`         (`CalculateScore`, `GetTrending`, `GetMostEngaging`)

of the data service

* `internal/crawler/hn.go`              (`HackerNewsCrawler.detectTopic`)

and of the shared cache client

* `internal/redis/client.go`            (`Client.AddToRecentPosts`)

Conventions of the embedding.

* Go `string` is `String`; Go `int` is `Int`.  Counters only grow by `x++` from
  `0` and cannot reach `2^63`; sums of likes and engagement are taken as
  mathematical integers, so no wrap-around is modelled.  The one exception is
  the duration arithmetic of the HTTP client, where `int64` wrap-around is
  modelled by `wrapInt64`.
* `time.Time` is an `Int`: nanoseconds elapsed since the zero instant
  (January 1, year 1, 00:00:00 UTC).  `time.Duration` is an `Int` of nanoseconds.
* Every call of `time.Now()` is an input of the function that makes it.
* `float64` values are exact rationals: the scores of the scorer and the decimal
  constants of the insights.
* Library functions whose tables are not modelled are parameters: SHA-256,
  `unicode.ToLower`, `json.Unmarshal`, `html.UnescapeString`, `time.Parse`.
* External collaborators (cache, bus, relational store, wrapped function, HTTP
  server) are explicit state, and the outcome of each fallible external
  operation is an input.  The draw of `rand.Int63n` is an input as well.
* The sorted set of the cache is the list of its members in rank order; the
  commands `ZADD` and `ZREMRANGEBYRANK` follow the documentation of the cache.
-/

namespace SocialInsight

/-! ## models/post.go -/

/-- Instants: nanoseconds since the zero value of Go `time.Time`. -/
abbrev Time := Int

/-- Durations: Go `time.Duration`, a count of nanoseconds. -/
abbrev Duration := Int

/-- The method `Time.IsZero`. -/
def IsZero (t : Time) : Bool := decide (t = 0)

/-- The constant `time.Hour`. -/
def Hour : Duration := 3600 * 1000000000

/-- The struct `models.Post`. -/
structure Post where
  ID : String
  Author : String
  Content : String
  Topic : String
  Sentiment : String
  Likes : Int
  Comments : Int
  Shares : Int
  Platform : String
  CreatedAt : Time
  deriving DecidableEq, Repr

/-- The variable `models.Topics`. -/
def Topics : List String := ["ai", "cloud", "devops", "programming", "startup"]

/-! ## Go standard library: `strings.TrimSpace`, `strings.ToLower` -/

/-- The predicate `unicode.IsSpace`: the code points with the White_Space property. -/
def isSpace (c : Char) : Bool :=
  let n := c.toNat
  (9 ≤ n && n ≤ 13) || n == 32 || n == 0x85 || n == 0xA0 || n == 0x1680 ||
  (0x2000 ≤ n && n ≤ 0x200A) || n == 0x2028 || n == 0x2029 || n == 0x202F ||
  n == 0x205F || n == 0x3000

/-- The function `strings.TrimSpace`: leading white space is dropped, then trailing
white space. -/
def TrimSpace (s : String) : String :=
  ⟨List.rdropWhile isSpace (List.dropWhile isSpace s.data)⟩

/-- The ASCII branch of `strings.ToLower`: `A`..`Z` are shifted by `a - A`. -/
def asciiLower (c : Char) : Char :=
  if 65 ≤ c.toNat ∧ c.toNat ≤ 90 then Char.ofNat (c.toNat + 32) else c

/-- The function `strings.ToLower`.  A string of ASCII bytes only takes the fast
path; any other string is mapped rune by rune through `unicode.ToLower`, whose
table is the parameter `lower`. -/
def ToLower (lower : Char → Char) (s : String) : String :=
  if s.data.all (fun c => decide (c.toNat < 128)) then ⟨s.data.map asciiLower⟩
  else ⟨s.data.map lower⟩

/-! ## validation/validator.go -/

/-- The type `ValidationError`. -/
abbrev ValidationError := String

/-- The struct `Validator` (no fields). -/
structure Validator where
  deriving DecidableEq, Repr

/-- The constructor `validation.New`. -/
def Validator.New : Validator := {}

/-- The method `Validator.ValidatePost`.  The Go method mutates the post through
a pointer; here the sanitised post is the third component of the result.  A
`nil` error slice is `[]`. -/
def ValidatePost (lower : Char → Char) (p : Post) : Bool × List ValidationError × Post :=
  let errs : List ValidationError := []
  -- Trim content and author
  let p := { p with Content := TrimSpace p.Content }
  let p := { p with Author := TrimSpace p.Author }
  -- Content must not be empty
  let errs := if p.Content = "" then errs ++ ["empty content"] else errs
  -- Author fallback
  let p := if p.Author = "" then { p with Author := "Anonymous" } else p
  -- Topic normalization
  let p := { p with Topic := ToLower lower (TrimSpace p.Topic) }
  let p := if p.Topic = "" then { p with Topic := "programming" } else p
  -- CreatedAt: flagged when zero
  let errs := if IsZero p.CreatedAt then errs ++ ["missing created_at"] else errs
  -- Likes/Comments/Shares negative check
  let p := if p.Likes < 0 then { p with Likes := 0 } else p
  let p := if p.Comments < 0 then { p with Comments := 0 } else p
  let p := if p.Shares < 0 then { p with Shares := 0 } else p
  if errs.length > 0 then
    if errs.length = 1 ∧ errs[0]? = some "missing created_at" then (true, [], p)
    else (false, errs, p)
  else (true, [], p)

/-! ## redis: the dedup key store used by the crawler -/

/-- The cache as the crawler sees it: existence markers with their TTL, and the
last-crawl timestamp of each source. -/
structure Redis where
  seen : String → Option Duration
  lastCrawl : String → Option Time

/-- The cache with no key. -/
def Redis.empty : Redis := ⟨fun _ => none, fun _ => none⟩

/-- Modelled from the spec: the key of an existence marker, missing from the
sources, is `seen:<namespace>:<key>`. -/
def seenKey (ns key : String) : String := "seen:" ++ ns ++ ":" ++ key

/-- Modelled from the spec: `Client.CheckIfSeen`, missing from the sources, tests
whether the existence marker of `key` in namespace `ns` is present.  The result
is the pair (seen, failed); `fault = some b` is a failing call that returns `b`. -/
def CheckIfSeen (r : Redis) (ns key : String) (fault : Option Bool) : Bool × Bool :=
  match fault with
  | some b => (b, true)
  | none => ((r.seen (seenKey ns key)).isSome, false)

/-- Modelled from the spec: `Client.MarkAsSeen`, missing from the sources, sets the
existence marker of `key` in namespace `ns` with the given TTL.  The result is
the new cache with the flag failed; a failing call writes nothing. -/
def MarkAsSeen (r : Redis) (ns key : String) (ttl : Duration) (fault : Bool) : Redis × Bool :=
  if fault then (r, true)
  else ({ r with seen := fun k => if k = seenKey ns key then some ttl else r.seen k }, false)

/-- Modelled from the spec: `Client.SetLastCrawl`, missing from the sources, sets
`last_crawl:<source>` to the given instant.  A failing call writes nothing. -/
def SetLastCrawl (r : Redis) (source : String) (now : Time) (fault : Bool) : Redis × Bool :=
  if fault then (r, true)
  else ({ r with lastCrawl := fun s => if s = source then some now else r.lastCrawl s }, false)

/-! ## crawler/crawler.go -/

/-- The struct `BaseCrawler`.  The producer and the cache client are the shared
state `Pipeline` below; `validator = none` is the nil pointer. -/
structure BaseCrawler where
  source : String
  kafkaTopic : String
  validator : Option Validator
  deriving DecidableEq, Repr

/-- The constructor `NewBaseCrawler`. -/
def NewBaseCrawler (source kafkaTopic : String) : BaseCrawler :=
  { source := source, kafkaTopic := kafkaTopic, validator := some Validator.New }

/-- The state shared by all crawlers: the cache and the posts handed to the
producer so far, in the order of the `SendPost` calls. -/
structure Pipeline where
  redis : Redis
  produced : List Post

/-- The pipeline before any crawl: empty dedup store, nothing produced. -/
def Pipeline.empty : Pipeline := ⟨Redis.empty, []⟩

/-- Outcomes of the external operations made for one post of a batch. -/
structure PostOutcomes where
  hashCheck : Option Bool
  idCheck : Option Bool
  sendFails : Bool
  markIdFails : Bool
  markHashFails : Bool
  deriving DecidableEq, Repr

/-- Every operation succeeds. -/
def PostOutcomes.ok : PostOutcomes := ⟨none, none, false, false, false⟩

/-- Outcomes and clock readings of one `ProcessAndSend` call: the two
`SetLastCrawl` calls and, post by post, the operations of the loop body (posts
beyond the end of `perPost` meet no failure). -/
structure CrawlEnv where
  startNow : Time
  endNow : Time
  firstLastCrawlFails : Bool
  finalLastCrawlFails : Bool
  perPost : List PostOutcomes
  deriving DecidableEq, Repr

/-- The method `Producer.SendPost` of kafka/producer.go: the post is enqueued
on the input of the asynchronous producer and nil is returned, unless
`json.Marshal(post)` fails, which is the only error returned (`fails`).  In the
code that failure is a function of the post; here it is an input of each call,
which allows every behaviour of the code and some more.  What the bus does with
an enqueued message is not known to `SendPost`: the outcome of the delivery
arrives later, on the channels drained by `handleSuccesses` and `handleErrors`. -/
def SendPost (produced : List Post) (post : Post) (fails : Bool) : List Post × Bool :=
  if fails then (produced, true) else (produced ++ [post], false)

/-- The counters `successCount` and `errorCount` of the struct `Producer`. -/
structure ProducerStats where
  successCount : Int
  errorCount : Int
  deriving DecidableEq, Repr

/-- One iteration of the goroutine `for range producer.Successes()` of
`NewProducer`: a delivery has succeeded. -/
def handleSuccesses (p : ProducerStats) : ProducerStats :=
  { p with successCount := p.successCount + 1 }

/-- One iteration of the goroutine `for err := range producer.Errors()` of
`NewProducer`: a delivery has failed; the error is counted and printed. -/
def handleErrors (p : ProducerStats) : ProducerStats :=
  { p with errorCount := p.errorCount + 1 }

/-- The method `Producer.GetStats`. -/
def GetStats (p : ProducerStats) : Int × Int := (p.successCount, p.errorCount)

/-- Loop variables of `ProcessAndSend`. -/
structure Loop where
  sent : Nat
  skipped : Nat
  pipe : Pipeline

/-- The block `if b.validator != nil` of the loop body: the verdict (`true` when
there is no validator) and the post as the rest of the body sees it. -/
def validateStep (lower : Char → Char) (b : BaseCrawler) (post : Post) : Bool × Post :=
  match b.validator with
  | some _ => ((ValidatePost lower post).1, (ValidatePost lower post).2.2)
  | none => (true, post)

/-- One iteration of the `for _, post := range posts` loop of `ProcessAndSend`.
The parameter `hash` is hex-encoded SHA-256. -/
def processPost (hash : String → String) (lower : Char → Char) (b : BaseCrawler)
    (o : PostOutcomes) (post : Post) (s : Loop) : Loop :=
  -- Validate and sanitize post first
  let v := validateStep lower b post
  if !v.1 then { s with skipped := s.skipped + 1 }
  else
    let post := v.2
    let hashStr := hash (post.Content ++ "|" ++ post.Author)
    -- Check dedup by content hash first
    let seenHash := (CheckIfSeen s.pipe.redis "content_hash" hashStr o.hashCheck).1
    if seenHash then { s with skipped := s.skipped + 1 }
    else
      -- Fallback: check dedup by source-specific ID
      let idr := CheckIfSeen s.pipe.redis b.source post.ID o.idCheck
      if idr.2 then { s with skipped := s.skipped + 1 }
      else if idr.1 then { s with skipped := s.skipped + 1 }
      else
        -- Send to Kafka
        let sr := SendPost s.pipe.produced post o.sendFails
        if sr.2 then { s with skipped := s.skipped + 1 }
        else
          let r1 := (MarkAsSeen s.pipe.redis b.source post.ID (7 * 24 * Hour) o.markIdFails).1
          let r2 := (MarkAsSeen r1 "content_hash" hashStr (365 * 24 * Hour) o.markHashFails).1
          { sent := s.sent + 1, skipped := s.skipped, pipe := ⟨r2, sr.1⟩ }

/-- The loop of `ProcessAndSend` over the batch. -/
def processLoop (hash : String → String) (lower : Char → Char) (b : BaseCrawler) :
    List Post → List PostOutcomes → Loop → Loop
  | [], _, s => s
  | post :: posts, os, s =>
    processLoop hash lower b posts os.tail (processPost hash lower b (os.headD PostOutcomes.ok) post s)

/-- The result triple of `ProcessAndSend`; `err = none` is the nil error. -/
structure SendResult where
  sent : Nat
  skipped : Nat
  err : Option String
  deriving DecidableEq, Repr

/-- The method `BaseCrawler.ProcessAndSend`. -/
def ProcessAndSend (hash : String → String) (lower : Char → Char) (b : BaseCrawler)
    (posts : List Post) (env : CrawlEnv) (st : Pipeline) : SendResult × Pipeline :=
  -- Always update last crawl time even if no posts were found
  let r0 := (SetLastCrawl st.redis b.source env.startNow env.firstLastCrawlFails).1
  if posts.length = 0 then (⟨0, 0, none⟩, { st with redis := r0 })
  else
    let s := processLoop hash lower b posts env.perPost ⟨0, 0, { st with redis := r0 }⟩
    -- Update last crawl time in Redis
    let r1 := (SetLastCrawl s.pipe.redis b.source env.endNow env.finalLastCrawlFails).1
    (⟨s.sent, s.skipped, none⟩, { s.pipe with redis := r1 })

/-- One `ProcessAndSend` call of a run: the crawler making it (built by
`NewBaseCrawler`), its batch and the outcomes it meets. -/
structure CrawlCall where
  source : String
  kafkaTopic : String
  posts : List Post
  env : CrawlEnv
  deriving DecidableEq, Repr

/-- A run: successive `ProcessAndSend` calls against the shared pipeline. -/
def runCrawls (hash : String → String) (lower : Char → Char) :
    List CrawlCall → Pipeline → Pipeline
  | [], st => st
  | c :: cs, st =>
    runCrawls hash lower cs
      (ProcessAndSend hash lower (NewBaseCrawler c.source c.kafkaTopic) c.posts c.env st).2

/-- The call meets no failure of the dedup store or of the producer. -/
def CrawlEnv.allSucceed (env : CrawlEnv) : Prop := ∀ o ∈ env.perPost, o = PostOutcomes.ok

/-- The content hash that `ProcessAndSend` computes for a post. -/
def contentHash (hash : String → String) (p : Post) : String :=
  hash (p.Content ++ "|" ++ p.Author)

/-! ## circuitbreaker/breaker.go -/

/-- The type `State` with its three constants. -/
inductive State where
  | StateClosed
  | StateOpen
  | StateHalfOpen
  deriving DecidableEq, Repr

/-- The struct `CircuitBreaker` (the mutex is not modelled: every method below
runs under the lock).  The callback acts on the state `σ` of the outside world;
`none` is the nil callback. -/
structure CircuitBreaker (σ : Type) where
  state : State
  failureCount : Int
  lastFailureTime : Time
  maxFailures : Int
  resetTimeout : Duration
  successThreshold : Int
  successCount : Int
  onStateChange : Option (State → State → σ → σ)

/-- The constructor `circuitbreaker.New`. -/
def New {σ : Type} (maxFailures : Int) (resetTimeout : Duration) : CircuitBreaker σ :=
  { state := State.StateClosed
    failureCount := 0
    lastFailureTime := 0
    maxFailures := maxFailures
    resetTimeout := resetTimeout
    successThreshold := 2
    successCount := 0
    onStateChange := none }

/-- The method `CircuitBreaker.setState`. -/
def setState {σ : Type} (cb : CircuitBreaker σ) (newState : State) (w : σ) :
    CircuitBreaker σ × σ :=
  let oldState := cb.state
  let cb := { cb with state := newState }
  let w := match cb.onStateChange with
    | some f => f oldState newState w
    | none => w
  let cb := if newState = State.StateClosed then { cb with failureCount := 0, successCount := 0 }
    else cb
  (cb, w)

/-- The method `CircuitBreaker.onFailure`; `now` is its reading of `time.Now()`. -/
def onFailure {σ : Type} (cb : CircuitBreaker σ) (now : Time) (w : σ) : CircuitBreaker σ × σ :=
  let cb := { cb with failureCount := cb.failureCount + 1, lastFailureTime := now,
                      successCount := 0 }
  if cb.failureCount ≥ cb.maxFailures then setState cb State.StateOpen w else (cb, w)

/-- The method `CircuitBreaker.onSuccess`. -/
def onSuccess {σ : Type} (cb : CircuitBreaker σ) (w : σ) : CircuitBreaker σ × σ :=
  let r : CircuitBreaker σ × σ :=
    if cb.state = State.StateHalfOpen then
      let cb := { cb with successCount := cb.successCount + 1 }
      if cb.successCount ≥ cb.successThreshold then setState cb State.StateClosed w else (cb, w)
    else (cb, w)
  ({ r.1 with failureCount := 0 }, r.2)

/-- The readings of `time.Now()` that one `Call` can make: in the open check, in
the message of the open error, and in `onFailure`. -/
structure Clock where
  checkNow : Time
  msgNow : Time
  failNow : Time
  deriving DecidableEq, Repr

/-- The function `time.Since` at the reading `now`. -/
def Since (now t : Time) : Duration := now - t

/-- The error returned by `Call`: the error built when the circuit is open (with
the remaining wait printed in it), or the error of the wrapped function. -/
inductive CallError where
  | circuitOpen (retryAfter : Duration)
  | failed (msg : String)
  deriving DecidableEq, Repr

/-- The first block of `Call` (`if cb.state == StateOpen`): either the open error
is returned, or the call goes on with the breaker and world given. -/
def openCheck {σ : Type} (cb : CircuitBreaker σ) (clk : Clock) (w : σ) :
    Except CallError (CircuitBreaker σ × σ) :=
  if cb.state = State.StateOpen then
    if Since clk.checkNow cb.lastFailureTime > cb.resetTimeout then
      Except.ok (setState cb State.StateHalfOpen w)
    else
      Except.error (CallError.circuitOpen (cb.resetTimeout - Since clk.msgNow cb.lastFailureTime))
  else Except.ok (cb, w)

/-- The method `CircuitBreaker.Call`.  The wrapped function `fn` acts on the world
`σ` and returns its error (`none` is nil). -/
def Call {σ : Type} (cb : CircuitBreaker σ) (fn : σ → Option String × σ) (clk : Clock) (w : σ) :
    CircuitBreaker σ × Option CallError × σ :=
  match openCheck cb clk w with
  | Except.error e => (cb, some e, w)
  | Except.ok (cb, w) =>
    let r := fn w
    match r.1 with
    | some msg =>
      let f := onFailure cb clk.failNow r.2
      (f.1, some (CallError.failed msg), f.2)
    | none =>
      let s := onSuccess cb r.2
      (s.1, none, s.2)

/-- The method `CircuitBreaker.GetState`. -/
def GetState {σ : Type} (cb : CircuitBreaker σ) : State := cb.state

/-- The method `CircuitBreaker.SetStateChangeCallback`. -/
def SetStateChangeCallback {σ : Type} (cb : CircuitBreaker σ)
    (fn : Option (State → State → σ → σ)) : CircuitBreaker σ :=
  { cb with onStateChange := fn }

/-- One call in a run of the breaker: the wrapped function and the clock readings. -/
structure CallInput (σ : Type) where
  fn : σ → Option String × σ
  clk : Clock

/-- The outcome of a run of calls: final breaker, the value each `Call` returned
(oldest first), final world. -/
structure RunResult (σ : Type) where
  cb : CircuitBreaker σ
  results : List (Option CallError)
  world : σ

/-- Successive `Call`s on one breaker. -/
def runCalls {σ : Type} : CircuitBreaker σ → List (CallInput σ) → σ → RunResult σ
  | cb, [], w => ⟨cb, [], w⟩
  | cb, c :: cs, w =>
    let r := Call cb c.fn c.clk w
    let rest := runCalls r.1 cs r.2.2
    ⟨rest.cb, r.2.1 :: rest.results, rest.world⟩

/-- The value returned by a `Call` is the error of the wrapped function. -/
def isFnFailure : Option CallError → Bool
  | some (CallError.failed _) => true
  | _ => false

/-- The breakers that `New maxFailures resetTimeout` can become through its
methods, the world between two calls being arbitrary. -/
inductive Reachable {σ : Type} (maxFailures : Int) (resetTimeout : Duration) :
    CircuitBreaker σ → Prop where
  | new : Reachable maxFailures resetTimeout (New maxFailures resetTimeout)
  | call (cb : CircuitBreaker σ) (fn : σ → Option String × σ) (clk : Clock) (w : σ) :
      Reachable maxFailures resetTimeout cb →
      Reachable maxFailures resetTimeout (Call cb fn clk w).1
  | setCallback (cb : CircuitBreaker σ) (f : Option (State → State → σ → σ)) :
      Reachable maxFailures resetTimeout cb →
      Reachable maxFailures resetTimeout (SetStateChangeCallback cb f)

/-! ## database/postgres.go -/

/-- The relational store: the rows of table `posts`, and the argument of every
`InsertPosts` call made so far (oldest first). -/
structure DB where
  rows : List Post
  inserts : List (List Post)
  deriving DecidableEq, Repr

/-- The statement built by `InsertPosts`: rows are inserted in order, a row whose
id is already in the table is dropped (`ON CONFLICT (id) DO NOTHING`). -/
def upsertRows (rows : List Post) (posts : List Post) : List Post :=
  posts.foldl (fun acc p => if acc.any (fun q => q.ID == p.ID) then acc else acc ++ [p]) rows

/-- The method `DB.InsertPosts`; `execErr` is the error of `db.conn.Exec`, if
any. -/
def InsertPosts (db : DB) (posts : List Post) (execErr : Option String) : DB × Option String :=
  let db := { db with inserts := db.inserts ++ [posts] }
  if posts.length = 0 then (db, none)
  else
    match execErr with
    | some e => (db, some e)
    | none => ({ db with rows := upsertRows db.rows posts }, none)

/-! ## cmd/consumer/main.go -/

/-- The three cache operations of redis/client.go that `HandlePost` calls, acting
on a cache state `ρ`.  `CachePost` also returns its error. -/
structure CacheOps (ρ : Type) where
  CachePost : Post → Duration → ρ → ρ × Option String
  IncrementCounter : String → ρ → ρ
  AddToRecentPosts : Post → ρ → ρ

/-- The struct `PostHandler`. -/
structure PostHandler (ρ : Type) where
  redis : ρ
  db : DB
  batchSize : Int
  buffer : List Post
  processedCount : Int

/-- The method `PostHandler.flush`. -/
def flush {ρ : Type} (h : PostHandler ρ) (execErr : Option String) :
    PostHandler ρ × Option String :=
  if h.buffer.length = 0 then (h, none)
  else
    let r := InsertPosts h.db h.buffer execErr
    match r.2 with
    | some e => ({ h with db := r.1 }, some ("batch insert error: " ++ e))
    | none => ({ h with db := r.1, buffer := [] }, none)

/-- The method `PostHandler.HandlePost`. -/
def HandlePost {ρ : Type} (ops : CacheOps ρ) (h : PostHandler ρ) (post : Post)
    (execErr : Option String) : PostHandler ρ × Option String :=
  -- 1. cache the post (TTL one hour); a failure is only logged
  let r := (ops.CachePost post Hour h.redis).1
  -- 2. counters
  let r := ops.IncrementCounter "posts:total" r
  let r := ops.IncrementCounter ("posts:" ++ post.Topic) r
  let r := ops.IncrementCounter ("sentiment:" ++ post.Sentiment) r
  -- 3. recent posts
  let r := ops.AddToRecentPosts post r
  -- 4. buffer
  let h := { h with redis := r, buffer := h.buffer ++ [post] }
  -- 5. flush when the batch is full
  if (h.buffer.length : Int) ≥ h.batchSize then
    let f := flush h execErr
    match f.2 with
    | some e => (f.1, some e)
    | none => ({ f.1 with processedCount := f.1.processedCount + 1 }, none)
  else ({ h with processedCount := h.processedCount + 1 }, none)

/-! ## kafka/consumer.go -/

/-- The struct `sarama.ConsumerMessage`, with the fields that identify a message
and its payload. -/
structure ConsumerMessage where
  Topic : String
  Partition : Int
  Offset : Int
  Key : String
  Value : String
  deriving DecidableEq, Repr

/-- The state that `ConsumeClaim` acts on: the handler behind the interface
`PostHandler` (its state is `η`), the messages passed to `session.MarkMessage` so
far (oldest first), and the field `Consumer.messageCount`. -/
structure ConsumerState (η : Type) where
  handler : η
  marked : List ConsumerMessage
  messageCount : Int

/-- The body of the loop `for message := range claim.Messages()` of
`ConsumeClaim`.  The parameter `unmarshal` is `json.Unmarshal` into a fresh
`models.Post` (`none` when it returns an error); `handle` is the method
`HandlePost` of the handler. -/
def consumeMessage {η : Type} (unmarshal : String → Option Post)
    (handle : η → Post → η × Option String) (st : ConsumerState η) (message : ConsumerMessage) :
    ConsumerState η :=
  match unmarshal message.Value with
  | none => st
  | some post =>
    let r := handle st.handler post
    match r.2 with
    | some _ => { st with handler := r.1 }
    | none =>
      { handler := r.1
        marked := st.marked ++ [message]
        messageCount := st.messageCount + 1 }

/-- The method `consumerGroupHandler.ConsumeClaim` on the messages that the claim
delivers; the error it returns is always nil. -/
def ConsumeClaim {η : Type} (unmarshal : String → Option Post)
    (handle : η → Post → η × Option String) (messages : List ConsumerMessage)
    (st : ConsumerState η) : ConsumerState η × Option String :=
  (messages.foldl (consumeMessage unmarshal handle) st, none)

/-! ## insights/engine.go -/

/-- The struct `Insight`.  The field `Type` is named `Type_` here; the `float64`
confidence is the decimal constant written in the source, as a rational. -/
structure Insight where
  Type_ : String
  Title : String
  Description : String
  Confidence : ℚ
  Timestamp : Time
  deriving DecidableEq

/-- The struct `Engine`. -/
structure Engine where
  posts : List Post
  timeRange : Duration
  deriving DecidableEq

/-- The constructor `insights.New`. -/
def Engine.New (timeRange : Duration) : Engine := ⟨[], timeRange⟩

/-- The method `Engine.AddPosts`; `now` is its reading of `time.Now()`. -/
def AddPosts (e : Engine) (posts : List Post) (now : Time) : Engine :=
  let all := e.posts ++ posts
  let cutoff := now - e.timeRange
  { e with posts := all.filter (fun p => decide (p.CreatedAt > cutoff)) }

/-- A Go `map[string]int`: the keys it holds, and the value read at each key (the
zero value at an absent key). -/
structure CountMap where
  keys : List String
  count : String → Int

/-- The empty map `make(map[string]int)`. -/
def CountMap.empty : CountMap := ⟨[], fun _ => 0⟩

/-- The statement `m[k]++`. -/
def CountMap.incr (m : CountMap) (k : String) : CountMap :=
  { keys := if k ∈ m.keys then m.keys else m.keys ++ [k]
    count := fun j => if j = k then m.count k + 1 else m.count j }

/-- The first loop of `DetectTrending`: the number of posts of each topic. -/
def topicCounts (posts : List Post) : CountMap :=
  posts.foldl (fun m post => m.incr post.Topic) CountMap.empty

/-- The verb `%d` of `fmt.Sprintf` on an `int`. -/
def fmtInt (n : Int) : String := toString n

/-- The method `Engine.DetectTrending`.  Go leaves the order in which `range`
visits the keys of a map unspecified: `rangeOrder` gives the order of the visit.
The k-th insight appended carries the reading `now k` of `time.Now()`. -/
def DetectTrending (e : Engine) (rangeOrder : List String → List String) (now : Nat → Time) :
    List Insight :=
  let counts := topicCounts e.posts
  (rangeOrder counts.keys).foldl
    (fun insights topic =>
      let count := counts.count topic
      if count > 5 then
        insights ++
          [{ Type_ := "trending"
             Title := topic ++ " is trending"
             Description := fmtInt count ++ " mentions in last 24h"
             Confidence := 0.8
             Timestamp := now insights.length }]
      else insights)
    []

/-- The method `Engine.DetectAnomalies`.  The quotient `totalLikes / len(e.posts)`
is the division of Go `int`s, which truncates toward zero.  The k-th insight
appended carries the reading `now k` of `time.Now()`. -/
def DetectAnomalies (e : Engine) (now : Nat → Time) : List Insight :=
  if e.posts.length = 0 then []
  else
    -- Calculate average likes
    let totalLikes := e.posts.foldl (fun total post => total + post.Likes) 0
    let avgLikes := Int.tdiv totalLikes (e.posts.length : Int)
    let threshold := avgLikes * 3
    -- Find anomalies
    e.posts.foldl
      (fun insights post =>
        if post.Likes > threshold then
          insights ++
            [{ Type_ := "anomaly"
               Title := "Viral post detected"
               Description :=
                 "Post with " ++ fmtInt post.Likes ++ " likes (avg: " ++ fmtInt avgLikes ++ ")"
               Confidence := 0.9
               Timestamp := now insights.length }]
        else insights)
      []

/-! ## trending/scorer.go -/

/-- The struct `TrendingPost`; the `float64` score is read as an exact rational. -/
structure TrendingPost where
  Post : Post
  Score : ℚ
  Rank : Int
  deriving DecidableEq

/-- The struct `Scorer`. -/
structure Scorer where
  avgEngagement : Int
  recentPosts : List Post
  deriving DecidableEq

/-- The constructor `trending.New`. -/
def Scorer.New (avgEngagement : Int) : Scorer := ⟨avgEngagement, []⟩

/-- The method `Scorer.AddPost`. -/
def AddPost (s : Scorer) (post : Post) : Scorer :=
  { s with recentPosts := s.recentPosts ++ [post] }

/-- The method `Scorer.AddPosts`. -/
def Scorer.AddPosts (s : Scorer) (posts : List Post) : Scorer :=
  { s with recentPosts := s.recentPosts ++ posts }

/-- The method `Duration.Hours`, over the rationals. -/
def Hours (d : Duration) : ℚ := (d : ℚ) / 3600000000000

/-- The method `Scorer.CalculateScore`, the `float64` arithmetic read over exact
rationals; `now` is the reading of `time.Now()` made by `time.Since`. -/
def CalculateScore (s : Scorer) (post : Post) (now : Time) : ℚ :=
  -- Recency factor
  let timeSincePost := Hours (Since now post.CreatedAt)
  let recencyScore : ℚ := 1 / (1 + timeSincePost / 24)
  -- Engagement factor
  let engagement := post.Likes + post.Comments * 2 + post.Shares * 3
  let engagementScore : ℚ :=
    if s.avgEngagement > 0 then
      if (engagement : ℚ) / (s.avgEngagement : ℚ) > 1 then 1
      else (engagement : ℚ) / (s.avgEngagement : ℚ)
    else 0
  -- Virality bonus
  let viralityScore : ℚ := if engagement > s.avgEngagement * 2 then 0.5 else 0
  -- Weighted combination
  recencyScore * 0.5 + engagementScore * 0.3 + viralityScore * 0.2

/-! ## data-service: crawler/hn.go -/

/-- The list `sub` occurs in the list as a block of consecutive elements. -/
def hasInfix : List Char → List Char → Bool
  | [], sub => sub.isEmpty
  | c :: cs, sub => List.isPrefixOf sub (c :: cs) || hasInfix cs sub

/-- The function `strings.Contains`. -/
def Contains (s substr : String) : Bool := hasInfix s.data substr.data

/-- The method `HackerNewsCrawler.detectTopic`. -/
def detectTopic (lower : Char → Char) (title : String) : String :=
  let title := ToLower lower title
  if Contains title "ai" || Contains title "llm" ||
      Contains title "machine learning" || Contains title "chatgpt" ||
      Contains title "gpt" || Contains title "neural" then "ai"
  else if Contains title "cloud" || Contains title "aws" ||
      Contains title "gcp" || Contains title "azure" then "cloud"
  else if Contains title "devops" || Contains title "kubernetes" ||
      Contains title "docker" || Contains title "ci/cd" then "devops"
  else if Contains title "startup" || Contains title "funding" ||
      Contains title "venture" || Contains title "ipo" then "startup"
  else "programming"

/-! ## crawler/medium.go -/

/-- The struct `MediumItem`. -/
structure MediumItem where
  Title : String
  Description : String
  Link : String
  Author : String
  PubDate : String
  deriving DecidableEq, Repr

/-- The character class `[a-f0-9]`. -/
def isHexLower (c : Char) : Bool :=
  (97 ≤ c.toNat && c.toNat ≤ 102) || (48 ≤ c.toNat && c.toNat ≤ 57)

/-- The call `idRe.FindStringSubmatch(link)` for the pattern `([a-f0-9]{8,})$`,
reduced to its capture group.  The regexp engine returns the leftmost match: of
the positions of the text, taken from the left, the first one from which the
rest of the text up to its end is at least 8 characters of the class.  The
result `none` is the nil slice (no match). -/
def findHexTail (link : String) : Option String :=
  (link.data.tails.find? (fun t => t.all isHexLower && decide (8 ≤ t.length))).map String.mk

/-- The call `re.ReplaceAllString(s, "")` for the pattern `<[^>]*>`: every `<` that
is followed, somewhere, by a `>` is removed together with the text up to the
first such `>`.  The flag says that the scan is inside a tag. -/
def stripTags : Bool → List Char → List Char
  | _, [] => []
  | true, c :: cs => if c = '>' then stripTags false cs else stripTags true cs
  | false, c :: cs =>
    if c = '<' && cs.contains '>' then stripTags true cs else c :: stripTags false cs

/-- The character class `[A-Za-z0-9_-]`. -/
def isAuthorChar (c : Char) : Bool := c.isAlphanum || c = '_' || c = '-'

/-- The call `authRe.FindStringSubmatch(link)` for the pattern `@([A-Za-z0-9_-]+)`,
reduced to its capture group: the leftmost `@` that is followed by a character of
the class, and the longest run of the class after it. -/
def findAuthor : List Char → Option (List Char)
  | [] => none
  | c :: cs =>
    if c = '@' && (cs.head?.map isAuthorChar).getD false then some (cs.takeWhile isAuthorChar)
    else findAuthor cs

/-- The method `MediumCrawler.mapTopic`. -/
def mapTopic (topic : String) : String :=
  if topic = "machine-learning" || topic = "artificial-intelligence" then "ai"
  else if topic = "cloud-computing" then "cloud"
  else if topic = "devops" then "devops"
  else if topic = "startups" then "startup"
  else "programming"

/-- The layouts `time.RFC1123Z`, `time.RFC1123`, `time.RFC3339`, `time.RFC822`, in
the order in which `parseItem` tries them. -/
def pubDateLayouts : List String :=
  ["Mon, 02 Jan 2006 15:04:05 -0700", "Mon, 02 Jan 2006 15:04:05 MST",
   "2006-01-02T15:04:05Z07:00", "02 Jan 06 15:04 MST"]

/-- The method `MediumCrawler.parseItem`; `none` is the nil pointer.  The
parameters are `html.UnescapeString`, `time.Parse` (layout, then value; `none`
on error) and the reading of `time.Now()`. -/
def parseItem (unescape : String → String) (parseTime : String → String → Option Time)
    (item : MediumItem) (topic : String) (now : Time) : Option Post :=
  let link := item.Link
  if link = "" then none
  else
    match findHexTail link with
    | none => none
    | some id =>
      -- Clean up description
      let content :=
        if item.Description.length > 0 then
          TrimSpace (unescape ⟨stripTags false item.Description.data⟩)
        else item.Title
      -- Map topic
      let topicName := mapTopic topic
      -- Author extraction fallback
      let author := TrimSpace item.Author
      let author :=
        if author = "" then
          match findAuthor link.data with
          | some a => ⟨a⟩
          | none => "Unknown"
        else author
      -- Parse publication date
      let createdAt :=
        if item.PubDate ≠ "" then
          (pubDateLayouts.findSome? (fun l => parseTime l (TrimSpace item.PubDate))).getD now
        else now
      some
        { ID := id
          Author := author
          Content := content
          Topic := topicName
          Sentiment := "neutral"
          Likes := 0
          Comments := 0
          Shares := 0
          Platform := "medium"
          CreatedAt := createdAt }

/-! ## trending/scorer.go: `GetTrending`, `GetMostEngaging` -/

/-- The first loop of `GetTrending`, from index `i` on: post number `i` gets the
score that `CalculateScore` computes at the reading `now i` of `time.Now()`, and
rank 0. -/
def scoreFrom (s : Scorer) (now : Nat → Time) : Nat → List Post → List TrendingPost
  | _, [] => []
  | i, post :: posts => ⟨post, CalculateScore s post (now i), 0⟩ :: scoreFrom s now (i + 1) posts

/-- The first loop of `GetMostEngaging`: the score is `float64(engagement)`. -/
def engagementScores : List Post → List TrendingPost
  | [] => []
  | post :: posts =>
    ⟨post, ((post.Likes + post.Comments * 2 + post.Shares * 3 : Int) : ℚ), 0⟩ ::
      engagementScores posts

/-- The body of the inner loop of the sort:
`if a[j].Score > a[i].Score { a[i], a[j] = a[j], a[i] }`. -/
def swapIfGreater (a : List TrendingPost) (i j : Nat) : List TrendingPost :=
  match a[i]?, a[j]? with
  | some x, some y => if y.Score > x.Score then (a.set i y).set j x else a
  | _, _ => a

/-- The inner loop of the sort, `for j := i + 1; j < len(a); j++`. -/
def sortInner (a : List TrendingPost) (i : Nat) : List TrendingPost :=
  (List.range' (i + 1) (a.length - (i + 1))).foldl (fun a j => swapIfGreater a i j) a

/-- The sort of `GetTrending` and `GetMostEngaging`, `for i := 0; i < len(a); i++`
around the inner loop. -/
def sortByScore (a : List TrendingPost) : List TrendingPost :=
  (List.range a.length).foldl (fun a i => sortInner a i) a

/-- The loop `for i := range a { a[i].Rank = i + 1 }`, from index `i` on. -/
def rankFrom : Nat → List TrendingPost → List TrendingPost
  | _, [] => []
  | i, tp :: tps => { tp with Rank := (i : Int) + 1 } :: rankFrom (i + 1) tps

/-- The end of `GetTrending`: `limit` is capped at the length and the slice
`a[:limit]` is returned; a negative `limit` makes the slice expression panic,
which is `none`. -/
def topN (a : List TrendingPost) (limit : Int) : Option (List TrendingPost) :=
  let limit := if limit > (a.length : Int) then (a.length : Int) else limit
  if limit < 0 then none else some (a.take limit.toNat)

/-- The method `Scorer.GetTrending`; `now i` is the reading of `time.Now()` made
when post number `i` is scored. -/
def GetTrending (s : Scorer) (limit : Int) (now : Nat → Time) : Option (List TrendingPost) :=
  topN (rankFrom 0 (sortByScore (scoreFrom s now 0 s.recentPosts))) limit

/-- The method `Scorer.GetMostEngaging`. -/
def GetMostEngaging (s : Scorer) (limit : Int) : Option (List TrendingPost) :=
  topN (rankFrom 0 (sortByScore (engagementScores s.recentPosts))) limit

/-! ## processing-service: internal/http/client.go -/

/-- The value of a mathematical integer as a Go `int64`: two's-complement
wrap-around to the range from −2^63 to 2^63 − 1. -/
def wrapInt64 (x : Int) : Int := (x + 2 ^ 63) % 2 ^ 64 - 2 ^ 63

/-- The constant `time.Millisecond`. -/
def Millisecond : Duration := 1000000

/-- The constant `time.Second`. -/
def Second : Duration := 1000000000

/-- The struct `Client` of the HTTP package, without the transport it wraps. -/
structure Client where
  maxRetries : Int
  retryDelay : Duration
  userAgent : String
  timeout : Duration
  baseDelay : Duration
  maxDelay : Duration
  deriving DecidableEq, Repr

/-- The constructor `NewClient`. -/
def NewClient (timeout : Duration) : Client :=
  { maxRetries := 3
    retryDelay := 1 * Second
    userAgent := "Mozilla/5.0 (Windows NT 10.0; Win64; x64) AppleWebKit/537.36"
    timeout := timeout
    baseDelay := 500 * Millisecond
    maxDelay := 30 * Second }

/-- The method `Client.SetMaxRetries`. -/
def Client.SetMaxRetries (c : Client) (retries : Int) : Client :=
  { c with maxRetries := retries }

/-- The method `Client.calculateBackoff`.  The duration arithmetic is `int64`
arithmetic: the shift `1 << attempt` and the product wrap around (a shift by 64
or more gives 0), the division truncates.  The parameter `int63n` is the draw of
`rand.Int63n`, a value from 0 up to, not including, its argument. -/
def Client.calculateBackoff (c : Client) (int63n : Int → Int) (attempt : Nat) : Duration :=
  -- exponential: baseDelay * 2^attempt
  let backoff := wrapInt64 (c.baseDelay * wrapInt64 (2 ^ attempt))
  let backoff := if backoff > c.maxDelay then c.maxDelay else backoff
  -- add up to 20% jitter
  let jitterMax := Int.tdiv backoff 5
  if jitterMax ≤ 0 then backoff
  else wrapInt64 (backoff + int63n jitterMax)

/-- A response as `Get` reads it: status code, status line, headers (under their
canonical names) and the outcome of reading the body (`BodyErr = some e` is a
failing `io.ReadAll`). -/
structure Response where
  StatusCode : Int
  Status : String
  Header : List (String × String)
  Body : String
  BodyErr : Option String
  deriving DecidableEq, Repr

/-- The method `Header.Get`: the first value stored under the name, or `""`. -/
def headerGet (h : List (String × String)) (name : String) : String :=
  match h.find? (fun kv => kv.1 == name) with
  | some kv => kv.2
  | none => ""

/-- The value of a run of decimal digits read left to right from `acc`; `none`
when some character is not a digit. -/
def parseDigits : List Char → Nat → Option Nat
  | [], acc => some acc
  | c :: cs, acc =>
    if 48 ≤ c.toNat ∧ c.toNat ≤ 57 then parseDigits cs (acc * 10 + (c.toNat - 48)) else none

/-- The function `strconv.Atoi` on a 64-bit platform: an optional sign followed by
one or more decimal digits, the value being in the range of `int64`; `none` is
the error result. -/
def Atoi (s : String) : Option Int :=
  let neg := s.data.head? = some '-'
  let digits := if s.data.head? = some '-' ∨ s.data.head? = some '+' then s.data.tail else s.data
  if digits = [] then none
  else
    match parseDigits digits 0 with
    | none => none
    | some n =>
      let v : Int := if neg then -(n : Int) else (n : Int)
      if -(2 ^ 63) ≤ v ∧ v < 2 ^ 63 then some v else none

/-- The function `time.Until` at clock reading `now`. -/
def Until (t now : Time) : Duration := t - now

/-- The layout `time.RFC1123`. -/
def RFC1123 : String := "Mon, 02 Jan 2006 15:04:05 MST"

/-- The layout `time.RFC1123Z`. -/
def RFC1123Z : String := "Mon, 02 Jan 2006 15:04:05 -0700"

/-- The method `Client.getRetryAfter`; `resp = none` is the nil response.  The
parameter `parseTime layout value` is `time.Parse`, and `now1`, `now2` are the
clock readings of the two `time.Until` calls. -/
def Client.getRetryAfter (_c : Client) (parseTime : String → String → Option Time)
    (now1 now2 : Time) (resp : Option Response) : Duration :=
  match resp with
  | none => 0
  | some resp =>
    let ra := headerGet resp.Header "Retry-After"
    if ra = "" then 0
    else
      -- try integer seconds
      match Atoi ra with
      | some secs => wrapInt64 (secs * Second)
      | none =>
        -- try HTTP date formats
        let first : Option Duration :=
          match parseTime RFC1123 ra with
          | some t => if Until t now1 > 0 then some (Until t now1) else none
          | none => none
        match first with
        | some delta => delta
        | none =>
          match parseTime RFC1123Z ra with
          | some t => if Until t now2 > 0 then Until t now2 else 0
          | none => 0

/-- The result of `doRequest`: an error or a response. -/
inductive DoResult where
  | err (msg : String)
  | resp (r : Response)
  deriving DecidableEq, Repr

/-- The error values that `Get` stores in `lastErr`: the error of `doRequest`,
`HTTP <code>: <status>`, and `read body error: <e>`. -/
inductive HttpErr where
  | request (msg : String)
  | status (code : Int) (status : String)
  | readBody (msg : String)
  deriving DecidableEq, Repr

/-- The error `failed after <n> retries: <lastErr>` that `Get` returns;
`wrapped = none` is a nil `lastErr`. -/
structure GetError where
  retries : Int
  wrapped : Option HttpErr
  deriving DecidableEq, Repr

/-- What one attempt of `Get` meets: the result of `doRequest`, the draw of
`rand.Int63n` and the clock readings of `getRetryAfter`. -/
structure AttemptEnv where
  result : DoResult
  int63n : Int → Int
  now1 : Time
  now2 : Time

/-- The outcome of one iteration of the loop of `Get`: the body returned, or the
value of `lastErr` and the duration slept before `continue`. -/
inductive AttemptOutcome where
  | done (body : String)
  | retry (lastErr : Option HttpErr) (slept : Duration)
  deriving DecidableEq, Repr

/-- One iteration of the loop `for attempt := 0; attempt < c.maxRetries; attempt++`
of `Get`. -/
def Client.getAttempt (c : Client) (parseTime : String → String → Option Time)
    (e : AttemptEnv) (attempt : Nat) (lastErr : Option HttpErr) : AttemptOutcome :=
  match e.result with
  | DoResult.err msg =>
    AttemptOutcome.retry (some (HttpErr.request msg)) (c.calculateBackoff e.int63n attempt)
  | DoResult.resp resp =>
    -- Handle rate-limited responses (429) specially
    if resp.StatusCode = 429 then
      -- Try to honor Retry-After header if present
      if c.getRetryAfter parseTime e.now1 e.now2 (some resp) > 0 then
        AttemptOutcome.retry lastErr (c.getRetryAfter parseTime e.now1 e.now2 (some resp))
      else AttemptOutcome.retry lastErr (c.calculateBackoff e.int63n attempt)
    -- Non-200 responses
    else if resp.StatusCode ≠ 200 then
      AttemptOutcome.retry (some (HttpErr.status resp.StatusCode resp.Status))
        (c.calculateBackoff e.int63n attempt)
    else
      -- Read body
      match resp.BodyErr with
      | some err =>
        AttemptOutcome.retry (some (HttpErr.readBody err)) (c.calculateBackoff e.int63n attempt)
      | none => AttemptOutcome.done resp.Body

/-- The result of `Get` with its trace: the body or the error, the number of
requests made and the durations slept, in order. -/
structure GetResult where
  body : Option String
  err : Option GetError
  requests : Nat
  sleeps : List Duration
  deriving DecidableEq, Repr

/-- The loop of `Get` with `remaining` iterations left, at attempt number
`attempt`. -/
def Client.getLoop (c : Client) (parseTime : String → String → Option Time)
    (env : Nat → AttemptEnv) : Nat → Nat → Option HttpErr → List Duration → GetResult
  | 0, attempt, lastErr, sleeps => ⟨none, some ⟨c.maxRetries, lastErr⟩, attempt, sleeps⟩
  | remaining + 1, attempt, lastErr, sleeps =>
    match c.getAttempt parseTime (env attempt) attempt lastErr with
    | AttemptOutcome.done body => ⟨some body, none, attempt + 1, sleeps⟩
    | AttemptOutcome.retry lastErr slept =>
      c.getLoop parseTime env remaining (attempt + 1) lastErr (sleeps ++ [slept])

/-- The method `Client.Get`.  The loop makes `maxRetries` iterations at most, none
when `maxRetries ≤ 0`; `env n` is what attempt `n` meets. -/
def Client.Get (c : Client) (parseTime : String → String → Option Time)
    (env : Nat → AttemptEnv) : GetResult :=
  c.getLoop parseTime env c.maxRetries.toNat 0 none []

/-! ## internal/redis/client.go: `AddToRecentPosts` -/

/-- A sorted set of the cache: members with their scores, in rank order (by
score, then by member). -/
abbrev ZSet := List (String × Int)

/-- The rank order of a sorted set: lower score first, equal scores by member. -/
def zLess (a b : String × Int) : Bool :=
  decide (a.2 < b.2) || (decide (a.2 = b.2) && decide (a.1 < b.1))

/-- Insertion of an entry at its rank. -/
def zInsert (e : String × Int) : ZSet → ZSet
  | [] => [e]
  | x :: xs => if zLess e x then e :: x :: xs else x :: zInsert e xs

/-- The cache command `ZADD key score member`: a member already present gets the
new score and moves to its new rank. -/
def ZAdd (z : ZSet) (score : Int) (member : String) : ZSet :=
  zInsert (member, score) (z.filter (fun e => e.1 != member))

/-- The cache command `ZREMRANGEBYRANK key start stop`: the members of rank
`start` to `stop` are removed, a negative rank counting from the highest score
(−1 is the last member). -/
def ZRemRangeByRank (z : ZSet) (start stop : Int) : ZSet :=
  let llen : Int := z.length
  let start := if start < 0 then llen + start else start
  let stop := if stop < 0 then llen + stop else stop
  let start := if start < 0 then 0 else start
  if start > stop ∨ start ≥ llen then z
  else
    let stop := if stop ≥ llen then llen - 1 else stop
    z.take start.toNat ++ z.drop (stop.toNat + 1)

/-- The method `Time.Unix`: whole seconds since January 1, 1970 UTC. -/
def Unix (t : Time) : Int := Int.fdiv t 1000000000 - 62135596800

/-- The method `Client.AddToRecentPosts` of the cache client, on the sorted set
`recent_posts`.  The parameter `marshal` is `json.Marshal`; `zaddErr` and
`zremErr` are the errors of the two commands, a failing command leaving the set
as it was.  The score `float64(post.CreatedAt.Unix())` is kept as the integer
(the conversion is monotone, and exact below 2^53). -/
def AddToRecentPosts (marshal : Post → Except String String) (z : ZSet) (post : Post)
    (zaddErr zremErr : Option String) : ZSet × Option String :=
  match marshal post with
  | Except.error err => (z, some err)
  | Except.ok data =>
    -- add to the sorted set with the timestamp as score
    match zaddErr with
    | some err => (z, some err)
    | none =>
      -- keep only the 1000 newest posts
      match zremErr with
      | some err => (ZAdd z (Unix post.CreatedAt) data, some err)
      | none => (ZRemRangeByRank (ZAdd z (Unix post.CreatedAt) data) 0 (-1001), none)

/-! ## Specification-level definitions and example inputs -/

/-- A string has no white space at either end. -/
def Trimmed (s : String) : Prop :=
  (∀ c, s.data.head? = some c → isSpace c = false) ∧
  (∀ c, s.data.getLast? = some c → isSpace c = false)

/-- The post that `ValidatePost` leaves behind, field by field. -/
def sanitized (lower : Char → Char) (p : Post) : Post :=
  { ID := p.ID
    Author := if TrimSpace p.Author = "" then "Anonymous" else TrimSpace p.Author
    Content := TrimSpace p.Content
    Topic := if ToLower lower (TrimSpace p.Topic) = "" then "programming"
      else ToLower lower (TrimSpace p.Topic)
    Sentiment := p.Sentiment
    Likes := if p.Likes < 0 then 0 else p.Likes
    Comments := if p.Comments < 0 then 0 else p.Comments
    Shares := if p.Shares < 0 then 0 else p.Shares
    Platform := p.Platform
    CreatedAt := p.CreatedAt }

/-- The existence marker `k` is present in the cache. -/
def isSeen (r : Redis) (k : String) : Bool := (r.seen k).isSome

/-- A post that the loop body skips whatever comes later: rejected by the
validator, or its content hash or its id is already marked. -/
def Blocked (hash : String → String) (lower : Char → Char) (b : BaseCrawler) (r : Redis)
    (post : Post) : Prop :=
  (validateStep lower b post).1 = false ∨
  isSeen r (seenKey "content_hash" (contentHash hash (validateStep lower b post).2)) = true ∨
  isSeen r (seenKey b.source (validateStep lower b post).2.ID) = true

/-- The invariant of the dedup gate: every produced post is an accepted,
sanitised post, no two produced posts share a content hash, and the content hash
of every produced post is marked. -/
def DedupInv (hash : String → String) (lower : Char → Char) (st : Pipeline) : Prop :=
  (∀ q ∈ st.produced, ∃ p, (ValidatePost lower p).1 = true ∧ (ValidatePost lower p).2.2 = q) ∧
  (st.produced.map (contentHash hash)).Nodup ∧
  (∀ q ∈ st.produced, isSeen st.redis (seenKey "content_hash" (contentHash hash q)) = true)

/-- Two crawls of the scenario of the specification: source `hn` sends a post,
then source `medium` meets the same content and author under another id. -/
def exampleCalls : List CrawlCall :=
  [ { source := "hn", kafkaTopic := "posts",
      posts := [⟨"a1", "X", "Hello", "ai", "neutral", 3, 0, 0, "hackernews", 1⟩],
      env := ⟨10, 11, false, false, [PostOutcomes.ok]⟩ },
    { source := "medium", kafkaTopic := "posts",
      posts := [⟨"b9", "X", "Hello", "ai", "neutral", 0, 0, 0, "medium", 2⟩],
      env := ⟨20, 21, false, false, [PostOutcomes.ok]⟩ } ]

/-- A batch with a fresh post, a post of blank content and a repeat of the first. -/
def exampleBatch : List Post :=
  [ ⟨"a1", "X", "Hello", "ai", "neutral", 3, 0, 0, "hackernews", 1⟩,
    ⟨"a2", "Y", "   ", "ai", "neutral", 0, 0, 0, "hackernews", 1⟩,
    ⟨"a3", " X", "Hello ", "cloud", "neutral", 0, 0, 0, "hackernews", 1⟩ ]

/-- A wrapped function that always fails, counting its invocations. -/
def failingFn : Nat → Option String × Nat := fun n => (some "boom", n + 1)

/-- A wrapped function that always succeeds, counting its invocations. -/
def succeedingFn : Nat → Option String × Nat := fun n => (none, n + 1)

/-- A breaker opened by one failure at time 11: `New 1 1000` after a failing call. -/
def openBreaker : CircuitBreaker Nat :=
  (runCalls (New 1 1000) [⟨failingFn, ⟨10, 10, 11⟩⟩] 0).cb

/-- Cache operations that only count the calls made. -/
def countingOps : CacheOps Nat :=
  { CachePost := fun _ _ r => (r + 1, none)
    IncrementCounter := fun _ r => r + 1
    AddToRecentPosts := fun _ r => r + 1 }

/-- A handler of batch size 2 whose buffer holds two posts. -/
def fullHandler : PostHandler Nat :=
  ⟨0, ⟨[], []⟩, 2,
    [⟨"a1", "X", "Hello", "ai", "neutral", 3, 0, 0, "hackernews", 1⟩,
     ⟨"a2", "Y", "World", "ai", "neutral", 0, 0, 0, "hackernews", 2⟩], 2⟩

/-- A decoder that accepts only the payload `ok` and `bad-post`. -/
def exampleUnmarshal : String → Option Post := fun v =>
  if v = "ok" then some ⟨"a1", "X", "Hello", "ai", "neutral", 3, 0, 0, "hackernews", 1⟩
  else if v = "bad-post" then some ⟨"a2", "Y", "", "ai", "neutral", 0, 0, 0, "hackernews", 2⟩
  else none

/-- A handler that counts the posts it accepts and fails on empty content. -/
def exampleHandle : Nat → Post → Nat × Option String := fun n p =>
  if p.Content = "" then (n, some "empty") else (n + 1, none)

/-- The number of posts of a window that carry the topic `t`. -/
def topicCount (posts : List Post) (t : String) : Int :=
  ((posts.filter (fun p => decide (p.Topic = t))).length : Int)

/-- The total of the likes of a window. -/
def totalLikes (posts : List Post) : Int := (posts.map (fun p => p.Likes)).sum

/-- The exact mean of the likes of a window. -/
def exactMeanLikes (posts : List Post) : ℚ := (totalLikes posts : ℚ) / (posts.length : ℚ)

/-- A post with the given id and likes. -/
def likedPost (id : String) (likes : Int) : Post :=
  ⟨id, "X", "Hello", "ai", "neutral", likes, 0, 0, "hackernews", 1⟩

/-- A window whose likes are 7, 1, 1, 1: exact mean 2.5, integer mean 2. -/
def skewedWindow : Engine :=
  ⟨[likedPost "p1" 7, likedPost "p2" 1, likedPost "p3" 1, likedPost "p4" 1], 1000⟩

/-- What an insight says, its timestamp left out. -/
def Insight.core (i : Insight) : String × String × String × ℚ :=
  (i.Type_, i.Title, i.Description, i.Confidence)

/-- The integer mean of the likes of a window: the quotient truncated toward zero. -/
def integerMeanLikes (posts : List Post) : Int := Int.tdiv (totalLikes posts) (posts.length : Int)

/-- The engagement of a post: likes + 2·comments + 3·shares. -/
def engagementOf (post : Post) : Int := post.Likes + 2 * post.Comments + 3 * post.Shares

/-- A window of seven `ai` posts and two `cloud` posts. -/
def topicWindow : Engine :=
  ⟨List.replicate 7 (likedPost "p" 1) ++
    List.replicate 2 ⟨"q", "Y", "World", "cloud", "neutral", 0, 0, 0, "hackernews", 1⟩, 1000⟩

/-- One pass of the inner loop seen from the element held at position `i`: the
element carried along, and what the pass leaves behind it. -/
def pass : TrendingPost → List TrendingPost → TrendingPost × List TrendingPost
  | x, [] => (x, [])
  | x, y :: ys =>
    if y.Score > x.Score then ((pass y ys).1, x :: (pass y ys).2)
    else ((pass x ys).1, y :: (pass x ys).2)

/-- A scored post without its rank. -/
def entryOf (tp : TrendingPost) : Post × ℚ := (tp.Post, tp.Score)

/-- Three posts added in the order a, b, c with engagement 1, 1 and 2. -/
def tiedScorer : Scorer :=
  ⟨10, [likedPost "a" 1, likedPost "b" 1, likedPost "c" 2]⟩

/-- One pass of a bubble sort by descending score, carrying the element `x`:
neighbours are swapped when the later one has the greater score. -/
def bubbleCarry : TrendingPost → List TrendingPost → List TrendingPost
  | x, [] => [x]
  | x, y :: ys => if y.Score > x.Score then y :: bubbleCarry x ys else x :: bubbleCarry y ys

/-- The bubble sort that the comments of `GetTrending` and `GetMostEngaging`
name: as many passes of neighbour swaps as there are entries. -/
def bubbleSort (a : List TrendingPost) : List TrendingPost :=
  Nat.iterate (fun l => match l with
    | [] => []
    | x :: xs => bubbleCarry x xs) a.length a

/-- The invariant of the breaker created by `New maxFailures _`: the threshold and
the limit are the ones of `New`, a Closed breaker is below the limit, an Open
breaker has reached it, and the success count is 0 or 1. -/
def BreakerInv {σ : Type} (maxFailures : Int) (cb : CircuitBreaker σ) : Prop :=
  cb.successThreshold = 2 ∧ cb.maxFailures = maxFailures ∧
  (cb.state = State.StateClosed → cb.failureCount < maxFailures) ∧
  (cb.state = State.StateOpen → cb.failureCount ≥ maxFailures) ∧
  (cb.successCount = 0 ∨ cb.successCount = 1)

/-- The four transitions of the state table. -/
def allowedTransitions : List (State × State) :=
  [(State.StateClosed, State.StateOpen), (State.StateOpen, State.StateHalfOpen),
   (State.StateHalfOpen, State.StateOpen), (State.StateHalfOpen, State.StateClosed)]

/-- A state-change callback that records each invocation, oldest first, in the
second component of the world. -/
def logTransition {W : Type} : State → State → W × List (State × State) → W × List (State × State) :=
  fun a b w => (w.1, w.2 ++ [(a, b)])

/-- A wrapped function that acts on the first component of the world and leaves
the record of the callback alone. -/
def liftFn {W : Type} (g : W → Option String × W) :
    W × List (State × State) → Option String × (W × List (State × State)) :=
  fun w => ((g w.1).1, ((g w.1).2, w.2))

/-- A run of calls of functions that leave the record of the callback alone. -/
def liftCalls {W : Type} (calls : List ((W → Option String × W) × Clock)) :
    List (CallInput (W × List (State × State))) :=
  calls.map (fun c => ⟨liftFn c.1, c.2⟩)

/-- The recency term of the score: 0.5·(1/(1 + hours/24)). -/
def recencyTerm (post : Post) (now : Time) : ℚ :=
  0.5 * (1 / (1 + Hours (now - post.CreatedAt) / 24))

/-- The engagement term of the score: 0.3·min(engagement/avgEngagement, 1). -/
def engagementTerm (s : Scorer) (post : Post) : ℚ :=
  0.3 * min ((engagementOf post : ℚ) / (s.avgEngagement : ℚ)) 1

/-- The virality term of the score: 0.2·0.5 when engagement > 2·avgEngagement,
else 0. -/
def viralityTerm (s : Scorer) (post : Post) : ℚ :=
  0.2 * (if (engagementOf post : ℚ) > 2 * (s.avgEngagement : ℚ) then (0.5 : ℚ) else 0)

/-- A post with content `a|b` and author `c`. -/
def collidingPostA : Post := ⟨"x1", "c", "a|b", "ai", "neutral", 0, 0, 0, "hackernews", 1⟩

/-- A post with content `a` and author `b|c`. -/
def collidingPostB : Post := ⟨"x2", "b|c", "a", "ai", "neutral", 0, 0, 0, "medium", 2⟩

/-- The facts about the table of `unicode.ToLower` that idempotence of
`ValidatePost` rests on: lower-casing twice is lower-casing once, no rune
lower-cases to an ASCII capital, and only white space lower-cases to white space. -/
def LowerTable (lower : Char → Char) : Prop :=
  (∀ c, lower (lower c) = lower c) ∧
  (∀ c, asciiLower (lower c) = lower c) ∧
  (∀ c, isSpace c = false → isSpace (lower c) = false)

/-- The backoff of the specification before jitter: min(baseDelay · 2^attempt,
maxDelay), over the integers. -/
def specBackoff (c : Client) (attempt : Nat) : Int := min (c.baseDelay * 2 ^ attempt) c.maxDelay

/-- A draw of `rand.Int63n` that is always 0. -/
def noJitter : Int → Int := fun _ => 0

/-- A 429 response with the given headers. -/
def tooManyRequests (header : List (String × String)) : Response :=
  ⟨429, "429 Too Many Requests", header, "", none⟩

/-- A 500 response. -/
def serverError : Response := ⟨500, "500 Internal Server Error", [], "", none⟩

/-- A 200 response with the given body. -/
def okResponse (body : String) : Response := ⟨200, "200 OK", [], body, none⟩

/-- Every attempt meets a 429 response without `Retry-After`. -/
def rateLimitedEnv : Nat → AttemptEnv :=
  fun _ => ⟨DoResult.resp (tooManyRequests []), noJitter, 0, 0⟩

/-- The first two attempts meet a 500 response, the later ones a 429 response. -/
def errorThenRateLimitedEnv : Nat → AttemptEnv :=
  fun n => if n < 2 then ⟨DoResult.resp serverError, noJitter, 0, 0⟩
    else ⟨DoResult.resp (tooManyRequests []), noJitter, 0, 0⟩

/-- The first attempt meets a 429 response with `Retry-After: v`, the later ones a
200 response. -/
def retryAfterEnv (v : String) : Nat → AttemptEnv :=
  fun n => if n = 0 then ⟨DoResult.resp (tooManyRequests [("Retry-After", v)]), noJitter, 0, 0⟩
    else ⟨DoResult.resp (okResponse "ok"), noJitter, 0, 0⟩

/-- A time parser that accepts nothing. -/
def noDate : String → String → Option Time := fun _ _ => none

/-- A time parser that reads one RFC1123 date, as the instant 5 s after the zero
instant. -/
def oneDate : String → String → Option Time :=
  fun layout value =>
    if layout = RFC1123 ∧ value = "Wed, 21 Oct 2015 07:28:00 GMT" then some 5000000000
    else none

/-- The value `ra` holds no date of the given layout that lies after `now`. -/
def NoFutureDate (parseTime : String → String → Option Time) (layout ra : String)
    (now : Time) : Prop :=
  ∀ t, parseTime layout ra = some t → Until t now ≤ 0

/-- The cases of the `Retry-After` value `ra` in which the computed backoff is
used: the header is absent or empty; it is an integer whose duration in `int64`
nanoseconds is not positive; it is no integer and no HTTP date lying in the
future. -/
def BackoffCase (parseTime : String → String → Option Time) (now1 now2 : Time)
    (ra : String) : Prop :=
  ra = "" ∨
  (∃ n, Atoi ra = some n ∧ wrapInt64 (n * Second) ≤ 0) ∨
  (Atoi ra = none ∧ NoFutureDate parseTime RFC1123 ra now1 ∧
    NoFutureDate parseTime RFC1123Z ra now2)

/-- The positive wait `d` that the `Retry-After` value `ra` asks for: its integer
number of seconds as `int64` nanoseconds, or the time until its RFC1123 date, or,
failing a future RFC1123 date, the time until its RFC1123Z date. -/
def HeaderWait (parseTime : String → String → Option Time) (now1 now2 : Time)
    (ra : String) (d : Duration) : Prop :=
  ra ≠ "" ∧ 0 < d ∧
  ((∃ n, Atoi ra = some n ∧ d = wrapInt64 (n * Second)) ∨
   (Atoi ra = none ∧ ∃ t, parseTime RFC1123 ra = some t ∧ d = Until t now1) ∨
   (Atoi ra = none ∧ NoFutureDate parseTime RFC1123 ra now1 ∧
     ∃ t, parseTime RFC1123Z ra = some t ∧ d = Until t now2))

/-- The scores of a sorted set ascend with the rank. -/
def ZSorted (z : ZSet) : Prop := List.Pairwise (fun a b => a.2 ≤ b.2) z

/-- A sorted set of `n` members `p`, `pp`, `ppp`, … with the scores 0 to `n - 1`. -/
def rangeSet (n : Nat) : ZSet :=
  (List.range n).map (fun (i : Nat) => (String.mk (List.replicate (i + 1) 'p'), (i : Int)))

/-- A sorted set of 1000 members with the scores 0 to 999. -/
def fullRecentSet : ZSet := rangeSet 1000

/-- A valid post of source `hn`. -/
def freshPost : Post := ⟨"a1", "X", "Hello", "ai", "neutral", 3, 0, 0, "hackernews", 1⟩

/-! ## Properties -/

theorem TrimSpace_data (s : String) :
    (TrimSpace s).data = List.rdropWhile isSpace (List.dropWhile isSpace s.data) := rfl

theorem TrimSpace_trimmed (s : String) : Trimmed (TrimSpace s) := by
  have hpre : List.rdropWhile isSpace (List.dropWhile isSpace s.data) <+:
      List.dropWhile isSpace s.data := List.rdropWhile_prefix isSpace _
  constructor
  · intro c hc
    rw [TrimSpace_data] at hc
    obtain ⟨t, ht⟩ := hpre
    have hne : List.rdropWhile isSpace (List.dropWhile isSpace s.data) ≠ [] := by
      intro h0; rw [h0] at hc; simp at hc
    have h1 : (List.dropWhile isSpace s.data).head? = some c := by
      rw [← ht, List.head?_append_of_ne_nil _ hne]; exact hc
    have h2 := List.head?_dropWhile_not isSpace s.data
    rw [h1] at h2
    simpa using h2
  · intro c hc
    rw [TrimSpace_data] at hc
    have hne : List.rdropWhile isSpace (List.dropWhile isSpace s.data) ≠ [] := by
      intro h0; rw [h0] at hc; simp at hc
    have h1 := List.rdropWhile_last_not isSpace _ hne
    rw [List.getLast?_eq_getLast _ hne] at hc
    simp only [Option.some.injEq] at hc
    rw [hc] at h1
    simpa using h1

theorem TrimSpace_eq_empty_of_blank (s : String) (h : ∀ c ∈ s.data, isSpace c = true) :
    TrimSpace s = "" := by
  apply String.ext
  rw [TrimSpace_data]
  have : List.dropWhile isSpace s.data = [] := List.dropWhile_eq_nil_iff.mpr h
  rw [this]; rfl

theorem ToLower_eq_empty_iff (lower : Char → Char) (s : String) :
    ToLower lower s = "" ↔ s = "" := by
  unfold ToLower
  split <;> simp [String.ext_iff]

theorem ValidatePost_post (lower : Char → Char) (p : Post) :
    (ValidatePost lower p).2.2 = sanitized lower p := by
  obtain ⟨id, au, co, tp, se, li, cm, sh, pl, cr⟩ := p
  by_cases h1 : TrimSpace au = "" <;>
  by_cases h2 : ToLower lower (TrimSpace tp) = "" <;>
  by_cases h3 : li < 0 <;>
  by_cases h4 : cm < 0 <;>
  by_cases h5 : sh < 0 <;>
  by_cases h6 : TrimSpace co = "" <;>
  by_cases h7 : IsZero cr = true <;>
  simp [ValidatePost, sanitized, h1, h2, h3, h4, h5, h6, h7]

theorem ValidatePost_ok (lower : Char → Char) (p : Post) :
    (ValidatePost lower p).1 = !decide (TrimSpace p.Content = "") := by
  by_cases h1 : TrimSpace p.Content = "" <;> by_cases h2 : IsZero p.CreatedAt = true <;>
    simp [ValidatePost, h1, h2, apply_ite Post.CreatedAt]

theorem TrimSpace_idem (s : String) : TrimSpace (TrimSpace s) = TrimSpace s := by
  apply String.ext
  rw [TrimSpace_data]
  have h := (TrimSpace_trimmed s).1
  have hd : List.dropWhile isSpace (TrimSpace s).data = (TrimSpace s).data := by
    cases hl : (TrimSpace s).data with
    | nil => rfl
    | cons c l =>
      have hc := h c (by rw [hl]; rfl)
      simp [List.dropWhile_cons, hc]
  rw [hd, TrimSpace_data, List.rdropWhile_idempotent]

theorem MarkAsSeen_isSeen_mono (r : Redis) (ns key : String) (ttl : Duration) (f : Bool)
    (k : String) (h : isSeen r k = true) : isSeen (MarkAsSeen r ns key ttl f).1 k = true := by
  unfold MarkAsSeen isSeen at *
  cases f <;> simp only [Bool.false_eq_true, if_false, if_true]
  · split
    · rfl
    · exact h
  · exact h

theorem MarkAsSeen_isSeen_self (r : Redis) (ns key : String) (ttl : Duration) :
    isSeen (MarkAsSeen r ns key ttl false).1 (seenKey ns key) = true := by
  simp [MarkAsSeen, isSeen]

theorem SetLastCrawl_seen (r : Redis) (source : String) (now : Time) (f : Bool) :
    (SetLastCrawl r source now f).1.seen = r.seen := by
  unfold SetLastCrawl
  cases f <;> rfl

theorem processPost_ok_eq (hash : String → String) (lower : Char → Char) (b : BaseCrawler)
    (post : Post) (s : Loop) :
    processPost hash lower b PostOutcomes.ok post s =
      if (validateStep lower b post).1 = false ∨
          isSeen s.pipe.redis
            (seenKey "content_hash" (contentHash hash (validateStep lower b post).2)) = true ∨
          isSeen s.pipe.redis (seenKey b.source (validateStep lower b post).2.ID) = true
      then { s with skipped := s.skipped + 1 }
      else
        { sent := s.sent + 1
          skipped := s.skipped
          pipe :=
            ⟨(MarkAsSeen
                (MarkAsSeen s.pipe.redis b.source (validateStep lower b post).2.ID
                  (7 * 24 * Hour) false).1
                "content_hash" (contentHash hash (validateStep lower b post).2)
                (365 * 24 * Hour) false).1,
             s.pipe.produced ++ [(validateStep lower b post).2]⟩ } := by
  unfold processPost
  simp only [PostOutcomes.ok, CheckIfSeen, SendPost, contentHash, isSeen]
  cases h1 : (validateStep lower b post).1 <;>
  cases h2 : (s.pipe.redis.seen (seenKey "content_hash"
      (hash ((validateStep lower b post).2.Content ++ "|" ++
        (validateStep lower b post).2.Author)))).isSome <;>
  cases h3 : (s.pipe.redis.seen (seenKey b.source (validateStep lower b post).2.ID)).isSome <;>
  simp

theorem headD_ok (os : List PostOutcomes) (h : ∀ o ∈ os, o = PostOutcomes.ok) :
    os.headD PostOutcomes.ok = PostOutcomes.ok := by
  cases os with
  | nil => rfl
  | cons o os => exact h o (List.mem_cons_self o os)

theorem tail_ok (os : List PostOutcomes) (h : ∀ o ∈ os, o = PostOutcomes.ok) :
    ∀ o ∈ os.tail, o = PostOutcomes.ok :=
  fun o ho => h o (List.mem_of_mem_tail ho)

theorem processPost_isSeen_mono (hash : String → String) (lower : Char → Char)
    (b : BaseCrawler) (o : PostOutcomes) (post : Post) (s : Loop) (k : String)
    (h : isSeen s.pipe.redis k = true) :
    isSeen (processPost hash lower b o post s).pipe.redis k = true := by
  unfold processPost
  simp only []
  split_ifs
  all_goals first
    | exact h
    | exact MarkAsSeen_isSeen_mono _ _ _ _ _ _ (MarkAsSeen_isSeen_mono _ _ _ _ _ _ h)

theorem processLoop_isSeen_mono (hash : String → String) (lower : Char → Char)
    (b : BaseCrawler) (posts : List Post) :
    ∀ (os : List PostOutcomes) (s : Loop) (k : String), isSeen s.pipe.redis k = true →
      isSeen (processLoop hash lower b posts os s).pipe.redis k = true := by
  induction posts with
  | nil => intro os s k h; exact h
  | cons post posts ih =>
    intro os s k h
    exact ih _ _ k (processPost_isSeen_mono hash lower b _ post s k h)

theorem Blocked_mono (hash : String → String) (lower : Char → Char) (b : BaseCrawler)
    (r r1 : Redis) (post : Post) (hm : ∀ k, isSeen r k = true → isSeen r1 k = true)
    (h : Blocked hash lower b r post) : Blocked hash lower b r1 post := by
  rcases h with h | h | h
  · exact Or.inl h
  · exact Or.inr (Or.inl (hm _ h))
  · exact Or.inr (Or.inr (hm _ h))

theorem processPost_ok_blocked (hash : String → String) (lower : Char → Char)
    (b : BaseCrawler) (post : Post) (s : Loop) :
    Blocked hash lower b (processPost hash lower b PostOutcomes.ok post s).pipe.redis post := by
  rw [processPost_ok_eq]
  split
  · assumption
  · exact Or.inr (Or.inl (MarkAsSeen_isSeen_self _ _ _ _))

theorem processLoop_ok_blocked (hash : String → String) (lower : Char → Char)
    (b : BaseCrawler) (posts : List Post) :
    ∀ (os : List PostOutcomes) (s : Loop), (∀ o ∈ os, o = PostOutcomes.ok) →
      ∀ post ∈ posts, Blocked hash lower b (processLoop hash lower b posts os s).pipe.redis post := by
  induction posts with
  | nil => intro os s _ post hp; simp at hp
  | cons p posts ih =>
    intro os s hok post hp
    simp only [processLoop]
    rw [headD_ok os hok]
    rcases List.mem_cons.mp hp with rfl | hp
    · exact Blocked_mono hash lower b _ _ _
        (fun k hk => processLoop_isSeen_mono hash lower b posts _ _ k hk)
        (processPost_ok_blocked hash lower b post s)
    · exact ih _ _ (tail_ok os hok) post hp

theorem processLoop_all_blocked (hash : String → String) (lower : Char → Char)
    (b : BaseCrawler) (posts : List Post) :
    ∀ (os : List PostOutcomes) (s : Loop), (∀ o ∈ os, o = PostOutcomes.ok) →
      (∀ post ∈ posts, Blocked hash lower b s.pipe.redis post) →
      processLoop hash lower b posts os s = { s with skipped := s.skipped + posts.length } := by
  induction posts with
  | nil => intro os s _ _; rfl
  | cons p posts ih =>
    intro os s hok hb
    simp only [processLoop]
    rw [headD_ok os hok, processPost_ok_eq]
    have hp : Blocked hash lower b s.pipe.redis p := hb p (List.mem_cons_self p posts)
    unfold Blocked at hp
    rw [if_pos hp]
    rw [ih os.tail ⟨s.sent, s.skipped + 1, s.pipe⟩ (tail_ok os hok)
      (fun post h => hb post (List.mem_cons_of_mem p h))]
    simp only [List.length_cons]
    congr 1
    omega

theorem DedupInv_empty (hash : String → String) (lower : Char → Char) :
    DedupInv hash lower Pipeline.empty := by
  refine ⟨?_, ?_, ?_⟩ <;> simp [Pipeline.empty]

theorem DedupInv_redis (hash : String → String) (lower : Char → Char) (st : Pipeline)
    (r : Redis) (hr : r.seen = st.redis.seen) (h : DedupInv hash lower st) :
    DedupInv hash lower { st with redis := r } := by
  refine ⟨h.1, h.2.1, ?_⟩
  intro q hq
  have := h.2.2 q hq
  unfold isSeen at *
  rw [hr]
  exact this

theorem validateStep_new (lower : Char → Char) (source topic : String) (post : Post) :
    validateStep lower (NewBaseCrawler source topic) post =
      ((ValidatePost lower post).1, (ValidatePost lower post).2.2) := rfl

theorem validateStep_new_fst (lower : Char → Char) (source topic : String) (post : Post) :
    (validateStep lower (NewBaseCrawler source topic) post).1 = (ValidatePost lower post).1 := by
  rw [validateStep_new]

theorem validateStep_new_snd (lower : Char → Char) (source topic : String) (post : Post) :
    (validateStep lower (NewBaseCrawler source topic) post).2 = (ValidatePost lower post).2.2 := by
  rw [validateStep_new]

theorem processPost_inv (hash : String → String) (lower : Char → Char) (source topic : String)
    (post : Post) (s : Loop) (h : DedupInv hash lower s.pipe) :
    DedupInv hash lower
      (processPost hash lower (NewBaseCrawler source topic) PostOutcomes.ok post s).pipe := by
  rw [processPost_ok_eq]
  have hval : ∃ p, (ValidatePost lower p).1 =
        (validateStep lower (NewBaseCrawler source topic) post).1 ∧
      (ValidatePost lower p).2.2 = (validateStep lower (NewBaseCrawler source topic) post).2 := by
    exact ⟨post, (validateStep_new_fst lower source topic post).symm,
      (validateStep_new_snd lower source topic post).symm⟩
  generalize validateStep lower (NewBaseCrawler source topic) post = v at hval ⊢
  split
  · exact h
  · rename_i hc
    simp only [not_or] at hc
    obtain ⟨hv, hh, _⟩ := hc
    simp only [Bool.not_eq_false] at hv
    obtain ⟨p0, hp1, hp2⟩ := hval
    refine ⟨?_, ?_, ?_⟩
    · intro q hq
      rcases List.mem_append.mp hq with hq | hq
      · exact h.1 q hq
      · rw [List.mem_singleton.mp hq]
        exact ⟨p0, hp1.trans hv, hp2⟩
    · simp only [List.map_append, List.map_cons, List.map_nil]
      refine List.Nodup.append h.2.1 (List.nodup_singleton _) ?_
      rw [List.disjoint_singleton]
      intro hmem
      obtain ⟨q, hq, hqe⟩ := List.mem_map.mp hmem
      have := h.2.2 q hq
      rw [hqe] at this
      exact hh this
    · intro q hq
      rcases List.mem_append.mp hq with hq | hq
      · exact MarkAsSeen_isSeen_mono _ _ _ _ _ _ (MarkAsSeen_isSeen_mono _ _ _ _ _ _ (h.2.2 q hq))
      · rw [List.mem_singleton.mp hq]
        exact MarkAsSeen_isSeen_self _ _ _ _

theorem processLoop_inv (hash : String → String) (lower : Char → Char) (source topic : String)
    (posts : List Post) :
    ∀ (os : List PostOutcomes) (s : Loop), (∀ o ∈ os, o = PostOutcomes.ok) →
      DedupInv hash lower s.pipe →
      DedupInv hash lower
        (processLoop hash lower (NewBaseCrawler source topic) posts os s).pipe := by
  induction posts with
  | nil => intro os s _ h; exact h
  | cons p posts ih =>
    intro os s hok h
    simp only [processLoop]
    rw [headD_ok os hok]
    exact ih _ _ (tail_ok os hok) (processPost_inv hash lower source topic p s h)

theorem ProcessAndSend_inv (hash : String → String) (lower : Char → Char)
    (source topic : String) (posts : List Post) (env : CrawlEnv) (st : Pipeline)
    (hok : env.allSucceed) (h : DedupInv hash lower st) :
    DedupInv hash lower
      (ProcessAndSend hash lower (NewBaseCrawler source topic) posts env st).2 := by
  unfold ProcessAndSend
  simp only []
  split
  · exact DedupInv_redis hash lower st _ (SetLastCrawl_seen _ _ _ _) h
  · refine DedupInv_redis hash lower _ _ (SetLastCrawl_seen _ _ _ _) ?_
    exact processLoop_inv hash lower source topic posts env.perPost _ hok
      (DedupInv_redis hash lower st _ (SetLastCrawl_seen _ _ _ _) h)

theorem runCrawls_inv (hash : String → String) (lower : Char → Char) (calls : List CrawlCall) :
    ∀ st : Pipeline, (∀ c ∈ calls, c.env.allSucceed) → DedupInv hash lower st →
      DedupInv hash lower (runCrawls hash lower calls st) := by
  induction calls with
  | nil => intro st _ h; exact h
  | cons c cs ih =>
    intro st hok h
    simp only [runCrawls]
    exact ih _ (fun c1 h1 => hok c1 (List.mem_cons_of_mem c h1))
      (ProcessAndSend_inv hash lower c.source c.kafkaTopic c.posts c.env st
        (hok c (List.mem_cons_self c cs)) h)

theorem ProcessAndSend_duplicate (hash : String → String) (lower : Char → Char)
    (b : BaseCrawler) (p : Post) (env : CrawlEnv) (st : Pipeline) (hok : env.allSucceed)
    (hb : Blocked hash lower b st.redis p) :
    (ProcessAndSend hash lower b [p] env st).1 = ⟨0, 1, none⟩ ∧
    (ProcessAndSend hash lower b [p] env st).2.produced = st.produced := by
  have hb2 : ∀ post ∈ [p], Blocked hash lower b
      (SetLastCrawl st.redis b.source env.startNow env.firstLastCrawlFails).1 post := by
    intro post hpost
    rw [List.mem_singleton.mp hpost]
    refine Blocked_mono hash lower b _ _ p ?_ hb
    intro k hk
    unfold isSeen at *
    rw [SetLastCrawl_seen]
    exact hk
  have := processLoop_all_blocked hash lower b [p] env.perPost
    ⟨0, 0, { st with redis := (SetLastCrawl st.redis b.source env.startNow
      env.firstLastCrawlFails).1 }⟩ hok hb2
  rw [ProcessAndSend]
  simp only [List.length_cons, Nat.add_one_ne_zero, if_false]
  rw [this]
  exact ⟨rfl, rfl⟩

/-- Claim C1: over every run of `ProcessAndSend` calls (any sources, any batches)
against one shared dedup store that starts empty, with no failing store or
producer operation, every post handed to the producer is the sanitised form of a
post that `ValidatePost` accepted and has non-empty trimmed content, no two
posts handed to the producer have the same content hash, and a post of any id
from any source with the content and author of a post already sent is skipped. -/
theorem dedup_gate_invariant (hash : String → String) (lower : Char → Char)
    (calls : List CrawlCall) (hok : ∀ c ∈ calls, c.env.allSucceed) :
    (∀ q ∈ (runCrawls hash lower calls Pipeline.empty).produced,
      (∃ p, (ValidatePost lower p).1 = true ∧ (ValidatePost lower p).2.2 = q) ∧
      q.Content ≠ "" ∧ TrimSpace q.Content = q.Content) ∧
    ((runCrawls hash lower calls Pipeline.empty).produced.map (contentHash hash)).Nodup ∧
    (∀ q ∈ (runCrawls hash lower calls Pipeline.empty).produced,
      ∀ (source topic : String) (p : Post) (env : CrawlEnv), env.allSucceed →
        p.Content = q.Content → p.Author = q.Author →
        (ProcessAndSend hash lower (NewBaseCrawler source topic) [p] env
          (runCrawls hash lower calls Pipeline.empty)).1 = ⟨0, 1, none⟩ ∧
        (ProcessAndSend hash lower (NewBaseCrawler source topic) [p] env
          (runCrawls hash lower calls Pipeline.empty)).2.produced =
          (runCrawls hash lower calls Pipeline.empty).produced) := by
  have inv := runCrawls_inv hash lower calls Pipeline.empty hok (DedupInv_empty hash lower)
  have hfix : ∀ q ∈ (runCrawls hash lower calls Pipeline.empty).produced,
      q.Content ≠ "" ∧ TrimSpace q.Content = q.Content ∧
      (if TrimSpace q.Author = "" then "Anonymous" else TrimSpace q.Author) = q.Author := by
    intro q hq
    obtain ⟨p0, hv, hp0⟩ := inv.1 q hq
    rw [ValidatePost_post] at hp0
    rw [ValidatePost_ok] at hv
    have hne : TrimSpace p0.Content ≠ "" := by simpa using hv
    subst hp0
    refine ⟨hne, TrimSpace_idem _, ?_⟩
    show (if TrimSpace (sanitized lower p0).Author = "" then "Anonymous"
      else TrimSpace (sanitized lower p0).Author) = (sanitized lower p0).Author
    unfold sanitized
    simp only []
    by_cases ha : TrimSpace p0.Author = ""
    · rw [if_pos ha]; rfl
    · rw [if_neg ha, TrimSpace_idem, if_neg ha]
  refine ⟨fun q hq => ⟨inv.1 q hq, (hfix q hq).1, (hfix q hq).2.1⟩, inv.2.1, ?_⟩
  intro q hq source topic p env henv hc ha
  apply ProcessAndSend_duplicate hash lower _ p env _ henv
  by_cases hv : (validateStep lower (NewBaseCrawler source topic) p).1 = false
  · exact Or.inl hv
  · refine Or.inr (Or.inl ?_)
    have hval : (validateStep lower (NewBaseCrawler source topic) p).2 = sanitized lower p := by
      rw [validateStep_new_snd]
      exact ValidatePost_post lower p
    have heq : contentHash hash (sanitized lower p) = contentHash hash q := by
      unfold contentHash
      have e1 : (sanitized lower p).Content = q.Content := by
        show TrimSpace p.Content = q.Content
        rw [hc]; exact (hfix q hq).2.1
      have e2 : (sanitized lower p).Author = q.Author := by
        show (if TrimSpace p.Author = "" then "Anonymous" else TrimSpace p.Author) = q.Author
        rw [ha]; exact (hfix q hq).2.2
      rw [e1, e2]
    rw [hval, heq]
    exact inv.2.2 q hq

/-- Witness of C1 on the scenario of the specification: only the first post is
produced. -/
theorem dedup_gate_invariant_witness :
    (∀ c ∈ exampleCalls, c.env.allSucceed) ∧
    (runCrawls (fun s => s) Char.toLower exampleCalls Pipeline.empty).produced =
      [⟨"a1", "X", "Hello", "ai", "neutral", 3, 0, 0, "hackernews", 1⟩] ∧
    ((runCrawls (fun s => s) Char.toLower exampleCalls Pipeline.empty).produced.map
      (contentHash (fun s => s))).Nodup :=
  have h : ∀ c ∈ exampleCalls, c.env.allSucceed := by
    simp [exampleCalls, CrawlEnv.allSucceed]
  ⟨h, by decide, (dedup_gate_invariant (fun s => s) Char.toLower exampleCalls h).2.1⟩

/-- Claim C2: when `ProcessAndSend` is called twice in a row with the same batch
and no operation of the dedup store or of the producer fails, the second call
sends nothing and skips every post of the batch. -/
theorem ProcessAndSend_twice (hash : String → String) (lower : Char → Char) (b : BaseCrawler)
    (posts : List Post) (env1 env2 : CrawlEnv) (st : Pipeline)
    (h1 : env1.allSucceed) (h2 : env2.allSucceed) :
    (ProcessAndSend hash lower b posts env2
        (ProcessAndSend hash lower b posts env1 st).2).1.sent = 0 ∧
    (ProcessAndSend hash lower b posts env2
        (ProcessAndSend hash lower b posts env1 st).2).1.skipped = posts.length := by
  cases posts with
  | nil => exact ⟨rfl, rfl⟩
  | cons p ps =>
    have hb := processLoop_ok_blocked hash lower b (p :: ps) env1.perPost
      ⟨0, 0, { st with redis := (SetLastCrawl st.redis b.source env1.startNow
        env1.firstLastCrawlFails).1 }⟩ h1
    have hb2 : ∀ post ∈ p :: ps, Blocked hash lower b
        (SetLastCrawl (ProcessAndSend hash lower b (p :: ps) env1 st).2.redis b.source
          env2.startNow env2.firstLastCrawlFails).1 post := by
      intro post hpost
      refine Blocked_mono hash lower b _ _ post ?_ (hb post hpost)
      intro k hk
      simp only [ProcessAndSend, List.length_cons, Nat.add_one_ne_zero, if_false]
      unfold isSeen at *
      rw [SetLastCrawl_seen, SetLastCrawl_seen]
      exact hk
    have := processLoop_all_blocked hash lower b (p :: ps) env2.perPost
      ⟨0, 0, { (ProcessAndSend hash lower b (p :: ps) env1 st).2 with
        redis := (SetLastCrawl (ProcessAndSend hash lower b (p :: ps) env1 st).2.redis b.source
          env2.startNow env2.firstLastCrawlFails).1 }⟩ h2 hb2
    constructor
    · show (ProcessAndSend hash lower b (p :: ps) env2 _).1.sent = 0
      rw [ProcessAndSend]
      simp only [List.length_cons, Nat.add_one_ne_zero, if_false]
      rw [this]
    · show (ProcessAndSend hash lower b (p :: ps) env2 _).1.skipped = (p :: ps).length
      rw [ProcessAndSend]
      simp only [List.length_cons, Nat.add_one_ne_zero, if_false]
      rw [this]
      simp

/-- Witness of C2: the first call sends one post and skips two, the second call
skips all three. -/
theorem ProcessAndSend_twice_witness :
    CrawlEnv.allSucceed ⟨10, 11, false, false, []⟩ ∧
    (ProcessAndSend (fun s => s) Char.toLower (NewBaseCrawler "hn" "posts") exampleBatch
      ⟨10, 11, false, false, []⟩ Pipeline.empty).1 = ⟨1, 2, none⟩ ∧
    (ProcessAndSend (fun s => s) Char.toLower (NewBaseCrawler "hn" "posts") exampleBatch
      ⟨10, 11, false, false, []⟩
      (ProcessAndSend (fun s => s) Char.toLower (NewBaseCrawler "hn" "posts") exampleBatch
        ⟨10, 11, false, false, []⟩ Pipeline.empty).2).1.sent = 0 ∧
    (ProcessAndSend (fun s => s) Char.toLower (NewBaseCrawler "hn" "posts") exampleBatch
      ⟨10, 11, false, false, []⟩
      (ProcessAndSend (fun s => s) Char.toLower (NewBaseCrawler "hn" "posts") exampleBatch
        ⟨10, 11, false, false, []⟩ Pipeline.empty).2).1.skipped = exampleBatch.length :=
  have h : CrawlEnv.allSucceed ⟨10, 11, false, false, []⟩ := by simp [CrawlEnv.allSucceed]
  ⟨h, by decide,
    ProcessAndSend_twice (fun s => s) Char.toLower (NewBaseCrawler "hn" "posts") exampleBatch
      ⟨10, 11, false, false, []⟩ ⟨10, 11, false, false, []⟩ Pipeline.empty h h⟩

/-- Claim C3: `ValidatePost` returns ok = false exactly when the content is empty
after trimming white space; a zero `created_at` alone never causes rejection; and
when ok = true the returned error list is empty. -/
theorem ValidatePost_rejects_iff_empty_content (lower : Char → Char) (p : Post) :
    ((ValidatePost lower p).1 = false ↔ TrimSpace p.Content = "") ∧
    (TrimSpace p.Content ≠ "" → IsZero p.CreatedAt = true → (ValidatePost lower p).1 = true) ∧
    ((ValidatePost lower p).1 = true → (ValidatePost lower p).2.1 = []) := by
  by_cases h1 : TrimSpace p.Content = "" <;> by_cases h2 : IsZero p.CreatedAt = true <;>
    simp [ValidatePost, h1, h2, apply_ite Post.CreatedAt]

theorem Trimmed_Anonymous : Trimmed "Anonymous" := by
  constructor <;> intro c hc <;> simp at hc <;> subst hc <;> decide

/-- Claim C4: on a post that `ValidatePost` accepts, the post afterwards has
non-empty content and author, neither with white space at either end, the author
is `Anonymous` when it was empty or blank, the topic is non-empty, and likes,
comments and shares are non-negative: a negative count is replaced by 0 and a
non-negative count is unchanged. -/
theorem ValidatePost_sanitises (lower : Char → Char) (p : Post)
    (h : (ValidatePost lower p).1 = true) :
    (ValidatePost lower p).2.2.Content ≠ "" ∧
    (ValidatePost lower p).2.2.Author ≠ "" ∧
    Trimmed (ValidatePost lower p).2.2.Content ∧
    Trimmed (ValidatePost lower p).2.2.Author ∧
    ((∀ c ∈ p.Author.data, isSpace c = true) → (ValidatePost lower p).2.2.Author = "Anonymous") ∧
    (ValidatePost lower p).2.2.Topic ≠ "" ∧
    (0 ≤ (ValidatePost lower p).2.2.Likes ∧ 0 ≤ (ValidatePost lower p).2.2.Comments ∧
      0 ≤ (ValidatePost lower p).2.2.Shares) ∧
    (ValidatePost lower p).2.2.Likes = (if p.Likes < 0 then 0 else p.Likes) ∧
    (ValidatePost lower p).2.2.Comments = (if p.Comments < 0 then 0 else p.Comments) ∧
    (ValidatePost lower p).2.2.Shares = (if p.Shares < 0 then 0 else p.Shares) := by
  rw [ValidatePost_ok] at h
  have hne : TrimSpace p.Content ≠ "" := by simpa using h
  rw [ValidatePost_post]
  unfold sanitized
  simp only []
  refine ⟨hne, ?_, TrimSpace_trimmed _, ?_, ?_, ?_, ⟨?_, ?_, ?_⟩, trivial, trivial, trivial⟩
  · split
    · decide
    · assumption
  · split
    · exact Trimmed_Anonymous
    · exact TrimSpace_trimmed _
  · intro hb
    rw [if_pos (TrimSpace_eq_empty_of_blank _ hb)]
  · split
    · decide
    · assumption
  · split <;> omega
  · split <;> omega
  · split <;> omega

/-- Witness of C4: a post with blank author, padded content, empty topic and
negative counts. -/
theorem ValidatePost_sanitises_witness :
    (ValidatePost Char.toLower ⟨"1", "  ", " hi ", "", "neutral", -3, 4, -1, "hn", 0⟩).1 = true ∧
    (ValidatePost Char.toLower ⟨"1", "  ", " hi ", "", "neutral", -3, 4, -1, "hn", 0⟩).2.2 =
      ⟨"1", "Anonymous", "hi", "programming", "neutral", 0, 4, 0, "hn", 0⟩ ∧
    (ValidatePost Char.toLower
      ⟨"1", "  ", " hi ", "", "neutral", -3, 4, -1, "hn", 0⟩).2.2.Content ≠ "" :=
  ⟨by decide, by decide,
    (ValidatePost_sanitises Char.toLower ⟨"1", "  ", " hi ", "", "neutral", -3, 4, -1, "hn", 0⟩
      (by decide)).1⟩

/-- Claim C5, evaluated on the code: a post whose topic `sports` is none of the
five known topics is accepted by `ValidatePost` and keeps the topic `sports`,
whatever the table of `unicode.ToLower`. -/
theorem ValidatePost_keeps_unmapped_topic :
    ∀ lower : Char → Char,
      ValidatePost lower ⟨"1", "bob", "hello", "Sports", "neutral", 1, 0, 0, "hackernews", 1⟩ =
        (true, [], ⟨"1", "bob", "hello", "sports", "neutral", 1, 0, 0, "hackernews", 1⟩) ∧
      "sports" ∉ Topics :=
  fun _ => ⟨rfl, by decide⟩

theorem Call_not_open_fail {σ : Type} (cb : CircuitBreaker σ) (fn : σ → Option String × σ)
    (clk : Clock) (w : σ) (msg : String) (hs : cb.state ≠ State.StateOpen)
    (hf : (fn w).1 = some msg) :
    Call cb fn clk w =
      ((onFailure cb clk.failNow (fn w).2).1, some (CallError.failed msg),
        (onFailure cb clk.failNow (fn w).2).2) := by
  unfold Call openCheck
  rw [if_neg hs]
  simp only [hf]

theorem Call_not_open_success {σ : Type} (cb : CircuitBreaker σ) (fn : σ → Option String × σ)
    (clk : Clock) (w : σ) (hs : cb.state ≠ State.StateOpen) (hf : (fn w).1 = none) :
    Call cb fn clk w = ((onSuccess cb (fn w).2).1, none, (onSuccess cb (fn w).2).2) := by
  unfold Call openCheck
  rw [if_neg hs]
  simp only [hf]

theorem Call_not_open_failure_result {σ : Type} (cb : CircuitBreaker σ)
    (fn : σ → Option String × σ) (clk : Clock) (w : σ) (hs : cb.state ≠ State.StateOpen)
    (hr : isFnFailure (Call cb fn clk w).2.1 = true) : ∃ msg, (fn w).1 = some msg := by
  cases hf : (fn w).1 with
  | none =>
    rw [Call_not_open_success cb fn clk w hs hf] at hr
    simp [isFnFailure] at hr
  | some msg => exact ⟨msg, rfl⟩

theorem runCalls_failures {σ : Type} (calls : List (CallInput σ)) :
    ∀ (cb : CircuitBreaker σ) (w : σ), cb.state = State.StateClosed →
      cb.failureCount < cb.maxFailures →
      cb.failureCount + calls.length ≤ cb.maxFailures →
      (∀ r ∈ (runCalls cb calls w).results, isFnFailure r = true) →
      (cb.failureCount + calls.length < cb.maxFailures →
        (runCalls cb calls w).cb.state = State.StateClosed ∧
        (runCalls cb calls w).cb.failureCount = cb.failureCount + calls.length) ∧
      (cb.failureCount + calls.length = cb.maxFailures →
        (runCalls cb calls w).cb.state = State.StateOpen ∧
        ∀ c, calls.getLast? = some c →
          (runCalls cb calls w).cb.lastFailureTime = c.clk.failNow) := by
  induction calls with
  | nil =>
    intro cb w hs hlt _ _
    refine ⟨fun _ => ⟨hs, by simp [runCalls]⟩, fun h => ?_⟩
    simp at h; omega
  | cons c cs ih =>
    intro cb w hs hlt hle hres
    have hno : cb.state ≠ State.StateOpen := by rw [hs]; decide
    have hhead : isFnFailure (Call cb c.fn c.clk w).2.1 = true :=
      hres _ (by simp [runCalls])
    obtain ⟨msg, hmsg⟩ := Call_not_open_failure_result cb c.fn c.clk w hno hhead
    have hcall := Call_not_open_fail cb c.fn c.clk w msg hno hmsg
    have htail : ∀ r ∈ (runCalls (Call cb c.fn c.clk w).1 cs (Call cb c.fn c.clk w).2.2).results,
        isFnFailure r = true := fun r hr => hres r (by simp [runCalls, hr])
    simp only [List.length_cons, Nat.cast_add, Nat.cast_one] at hle ⊢
    by_cases hlast : cb.failureCount + 1 ≥ cb.maxFailures
    · -- this failure opens the circuit; it is the last call
      have hcs : cs = [] := by
        cases cs with
        | nil => rfl
        | cons d ds => simp only [List.length_cons, Nat.cast_add, Nat.cast_one] at hle; omega
      subst hcs
      have hfin : (runCalls cb [c] w).cb = (onFailure cb c.clk.failNow (c.fn w).2).1 := by
        simp [runCalls, hcall]
      rw [hfin]
      simp only [List.length_nil, Nat.cast_zero, add_zero]
      refine ⟨fun h => by omega, fun _ => ?_⟩
      unfold onFailure setState
      simp only [ge_iff_le, hlast, if_true]
      refine ⟨by simp, ?_⟩
      intro d hd
      simp at hd
      subst hd
      simp
    · have hst : (Call cb c.fn c.clk w).1.state = State.StateClosed ∧
          (Call cb c.fn c.clk w).1.failureCount = cb.failureCount + 1 ∧
          (Call cb c.fn c.clk w).1.maxFailures = cb.maxFailures := by
        rw [hcall]
        unfold onFailure
        simp only [ge_iff_le, hlast, if_false]
        refine ⟨?_, ?_, ?_⟩ <;> first | exact hs | rfl | trivial
      obtain ⟨h1, h3, h4⟩ := hst
      have := ih (Call cb c.fn c.clk w).1 (Call cb c.fn c.clk w).2.2 h1
        (by rw [h3, h4]; omega) (by rw [h3, h4]; omega) htail
      rw [h3, h4] at this
      have hcb2 : (runCalls cb (c :: cs) w).cb =
          (runCalls (Call cb c.fn c.clk w).1 cs (Call cb c.fn c.clk w).2.2).cb := by
        simp [runCalls]
      rw [hcb2]
      constructor
      · intro h
        have := this.1 (by omega)
        exact ⟨this.1, by rw [this.2]; ring⟩
      · intro h
        have := this.2 (by omega)
        refine ⟨this.1, ?_⟩
        intro d hd
        cases cs with
        | nil => simp at h; omega
        | cons e es =>
          rw [List.getLast?_cons_cons] at hd
          exact this.2 d hd

/-- Claim C6: for a breaker created by `New maxFailures resetTimeout` with
`maxFailures ≥ 1` (whatever callback is installed), after `k < maxFailures`
consecutive failing calls the state is still Closed (with failure count `k`), the
`maxFailures`-th consecutive failing call moves it to Open and records the time
of that failure, and a successful call in Closed resets the failure count to 0. -/
theorem breaker_opens_at_maxFailures {σ : Type} (maxFailures : Int) (resetTimeout : Duration)
    (f : Option (State → State → σ → σ)) (calls : List (CallInput σ)) (w : σ)
    (hm : 1 ≤ maxFailures)
    (hfail : ∀ r ∈ (runCalls (SetStateChangeCallback (New maxFailures resetTimeout) f)
      calls w).results, isFnFailure r = true) :
    ((calls.length : Int) < maxFailures →
      (runCalls (SetStateChangeCallback (New maxFailures resetTimeout) f) calls w).cb.state =
        State.StateClosed ∧
      (runCalls (SetStateChangeCallback (New maxFailures resetTimeout) f)
        calls w).cb.failureCount = calls.length) ∧
    ((calls.length : Int) = maxFailures →
      (runCalls (SetStateChangeCallback (New maxFailures resetTimeout) f) calls w).cb.state =
        State.StateOpen ∧
      ∀ c, calls.getLast? = some c →
        (runCalls (SetStateChangeCallback (New maxFailures resetTimeout) f)
          calls w).cb.lastFailureTime = c.clk.failNow) ∧
    (∀ (cb : CircuitBreaker σ) (fn : σ → Option String × σ) (clk : Clock) (w1 : σ),
      cb.state = State.StateClosed → (fn w1).1 = none →
        (Call cb fn clk w1).1.state = State.StateClosed ∧
        (Call cb fn clk w1).1.failureCount = 0 ∧ (Call cb fn clk w1).2.1 = none) := by
  refine ⟨fun h => ?_, fun h => ?_, ?_⟩
  · have hle : (SetStateChangeCallback (New maxFailures resetTimeout) f).failureCount +
        (calls.length : Int) ≤
        (SetStateChangeCallback (New maxFailures resetTimeout) f).maxFailures := by
      show (0 : Int) + calls.length ≤ maxFailures
      omega
    have := (runCalls_failures calls (SetStateChangeCallback (New maxFailures resetTimeout) f) w
      rfl (show (0 : Int) < maxFailures by omega) hle hfail).1
      (show (0 : Int) + calls.length < maxFailures by omega)
    refine ⟨this.1, ?_⟩
    rw [this.2]
    show (0 : Int) + calls.length = calls.length
    omega
  · have hle : (SetStateChangeCallback (New maxFailures resetTimeout) f).failureCount +
        (calls.length : Int) ≤
        (SetStateChangeCallback (New maxFailures resetTimeout) f).maxFailures := by
      show (0 : Int) + calls.length ≤ maxFailures
      omega
    exact (runCalls_failures calls (SetStateChangeCallback (New maxFailures resetTimeout) f) w
      rfl (show (0 : Int) < maxFailures by omega) hle hfail).2
      (show (0 : Int) + calls.length = maxFailures by omega)
  · intro cb fn clk w1 hs hf
    have hno : cb.state ≠ State.StateOpen := by rw [hs]; decide
    rw [Call_not_open_success cb fn clk w1 hno hf]
    unfold onSuccess
    simp [hs]

/-- Witness of C6: `New 3` after two failing calls is Closed with count 2, and
after three failing calls is Open with the time of the third failure. -/
theorem breaker_opens_at_maxFailures_witness :
    (1 : Int) ≤ 3 ∧
    (∀ r ∈ (runCalls (SetStateChangeCallback (New 3 1000) none)
      [⟨failingFn, ⟨10, 10, 11⟩⟩, ⟨failingFn, ⟨20, 20, 21⟩⟩, ⟨failingFn, ⟨30, 30, 31⟩⟩]
      (0 : Nat)).results, isFnFailure r = true) ∧
    (runCalls (SetStateChangeCallback (New 3 1000) none)
      [⟨failingFn, ⟨10, 10, 11⟩⟩, ⟨failingFn, ⟨20, 20, 21⟩⟩] (0 : Nat)).cb.state =
        State.StateClosed ∧
    (runCalls (SetStateChangeCallback (New 3 1000) none)
      [⟨failingFn, ⟨10, 10, 11⟩⟩, ⟨failingFn, ⟨20, 20, 21⟩⟩, ⟨failingFn, ⟨30, 30, 31⟩⟩]
      (0 : Nat)).cb.lastFailureTime = 31 ∧
    (runCalls (SetStateChangeCallback (New 3 1000) none)
      [⟨failingFn, ⟨10, 10, 11⟩⟩, ⟨failingFn, ⟨20, 20, 21⟩⟩, ⟨failingFn, ⟨30, 30, 31⟩⟩]
      (0 : Nat)).cb.state = State.StateOpen :=
  ⟨by decide, by decide, by decide, by decide,
    ((breaker_opens_at_maxFailures 3 1000 none
      [⟨failingFn, ⟨10, 10, 11⟩⟩, ⟨failingFn, ⟨20, 20, 21⟩⟩, ⟨failingFn, ⟨30, 30, 31⟩⟩]
      (0 : Nat) (by decide) (by decide)).2.1 (by decide)).1⟩

/-- Claim C7: on a breaker in state Open, a `Call` made while the time since the
last failure is within `resetTimeout` returns the circuit-open error, leaves the
breaker unchanged (state, failure count, success count, last-failure time) and
leaves the world unchanged: the wrapped function is not invoked. -/
theorem open_call_is_rejected {σ : Type} (cb : CircuitBreaker σ) (fn : σ → Option String × σ)
    (clk : Clock) (w : σ) (hs : cb.state = State.StateOpen)
    (ht : Since clk.checkNow cb.lastFailureTime ≤ cb.resetTimeout) :
    Call cb fn clk w =
      (cb, some (CallError.circuitOpen (cb.resetTimeout - Since clk.msgNow cb.lastFailureTime)),
        w) := by
  unfold Call openCheck
  rw [if_pos hs, if_neg (not_lt.mpr ht)]

/-- Witness of C7: a call at time 500, within the timeout of 1000 after the
failure at time 11, is rejected. -/
theorem open_call_is_rejected_witness :
    openBreaker.state = State.StateOpen ∧
    Since 500 openBreaker.lastFailureTime ≤ openBreaker.resetTimeout ∧
    Call openBreaker failingFn ⟨500, 501, 502⟩ 7 =
      (openBreaker,
        some (CallError.circuitOpen
          (openBreaker.resetTimeout - Since 501 openBreaker.lastFailureTime)), 7) :=
  ⟨by decide, by decide,
    open_call_is_rejected openBreaker failingFn ⟨500, 501, 502⟩ 7 (by decide) (by decide)⟩

theorem setState_fields {σ : Type} (cb : CircuitBreaker σ) (st : State) (w : σ) :
    (setState cb st w).1.state = st ∧
    (setState cb st w).1.successThreshold = cb.successThreshold ∧
    (setState cb st w).1.maxFailures = cb.maxFailures ∧
    (setState cb st w).1.resetTimeout = cb.resetTimeout ∧
    (setState cb st w).1.lastFailureTime = cb.lastFailureTime ∧
    (st ≠ State.StateClosed → (setState cb st w).1.successCount = cb.successCount ∧
      (setState cb st w).1.failureCount = cb.failureCount) ∧
    (st = State.StateClosed → (setState cb st w).1.successCount = 0 ∧
      (setState cb st w).1.failureCount = 0) := by
  unfold setState
  by_cases h : st = State.StateClosed <;> simp [h]

theorem onFailure_fields {σ : Type} (cb : CircuitBreaker σ) (now : Time) (w : σ) :
    (onFailure cb now w).1.successCount = 0 ∧
    (onFailure cb now w).1.successThreshold = cb.successThreshold ∧
    (onFailure cb now w).1.lastFailureTime = now ∧
    (onFailure cb now w).1.failureCount = cb.failureCount + 1 ∧
    (onFailure cb now w).1.state =
      (if cb.failureCount + 1 ≥ cb.maxFailures then State.StateOpen else cb.state) := by
  unfold onFailure setState
  by_cases h : cb.failureCount + 1 ≥ cb.maxFailures <;> simp [h]

theorem onSuccess_fields {σ : Type} (cb : CircuitBreaker σ) (w : σ) :
    (onSuccess cb w).1.successThreshold = cb.successThreshold ∧
    (onSuccess cb w).1.failureCount = 0 ∧
    (onSuccess cb w).1.state =
      (if cb.state = State.StateHalfOpen ∧ cb.successCount + 1 ≥ cb.successThreshold
        then State.StateClosed else cb.state) ∧
    (onSuccess cb w).1.successCount =
      (if cb.state = State.StateHalfOpen then
        (if cb.successCount + 1 ≥ cb.successThreshold then 0 else cb.successCount + 1)
       else cb.successCount) ∧
    ((cb.state = State.StateHalfOpen ∧ cb.successCount + 1 ≥ cb.successThreshold) ∨
      (onSuccess cb w).2 = w) := by
  unfold onSuccess setState
  by_cases h : cb.state = State.StateHalfOpen <;>
    by_cases h2 : cb.successCount + 1 ≥ cb.successThreshold <;> simp [h, h2]

theorem Call_open_elapsed {σ : Type} (cb : CircuitBreaker σ) (fn : σ → Option String × σ)
    (clk : Clock) (w : σ) (hs : cb.state = State.StateOpen)
    (ht : Since clk.checkNow cb.lastFailureTime > cb.resetTimeout) :
    openCheck cb clk w = Except.ok (setState cb State.StateHalfOpen w) ∧
    Call cb fn clk w =
      Call (setState cb State.StateHalfOpen w).1 fn clk (setState cb State.StateHalfOpen w).2 := by
  have h1 : openCheck cb clk w = Except.ok (setState cb State.StateHalfOpen w) := by
    unfold openCheck
    rw [if_pos hs, if_pos ht]
  have h2 : openCheck (setState cb State.StateHalfOpen w).1 clk
      (setState cb State.StateHalfOpen w).2 = Except.ok (setState cb State.StateHalfOpen w) := by
    unfold openCheck
    rw [if_neg (by rw [(setState_fields cb State.StateHalfOpen w).1]; decide)]
  refine ⟨h1, ?_⟩
  unfold Call
  rw [h1, h2]

theorem Call_open_within {σ : Type} (cb : CircuitBreaker σ) (fn : σ → Option String × σ)
    (clk : Clock) (w : σ) (hs : cb.state = State.StateOpen)
    (ht : Since clk.checkNow cb.lastFailureTime ≤ cb.resetTimeout) :
    Call cb fn clk w =
      (cb, some (CallError.circuitOpen (cb.resetTimeout - Since clk.msgNow cb.lastFailureTime)),
        w) := by
  unfold Call openCheck
  rw [if_pos hs, if_neg (not_lt.mpr ht)]

theorem Call_inv {σ : Type} (cb : CircuitBreaker σ) (fn : σ → Option String × σ)
    (clk : Clock) (w : σ)
    (h : cb.successThreshold = 2 ∧ (cb.state = State.StateOpen → cb.successCount = 0)) :
    (Call cb fn clk w).1.successThreshold = 2 ∧
    ((Call cb fn clk w).1.state = State.StateOpen → (Call cb fn clk w).1.successCount = 0) := by
  have key : ∀ (cb1 : CircuitBreaker σ) (w1 : σ), cb1.state ≠ State.StateOpen →
      cb1.successThreshold = 2 →
      (Call cb1 fn clk w1).1.successThreshold = 2 ∧
      ((Call cb1 fn clk w1).1.state = State.StateOpen →
        (Call cb1 fn clk w1).1.successCount = 0) := by
    intro cb1 w1 hno hth
    cases hf : (fn w1).1 with
    | some msg =>
      rw [Call_not_open_fail cb1 fn clk w1 msg hno hf]
      have := onFailure_fields cb1 clk.failNow (fn w1).2
      exact ⟨this.2.1.trans hth, fun _ => this.1⟩
    | none =>
      rw [Call_not_open_success cb1 fn clk w1 hno hf]
      have := onSuccess_fields cb1 (fn w1).2
      refine ⟨this.1.trans hth, fun ho => ?_⟩
      exfalso
      rw [this.2.2.1] at ho
      split at ho
      · exact absurd ho (by decide)
      · exact hno ho
  by_cases hs : cb.state = State.StateOpen
  · by_cases ht : Since clk.checkNow cb.lastFailureTime > cb.resetTimeout
    · rw [(Call_open_elapsed cb fn clk w hs ht).2]
      have hf := setState_fields cb State.StateHalfOpen w
      exact key _ _ (by rw [hf.1]; decide) (hf.2.1.trans h.1)
    · rw [Call_open_within cb fn clk w hs (not_lt.mp ht)]
      exact h
  · exact key cb w hs h.1

theorem Reachable_inv {σ : Type} (maxFailures : Int) (resetTimeout : Duration)
    (cb : CircuitBreaker σ) (h : Reachable maxFailures resetTimeout cb) :
    cb.successThreshold = 2 ∧ (cb.state = State.StateOpen → cb.successCount = 0) := by
  induction h with
  | new => exact ⟨rfl, fun _ => rfl⟩
  | call cb fn clk w _ ih => exact Call_inv cb fn clk w ih
  | setCallback cb f _ ih => exact ih

/-- Claim C8: from every reachable Open state, the first `Call` made after
`resetTimeout` has elapsed since the last failure moves the breaker to Half-Open
and invokes the function there (the value returned is the function's); if that
call succeeds the breaker is still Half-Open, and if the next call succeeds too
the breaker is Closed with failure count 0 and success count 0. -/
theorem half_open_probe_closes {σ : Type} (maxFailures : Int) (resetTimeout : Duration)
    (cb : CircuitBreaker σ) (fn : σ → Option String × σ) (clk : Clock) (w : σ)
    (hr : Reachable maxFailures resetTimeout cb) (hs : cb.state = State.StateOpen)
    (ht : Since clk.checkNow cb.lastFailureTime > cb.resetTimeout) :
    openCheck cb clk w = Except.ok (setState cb State.StateHalfOpen w) ∧
    (setState cb State.StateHalfOpen w).1.state = State.StateHalfOpen ∧
    (∀ msg, (fn (setState cb State.StateHalfOpen w).2).1 = some msg →
      (Call cb fn clk w).2.1 = some (CallError.failed msg)) ∧
    ((fn (setState cb State.StateHalfOpen w).2).1 = none →
      (Call cb fn clk w).1.state = State.StateHalfOpen ∧
      (Call cb fn clk w).2.1 = none ∧
      (Call cb fn clk w).2.2 = (fn (setState cb State.StateHalfOpen w).2).2 ∧
      ∀ (fn2 : σ → Option String × σ) (clk2 : Clock) (w2 : σ), (fn2 w2).1 = none →
        (Call (Call cb fn clk w).1 fn2 clk2 w2).1.state = State.StateClosed ∧
        (Call (Call cb fn clk w).1 fn2 clk2 w2).1.failureCount = 0 ∧
        (Call (Call cb fn clk w).1 fn2 clk2 w2).1.successCount = 0 ∧
        (Call (Call cb fn clk w).1 fn2 clk2 w2).2.1 = none) := by
  obtain ⟨hth, hsc⟩ := Reachable_inv maxFailures resetTimeout cb hr
  have hsc0 := hsc hs
  have hset := setState_fields cb State.StateHalfOpen w
  have hno : (setState cb State.StateHalfOpen w).1.state ≠ State.StateOpen := by
    rw [hset.1]; decide
  have hcnt : (setState cb State.StateHalfOpen w).1.successCount = 0 := by
    rw [(hset.2.2.2.2.2.1 (by decide)).1]; exact hsc0
  have hthr : (setState cb State.StateHalfOpen w).1.successThreshold = 2 := hset.2.1.trans hth
  obtain ⟨hoc, hcall⟩ := Call_open_elapsed cb fn clk w hs ht
  refine ⟨hoc, hset.1, ?_, ?_⟩
  · intro msg hmsg
    rw [hcall, Call_not_open_fail _ fn clk _ msg hno hmsg]
  · intro hok
    rw [hcall, Call_not_open_success _ fn clk _ hno hok]
    have hsu := onSuccess_fields (setState cb State.StateHalfOpen w).1
      (fn (setState cb State.StateHalfOpen w).2).2
    have hst1 : (onSuccess (setState cb State.StateHalfOpen w).1
        (fn (setState cb State.StateHalfOpen w).2).2).1.state = State.StateHalfOpen := by
      rw [hsu.2.2.1, hset.1, hcnt, hthr]
      simp
    have hsc1 : (onSuccess (setState cb State.StateHalfOpen w).1
        (fn (setState cb State.StateHalfOpen w).2).2).1.successCount = 1 := by
      rw [hsu.2.2.2.1, hset.1, hcnt, hthr]
      simp
    have hth1 : (onSuccess (setState cb State.StateHalfOpen w).1
        (fn (setState cb State.StateHalfOpen w).2).2).1.successThreshold = 2 :=
      hsu.1.trans hthr
    have hw1 : (onSuccess (setState cb State.StateHalfOpen w).1
        (fn (setState cb State.StateHalfOpen w).2).2).2 =
        (fn (setState cb State.StateHalfOpen w).2).2 := by
      rcases hsu.2.2.2.2 with h | h
      · rw [hcnt, hthr] at h
        exact absurd h.2 (by decide)
      · exact h
    refine ⟨hst1, rfl, hw1, ?_⟩
    intro fn2 clk2 w2 hok2
    have hno1 : (onSuccess (setState cb State.StateHalfOpen w).1
        (fn (setState cb State.StateHalfOpen w).2).2).1.state ≠ State.StateOpen := by
      rw [hst1]; decide
    rw [Call_not_open_success _ fn2 clk2 w2 hno1 hok2]
    have hsu2 := onSuccess_fields (onSuccess (setState cb State.StateHalfOpen w).1
        (fn (setState cb State.StateHalfOpen w).2).2).1 (fn2 w2).2
    refine ⟨?_, hsu2.2.1, ?_, rfl⟩
    · rw [hsu2.2.2.1, hst1, hsc1, hth1]
      simp
    · rw [hsu2.2.2.2.1, hst1, hsc1, hth1]
      simp

/-- Witness of C8: the breaker opened at time 11 with timeout 1000 is probed at
time 2000; two successful calls close it. -/
theorem half_open_probe_closes_witness :
    openBreaker.state = State.StateOpen ∧
    Since 2000 openBreaker.lastFailureTime > openBreaker.resetTimeout ∧
    (Call openBreaker succeedingFn ⟨2000, 2000, 2001⟩ 0).1.state = State.StateHalfOpen ∧
    (Call (Call openBreaker succeedingFn ⟨2000, 2000, 2001⟩ 0).1 succeedingFn
      ⟨2010, 2010, 2011⟩ 1).1.state = State.StateClosed :=
  ⟨by decide, by decide, by decide,
    ((half_open_probe_closes 1 1000 openBreaker succeedingFn ⟨2000, 2000, 2001⟩ 0
      (Reachable.call (New 1 1000) failingFn ⟨10, 10, 11⟩ 0 Reachable.new)
      (by decide) (by decide)).2.2.2 (by decide)).2.2.2 succeedingFn ⟨2010, 2010, 2011⟩ 1
      (by decide) |>.1⟩

/-- Claim C9, evaluated on the code: with `maxFailures = 2`, the breaker opens
after two failures, is probed successfully after the timeout (Half-Open, failure
count reset to 0), and the failing call that follows leaves it Half-Open, with
the last-failure time set to the time of that failure. -/
theorem half_open_failure_after_probe_stays_half_open :
    (runCalls (New 2 1000)
      [⟨failingFn, ⟨10, 10, 11⟩⟩, ⟨failingFn, ⟨20, 20, 21⟩⟩,
       ⟨succeedingFn, ⟨2000, 2000, 2001⟩⟩] (0 : Nat)).cb.state = State.StateHalfOpen ∧
    (runCalls (New 2 1000)
      [⟨failingFn, ⟨10, 10, 11⟩⟩, ⟨failingFn, ⟨20, 20, 21⟩⟩,
       ⟨succeedingFn, ⟨2000, 2000, 2001⟩⟩, ⟨failingFn, ⟨3000, 3000, 3001⟩⟩]
      (0 : Nat)).results =
        [some (CallError.failed "boom"), some (CallError.failed "boom"), none,
         some (CallError.failed "boom")] ∧
    (runCalls (New 2 1000)
      [⟨failingFn, ⟨10, 10, 11⟩⟩, ⟨failingFn, ⟨20, 20, 21⟩⟩,
       ⟨succeedingFn, ⟨2000, 2000, 2001⟩⟩, ⟨failingFn, ⟨3000, 3000, 3001⟩⟩]
      (0 : Nat)).cb.state = State.StateHalfOpen ∧
    (runCalls (New 2 1000)
      [⟨failingFn, ⟨10, 10, 11⟩⟩, ⟨failingFn, ⟨20, 20, 21⟩⟩,
       ⟨succeedingFn, ⟨2000, 2000, 2001⟩⟩, ⟨failingFn, ⟨3000, 3000, 3001⟩⟩]
      (0 : Nat)).cb.lastFailureTime = 3001 := by
  decide

/-- Claim C10: for a handler whose buffer holds fewer than `batchSize` posts (so
that `batchSize ≥ 1`), a `HandlePost` that brings the buffer below `batchSize`
performs no store insert, and one that brings it to exactly `batchSize` calls
`InsertPosts` once, within the call, with exactly the `batchSize` posts of the
buffer followed by the new one, and, when the insert succeeds, leaves the buffer
empty. -/
theorem HandlePost_flushes_at_batchSize {ρ : Type} (ops : CacheOps ρ) (h : PostHandler ρ)
    (post : Post) (execErr : Option String) (hl : (h.buffer.length : Int) < h.batchSize) :
    1 ≤ h.batchSize ∧
    ((h.buffer.length : Int) + 1 < h.batchSize →
      (HandlePost ops h post execErr).1.db = h.db ∧
      (HandlePost ops h post execErr).1.buffer = h.buffer ++ [post] ∧
      (HandlePost ops h post execErr).2 = none) ∧
    (¬ ((h.buffer.length : Int) + 1 < h.batchSize) →
      ((h.buffer ++ [post]).length : Int) = h.batchSize ∧
      (HandlePost ops h post execErr).1.db.inserts = h.db.inserts ++ [h.buffer ++ [post]] ∧
      (execErr = none →
        (HandlePost ops h post execErr).1.db.rows = upsertRows h.db.rows (h.buffer ++ [post]) ∧
        (HandlePost ops h post execErr).1.buffer = [] ∧
        (HandlePost ops h post execErr).2 = none)) := by
  refine ⟨by omega, ?_, ?_⟩
  · intro hlt
    unfold HandlePost
    simp only [List.length_append, List.length_singleton, Nat.cast_add, Nat.cast_one]
    rw [if_neg (by omega)]
    exact ⟨rfl, rfl, rfl⟩
  · intro hge
    refine ⟨by simp only [List.length_append, List.length_singleton, Nat.cast_add,
      Nat.cast_one]; omega, ?_⟩
    unfold HandlePost flush InsertPosts
    simp only [List.length_append, List.length_singleton, Nat.cast_add, Nat.cast_one]
    rw [if_pos (by omega)]
    simp only [Nat.add_one_ne_zero, if_false]
    cases execErr with
    | some e => exact ⟨rfl, fun h0 => by cases h0⟩
    | none => exact ⟨rfl, fun _ => ⟨rfl, rfl, rfl⟩⟩

/-- Witness of C10: with `batchSize = 2` and one buffered post, the next post
triggers one insert of both posts, in arrival order, and empties the buffer. -/
theorem HandlePost_flushes_at_batchSize_witness :
    (HandlePost countingOps
      ⟨0, ⟨[], []⟩, 2, [⟨"a1", "X", "Hello", "ai", "neutral", 3, 0, 0, "hackernews", 1⟩], 1⟩
      ⟨"a2", "Y", "World", "ai", "neutral", 0, 0, 0, "hackernews", 2⟩ none).1.buffer = [] ∧
    (HandlePost countingOps
      ⟨0, ⟨[], []⟩, 2, [⟨"a1", "X", "Hello", "ai", "neutral", 3, 0, 0, "hackernews", 1⟩], 1⟩
      ⟨"a2", "Y", "World", "ai", "neutral", 0, 0, 0, "hackernews", 2⟩ none).1.db.inserts =
      [] ++ [[⟨"a1", "X", "Hello", "ai", "neutral", 3, 0, 0, "hackernews", 1⟩] ++
        [⟨"a2", "Y", "World", "ai", "neutral", 0, 0, 0, "hackernews", 2⟩]] :=
  ⟨by decide,
    ((HandlePost_flushes_at_batchSize countingOps
      ⟨0, ⟨[], []⟩, 2, [⟨"a1", "X", "Hello", "ai", "neutral", 3, 0, 0, "hackernews", 1⟩], 1⟩
      ⟨"a2", "Y", "World", "ai", "neutral", 0, 0, 0, "hackernews", 2⟩ none
      (by decide)).2.2 (by decide)).2.1⟩

/-- Claim C11, refuted on the code: a flush whose `InsertPosts` fails returns the
error and leaves both posts in the buffer, and the next flush passes the same two
posts to `InsertPosts` again. -/
theorem flush_failure_drops_batch_counterexample :
    (flush fullHandler (some "db down")).2 = some "batch insert error: db down" ∧
    ¬ ((flush fullHandler (some "db down")).1.buffer = []) ∧
    (flush fullHandler (some "db down")).1.buffer = fullHandler.buffer ∧
    (flush (flush fullHandler (some "db down")).1 none).1.db.inserts =
      [fullHandler.buffer, fullHandler.buffer] := by
  decide

/-- Claim C11 as amended: when `InsertPosts` returns an error during a flush, the
flush returns that error and leaves the buffer and the table as they were, so the
posts of the batch are still buffered, and the next flush (or the next
`HandlePost` that reaches the batch size) passes them to `InsertPosts` again. -/
theorem flush_failure_keeps_batch {ρ : Type} (h : PostHandler ρ) (e : String)
    (hne : h.buffer ≠ []) :
    (flush h (some e)).2 = some ("batch insert error: " ++ e) ∧
    (flush h (some e)).1.buffer = h.buffer ∧
    (flush h (some e)).1.db.rows = h.db.rows ∧
    (flush h (some e)).1.db.inserts = h.db.inserts ++ [h.buffer] ∧
    (∀ execErr : Option String,
      (flush (flush h (some e)).1 execErr).1.db.inserts =
        h.db.inserts ++ [h.buffer] ++ [h.buffer]) ∧
    (∀ (ops : CacheOps ρ) (post : Post) (execErr : Option String),
      h.batchSize ≤ (h.buffer.length : Int) + 1 →
      (HandlePost ops (flush h (some e)).1 post execErr).1.db.inserts =
        h.db.inserts ++ [h.buffer] ++ [h.buffer ++ [post]]) := by
  have hlen : h.buffer.length ≠ 0 := fun h0 => hne (List.length_eq_zero.mp h0)
  have hf : flush h (some e) =
      ({ h with db := { h.db with inserts := h.db.inserts ++ [h.buffer] } },
        some ("batch insert error: " ++ e)) := by
    unfold flush InsertPosts
    simp only [hlen, if_false]
  rw [hf]
  refine ⟨rfl, rfl, rfl, rfl, ?_, ?_⟩
  · intro execErr
    unfold flush InsertPosts
    simp only [hlen, if_false]
    cases execErr <;> rfl
  · intro ops post execErr hb
    unfold HandlePost flush InsertPosts
    simp only [List.length_append, List.length_singleton, Nat.cast_add, Nat.cast_one]
    rw [if_pos (by omega)]
    simp only [Nat.add_one_ne_zero, if_false]
    cases execErr <;> rfl

/-- Witness of C11 as amended, on the handler of batch size 2 with a full buffer. -/
theorem flush_failure_keeps_batch_witness :
    fullHandler.buffer ≠ [] ∧
    (flush fullHandler (some "db down")).1.buffer = fullHandler.buffer :=
  ⟨by decide, (flush_failure_keeps_batch fullHandler "db down" (by decide)).2.1⟩

theorem consumeMessage_marked {η : Type} (unmarshal : String → Option Post)
    (handle : η → Post → η × Option String) (st : ConsumerState η) (m : ConsumerMessage) :
    ((consumeMessage unmarshal handle st m).marked = st.marked ∧
      (consumeMessage unmarshal handle st m).messageCount = st.messageCount) ∨
    ((consumeMessage unmarshal handle st m).marked = st.marked ++ [m] ∧
      (consumeMessage unmarshal handle st m).messageCount = st.messageCount + 1) := by
  unfold consumeMessage
  cases unmarshal m.Value with
  | none => exact Or.inl ⟨rfl, rfl⟩
  | some post =>
    simp only []
    cases (handle st.handler post).2 with
    | some e => exact Or.inl ⟨rfl, rfl⟩
    | none => exact Or.inr ⟨rfl, rfl⟩

theorem foldl_consumeMessage_marked {η : Type} (unmarshal : String → Option Post)
    (handle : η → Post → η × Option String) (messages : List ConsumerMessage) :
    ∀ st : ConsumerState η, ∃ ms : List ConsumerMessage, ms.Sublist messages ∧
      (messages.foldl (consumeMessage unmarshal handle) st).marked = st.marked ++ ms ∧
      (messages.foldl (consumeMessage unmarshal handle) st).messageCount =
        st.messageCount + ms.length := by
  induction messages with
  | nil => intro st; exact ⟨[], List.Sublist.refl _, by simp, by simp⟩
  | cons m rest ih =>
    intro st
    obtain ⟨ms, hsub, hm, hc⟩ := ih (consumeMessage unmarshal handle st m)
    simp only [List.foldl_cons]
    rcases consumeMessage_marked unmarshal handle st m with ⟨h1, h2⟩ | ⟨h1, h2⟩
    · refine ⟨ms, List.Sublist.cons _ hsub, ?_, ?_⟩
      · rw [hm, h1]
      · rw [hc, h2]
    · refine ⟨m :: ms, List.Sublist.cons₂ _ hsub, ?_, ?_⟩
      · rw [hm, h1]; simp
      · rw [hc, h2]; simp only [List.length_cons, Nat.cast_add, Nat.cast_one]; ring

/-- Claim C12, refuted on the code: of three delivered messages, one that cannot be
decoded and one whose handler returns an error are not marked; only one message
is marked, not three. -/
theorem ConsumeClaim_marks_all_counterexample :
    (ConsumeClaim exampleUnmarshal exampleHandle
      [⟨"posts", 0, 0, "k0", "not json"⟩, ⟨"posts", 0, 1, "k1", "bad-post"⟩,
       ⟨"posts", 0, 2, "k2", "ok"⟩] ⟨0, [], 0⟩).1.marked = [⟨"posts", 0, 2, "k2", "ok"⟩] ∧
    ¬ ((ConsumeClaim exampleUnmarshal exampleHandle
      [⟨"posts", 0, 0, "k0", "not json"⟩, ⟨"posts", 0, 1, "k1", "bad-post"⟩,
       ⟨"posts", 0, 2, "k2", "ok"⟩] ⟨0, [], 0⟩).1.marked.length = 3) := by
  decide

/-- Claim C12 as amended: `ConsumeClaim` marks a message exactly when its JSON
decodes into a post and `HandlePost` returns no error for it; a message that
cannot be decoded leaves the state unchanged, and a message whose handler fails
is not marked.  Over a whole claim the marked messages are a subsequence of the
delivered ones, `messageCount` grows by their number, and the returned error is
nil. -/
theorem ConsumeClaim_marks_handled {η : Type} (unmarshal : String → Option Post)
    (handle : η → Post → η × Option String) (messages : List ConsumerMessage)
    (st : ConsumerState η) :
    (∀ (s : ConsumerState η) (m : ConsumerMessage), unmarshal m.Value = none →
      (ConsumeClaim unmarshal handle [m] s).1 = s) ∧
    (∀ (s : ConsumerState η) (m : ConsumerMessage) (post : Post) (e : String),
      unmarshal m.Value = some post → (handle s.handler post).2 = some e →
      (ConsumeClaim unmarshal handle [m] s).1.marked = s.marked ∧
      (ConsumeClaim unmarshal handle [m] s).1.messageCount = s.messageCount ∧
      (ConsumeClaim unmarshal handle [m] s).1.handler = (handle s.handler post).1) ∧
    (∀ (s : ConsumerState η) (m : ConsumerMessage) (post : Post),
      unmarshal m.Value = some post → (handle s.handler post).2 = none →
      (ConsumeClaim unmarshal handle [m] s).1.marked = s.marked ++ [m] ∧
      (ConsumeClaim unmarshal handle [m] s).1.messageCount = s.messageCount + 1 ∧
      (ConsumeClaim unmarshal handle [m] s).1.handler = (handle s.handler post).1) ∧
    (∃ ms : List ConsumerMessage, ms.Sublist messages ∧
      (ConsumeClaim unmarshal handle messages st).1.marked = st.marked ++ ms ∧
      (ConsumeClaim unmarshal handle messages st).1.messageCount =
        st.messageCount + ms.length) ∧
    (ConsumeClaim unmarshal handle messages st).2 = none := by
  refine ⟨?_, ?_, ?_, foldl_consumeMessage_marked unmarshal handle messages st, rfl⟩
  · intro s m hm
    simp [ConsumeClaim, consumeMessage, hm]
  · intro s m post e hm he
    simp [ConsumeClaim, consumeMessage, hm, he]
  · intro s m post hm he
    simp [ConsumeClaim, consumeMessage, hm, he]

theorem processPost_sendFails (hash : String → String) (lower : Char → Char) (b : BaseCrawler)
    (o : PostOutcomes) (post : Post) (s : Loop) (hs : o.sendFails = true) :
    processPost hash lower b o post s = { s with skipped := s.skipped + 1 } := by
  unfold processPost
  simp only [SendPost, hs, if_true]
  split_ifs <;> rfl

theorem processLoop_single (hash : String → String) (lower : Char → Char) (b : BaseCrawler)
    (post : Post) (os : List PostOutcomes) (s : Loop) :
    processLoop hash lower b [post] os s =
      processPost hash lower b (os.headD PostOutcomes.ok) post s := rfl

theorem isSeen_SetLastCrawl (r : Redis) (source : String) (now : Time) (f : Bool)
    (k : String) : isSeen (SetLastCrawl r source now f).1 k = isSeen r k := by
  unfold isSeen
  rw [SetLastCrawl_seen]

theorem ProcessAndSend_fresh (hash : String → String) (lower : Char → Char)
    (b : BaseCrawler) (post : Post) (env : CrawlEnv) (st : Pipeline) (hok : env.allSucceed)
    (hv : (validateStep lower b post).1 = true)
    (hh : isSeen st.redis
      (seenKey "content_hash" (contentHash hash (validateStep lower b post).2)) = false)
    (hi : isSeen st.redis (seenKey b.source (validateStep lower b post).2.ID) = false) :
    (ProcessAndSend hash lower b [post] env st).1 = ⟨1, 0, none⟩ ∧
    (ProcessAndSend hash lower b [post] env st).2.produced =
      st.produced ++ [(validateStep lower b post).2] ∧
    isSeen (ProcessAndSend hash lower b [post] env st).2.redis
      (seenKey "content_hash" (contentHash hash (validateStep lower b post).2)) = true ∧
    isSeen (ProcessAndSend hash lower b [post] env st).2.redis
      (seenKey b.source (validateStep lower b post).2.ID) = true := by
  have hcond : ¬ ((validateStep lower b post).1 = false ∨
      isSeen (SetLastCrawl st.redis b.source env.startNow env.firstLastCrawlFails).1
        (seenKey "content_hash" (contentHash hash (validateStep lower b post).2)) = true ∨
      isSeen (SetLastCrawl st.redis b.source env.startNow env.firstLastCrawlFails).1
        (seenKey b.source (validateStep lower b post).2.ID) = true) := by
    rw [isSeen_SetLastCrawl, isSeen_SetLastCrawl]
    simp [hv, hh, hi]
  rw [ProcessAndSend]
  simp only [List.length_cons, List.length_nil, Nat.add_one_ne_zero, if_false]
  rw [processLoop_single, headD_ok env.perPost hok, processPost_ok_eq, if_neg hcond]
  refine ⟨rfl, rfl, ?_, ?_⟩
  · simp only []
    rw [isSeen_SetLastCrawl]
    exact MarkAsSeen_isSeen_self _ _ _ _
  · simp only []
    rw [isSeen_SetLastCrawl]
    exact MarkAsSeen_isSeen_mono _ _ _ _ _ _ (MarkAsSeen_isSeen_self _ _ _ _)

theorem sanitized_freshPost (lower : Char → Char) : sanitized lower freshPost = freshPost := by
  have h1 : TrimSpace "X" = "X" := by decide
  have h2 : TrimSpace "Hello" = "Hello" := by decide
  have h3 : TrimSpace "ai" = "ai" := by decide
  have h4 : ToLower lower "ai" = "ai" := by
    unfold ToLower
    rw [if_pos (by decide)]
    decide
  simp [sanitized, freshPost, h1, h2, h3, h4]

/-- Claim C13, evaluated on the code: `SendPost` returns an error only when
`json.Marshal` fails, and only then is the post counted as skipped with nothing
recorded.  A valid, unseen post is enqueued, counted as sent, and both its id key
and its content-hash key are marked before the bus reports anything; the later
report that the delivery failed only increments `errorCount`; and a later
`ProcessAndSend` of the same post skips it, so the post whose publish failed is
never sent again. -/
theorem delivery_failure_counted_as_sent (hash : String → String) (lower : Char → Char)
    (stats : ProducerStats) :
    (∀ (b : BaseCrawler) (p : Post) (s : Loop),
      processPost hash lower b ⟨none, none, true, false, false⟩ p s =
        { s with skipped := s.skipped + 1 }) ∧
    (ProcessAndSend hash lower (NewBaseCrawler "hn" "posts") [freshPost]
      ⟨10, 11, false, false, []⟩ Pipeline.empty).1 = ⟨1, 0, none⟩ ∧
    (ProcessAndSend hash lower (NewBaseCrawler "hn" "posts") [freshPost]
      ⟨10, 11, false, false, []⟩ Pipeline.empty).2.produced = [freshPost] ∧
    isSeen (ProcessAndSend hash lower (NewBaseCrawler "hn" "posts") [freshPost]
      ⟨10, 11, false, false, []⟩ Pipeline.empty).2.redis
      (seenKey "content_hash" (contentHash hash freshPost)) = true ∧
    isSeen (ProcessAndSend hash lower (NewBaseCrawler "hn" "posts") [freshPost]
      ⟨10, 11, false, false, []⟩ Pipeline.empty).2.redis (seenKey "hn" "a1") = true ∧
    GetStats (handleErrors stats) = (stats.successCount, stats.errorCount + 1) ∧
    (ProcessAndSend hash lower (NewBaseCrawler "hn" "posts") [freshPost]
      ⟨20, 21, false, false, []⟩
      (ProcessAndSend hash lower (NewBaseCrawler "hn" "posts") [freshPost]
        ⟨10, 11, false, false, []⟩ Pipeline.empty).2).1 = ⟨0, 1, none⟩ ∧
    (ProcessAndSend hash lower (NewBaseCrawler "hn" "posts") [freshPost]
      ⟨20, 21, false, false, []⟩
      (ProcessAndSend hash lower (NewBaseCrawler "hn" "posts") [freshPost]
        ⟨10, 11, false, false, []⟩ Pipeline.empty).2).2.produced = [freshPost] := by
  have hok1 : CrawlEnv.allSucceed ⟨10, 11, false, false, []⟩ := by simp [CrawlEnv.allSucceed]
  have hok2 : CrawlEnv.allSucceed ⟨20, 21, false, false, []⟩ := by simp [CrawlEnv.allSucceed]
  have hval : (validateStep lower (NewBaseCrawler "hn" "posts") freshPost).2 = freshPost := by
    rw [validateStep_new_snd, ValidatePost_post, sanitized_freshPost]
  have hv : (validateStep lower (NewBaseCrawler "hn" "posts") freshPost).1 = true := by
    rw [validateStep_new_fst, ValidatePost_ok]
    decide
  have hfirst := ProcessAndSend_fresh hash lower (NewBaseCrawler "hn" "posts") freshPost
    ⟨10, 11, false, false, []⟩ Pipeline.empty hok1 hv rfl rfl
  rw [hval] at hfirst
  have hblocked : Blocked hash lower (NewBaseCrawler "hn" "posts")
      (ProcessAndSend hash lower (NewBaseCrawler "hn" "posts") [freshPost]
        ⟨10, 11, false, false, []⟩ Pipeline.empty).2.redis freshPost := by
    refine Or.inr (Or.inl ?_)
    rw [hval]
    exact hfirst.2.2.1
  have hsecond := ProcessAndSend_duplicate hash lower (NewBaseCrawler "hn" "posts") freshPost
    ⟨20, 21, false, false, []⟩ _ hok2 hblocked
  refine ⟨?_, hfirst.1, hfirst.2.1, hfirst.2.2.1, hfirst.2.2.2, rfl, hsecond.1, ?_⟩
  · intro b p s
    exact processPost_sendFails hash lower b _ p s rfl
  · rw [hsecond.2]
    exact hfirst.2.1

theorem foldl_likes (posts : List Post) :
    ∀ a : Int, posts.foldl (fun total post => total + post.Likes) a = a + totalLikes posts := by
  induction posts with
  | nil => intro a; simp [totalLikes]
  | cons p ps ih =>
    intro a
    simp only [List.foldl_cons, ih, totalLikes, List.map_cons, List.sum_cons]
    ring

theorem foldl_emit_core (cond : Post → Bool) (mk : Post → Nat → Insight)
    (g : Post → String × String × String × ℚ) (hg : ∀ p k, (mk p k).core = g p)
    (posts : List Post) :
    ∀ acc : List Insight,
      (posts.foldl (fun insights post =>
        if cond post = true then insights ++ [mk post insights.length] else insights) acc).map
          Insight.core =
        acc.map Insight.core ++ (posts.filter cond).map g := by
  induction posts with
  | nil => intro acc; simp
  | cons p ps ih =>
    intro acc
    simp only [List.foldl_cons]
    rw [ih]
    by_cases hc : cond p = true
    · simp [hc, hg, List.filter_cons]
    · simp [hc, List.filter_cons]

/-- Claim C14, refuted on the code: in a window with likes 7, 1, 1, 1 no post has
likes above 3 times the exact mean 2.5, yet `DetectAnomalies` emits one anomaly
(for the post with 7 likes), because it compares with 3 times the integer mean 2. -/
theorem DetectAnomalies_exact_mean_counterexample :
    skewedWindow.posts.filter
      (fun p => decide ((p.Likes : ℚ) > 3 * exactMeanLikes skewedWindow.posts)) = [] ∧
    (DetectAnomalies skewedWindow (fun k => k)).map Insight.core =
      [("anomaly", "Viral post detected", "Post with 7 likes (avg: 2)", 0.9)] := by
  constructor
  · norm_num [exactMeanLikes, totalLikes, skewedWindow, likedPost, List.filter]
  · rfl

/-- Claim C14 as amended: for an empty window `DetectAnomalies` emits nothing; for
a non-empty window it emits, in window order, exactly one insight of type anomaly
with confidence 0.9 for each post whose likes are strictly greater than 3 times
the integer mean of the likes (total likes divided by the number of posts,
truncated toward zero), and nothing for every other post. -/
theorem DetectAnomalies_integer_mean (e : Engine) (now : Nat → Time) :
    (e.posts = [] → DetectAnomalies e now = []) ∧
    (e.posts ≠ [] →
      (DetectAnomalies e now).map Insight.core =
        (e.posts.filter (fun p => decide (p.Likes > 3 * integerMeanLikes e.posts))).map
          (fun p => ("anomaly", "Viral post detected",
            "Post with " ++ fmtInt p.Likes ++ " likes (avg: " ++
              fmtInt (integerMeanLikes e.posts) ++ ")", (0.9 : ℚ)))) ∧
    (∀ i ∈ DetectAnomalies e now, i.Type_ = "anomaly" ∧ i.Confidence = 0.9) ∧
    (DetectAnomalies e now).length =
      (e.posts.filter (fun p => decide (p.Likes > 3 * integerMeanLikes e.posts))).length := by
  have hmain : e.posts ≠ [] →
      (DetectAnomalies e now).map Insight.core =
        (e.posts.filter (fun p => decide (p.Likes > 3 * integerMeanLikes e.posts))).map
          (fun p => ("anomaly", "Viral post detected",
            "Post with " ++ fmtInt p.Likes ++ " likes (avg: " ++
              fmtInt (integerMeanLikes e.posts) ++ ")", (0.9 : ℚ))) := by
    intro hne
    have hlen : e.posts.length ≠ 0 := fun h0 => hne (List.length_eq_zero.mp h0)
    unfold DetectAnomalies
    simp only [hlen, if_false, foldl_likes, zero_add]
    have := foldl_emit_core
      (fun p => decide (p.Likes > 3 * integerMeanLikes e.posts))
      (fun post k =>
        { Type_ := "anomaly"
          Title := "Viral post detected"
          Description := "Post with " ++ fmtInt post.Likes ++ " likes (avg: " ++
            fmtInt (integerMeanLikes e.posts) ++ ")"
          Confidence := 0.9
          Timestamp := now k })
      (fun p => ("anomaly", "Viral post detected",
            "Post with " ++ fmtInt p.Likes ++ " likes (avg: " ++
              fmtInt (integerMeanLikes e.posts) ++ ")", (0.9 : ℚ)))
      (fun _ _ => rfl) e.posts []
    simp only [decide_eq_true_eq, List.map_nil, List.nil_append] at this
    rw [← this]
    unfold integerMeanLikes
    simp only [mul_comm (3 : Int)]
  have hempty : e.posts = [] → DetectAnomalies e now = [] := by
    intro h0
    unfold DetectAnomalies
    simp [h0]
  have hcore : ∀ i ∈ DetectAnomalies e now, i.Type_ = "anomaly" ∧ i.Confidence = 0.9 := by
    intro i hi
    by_cases hne : e.posts = []
    · rw [hempty hne] at hi; simp at hi
    · have hm : i.core ∈ (DetectAnomalies e now).map Insight.core := List.mem_map_of_mem _ hi
      rw [hmain hne] at hm
      obtain ⟨p, _, hp⟩ := List.mem_map.mp hm
      simp only [Insight.core, Prod.mk.injEq] at hp
      exact ⟨hp.1.symm, hp.2.2.2.symm⟩
  refine ⟨hempty, hmain, hcore, ?_⟩
  by_cases hne : e.posts = []
  · rw [hempty hne, hne]; rfl
  · have := congrArg List.length (hmain hne)
    simpa using this

theorem foldl_incr_count (posts : List Post) (t : String) :
    ∀ m : CountMap,
      (posts.foldl (fun m post => m.incr post.Topic) m).count t = m.count t + topicCount posts t := by
  induction posts with
  | nil => intro m; simp [topicCount]
  | cons p ps ih =>
    intro m
    simp only [List.foldl_cons]
    rw [ih]
    unfold topicCount CountMap.incr
    by_cases h : p.Topic = t
    · subst h
      simp [List.filter_cons]
      ring
    · have h2 : ¬ t = p.Topic := fun h3 => h h3.symm
      simp [List.filter_cons, h, h2]

theorem foldl_incr_keys_nodup (posts : List Post) :
    ∀ m : CountMap, m.keys.Nodup →
      (posts.foldl (fun m post => m.incr post.Topic) m).keys.Nodup := by
  induction posts with
  | nil => intro m h; exact h
  | cons p ps ih =>
    intro m h
    simp only [List.foldl_cons]
    apply ih
    unfold CountMap.incr
    simp only []
    split
    · exact h
    · rename_i hk
      exact List.Nodup.append h (List.nodup_singleton _) (by simpa using hk)

theorem foldl_incr_keys_mem (posts : List Post) (t : String) :
    ∀ m : CountMap,
      (t ∈ (posts.foldl (fun m post => m.incr post.Topic) m).keys ↔
        t ∈ m.keys ∨ ∃ p ∈ posts, p.Topic = t) := by
  induction posts with
  | nil => intro m; simp
  | cons p ps ih =>
    intro m
    simp only [List.foldl_cons]
    rw [ih]
    unfold CountMap.incr
    simp only []
    constructor
    · rintro (h | ⟨q, hq, hqt⟩)
      · split at h
        · exact Or.inl h
        · rcases List.mem_append.mp h with h | h
          · exact Or.inl h
          · exact Or.inr ⟨p, List.mem_cons_self _ _, (List.mem_singleton.mp h).symm⟩
      · exact Or.inr ⟨q, List.mem_cons_of_mem _ hq, hqt⟩
    · rintro (h | ⟨q, hq, hqt⟩)
      · left
        split
        · exact h
        · exact List.mem_append_left _ h
      · rcases List.mem_cons.mp hq with rfl | hq
        · left
          split
          · rename_i hk; rw [← hqt]; exact hk
          · rw [← hqt]; exact List.mem_append_right _ (List.mem_singleton_self _)
        · exact Or.inr ⟨q, hq, hqt⟩

theorem topicCount_pos_iff (posts : List Post) (t : String) :
    0 < topicCount posts t ↔ ∃ p ∈ posts, p.Topic = t := by
  unfold topicCount
  rw [Int.natCast_pos, List.length_pos_iff_exists_mem]
  constructor
  · rintro ⟨p, hp⟩
    rw [List.mem_filter] at hp
    exact ⟨p, hp.1, by simpa using hp.2⟩
  · rintro ⟨p, hp, hpt⟩
    exact ⟨p, List.mem_filter.mpr ⟨hp, by simpa using hpt⟩⟩

theorem title_injective (t1 t2 : String) (h : t1 ++ " is trending" = t2 ++ " is trending") :
    t1 = t2 := by
  have := congrArg String.data h
  simp only [String.data_append] at this
  exact String.ext (List.append_cancel_right this)

theorem foldl_emit_topics (cond : String → Bool) (mk : String → Nat → Insight)
    (g : String → String × String × String × ℚ) (hg : ∀ t k, (mk t k).core = g t)
    (topics : List String) :
    ∀ acc : List Insight,
      (topics.foldl (fun insights topic =>
        if cond topic = true then insights ++ [mk topic insights.length] else insights) acc).map
          Insight.core =
        acc.map Insight.core ++ (topics.filter cond).map g := by
  induction topics with
  | nil => intro acc; simp
  | cons p ps ih =>
    intro acc
    simp only [List.foldl_cons]
    rw [ih]
    by_cases hc : cond p = true
    · simp [hc, hg, List.filter_cons]
    · simp [hc, List.filter_cons]

theorem DetectTrending_core (e : Engine) (rangeOrder : List String → List String)
    (now : Nat → Time) :
    (DetectTrending e rangeOrder now).map Insight.core =
      ((rangeOrder (topicCounts e.posts).keys).filter
        (fun t => decide (topicCount e.posts t > 5))).map
        (fun t => ("trending", t ++ " is trending",
          fmtInt (topicCount e.posts t) ++ " mentions in last 24h", (0.8 : ℚ))) := by
  have hcount : ∀ t, (topicCounts e.posts).count t = topicCount e.posts t := by
    intro t
    unfold topicCounts
    rw [foldl_incr_count]
    simp [CountMap.empty]
  unfold DetectTrending
  simp only [hcount]
  have := foldl_emit_topics
    (fun t => decide (topicCount e.posts t > 5))
    (fun topic k =>
      { Type_ := "trending"
        Title := topic ++ " is trending"
        Description := fmtInt (topicCount e.posts topic) ++ " mentions in last 24h"
        Confidence := 0.8
        Timestamp := now k })
    (fun t => ("trending", t ++ " is trending",
          fmtInt (topicCount e.posts t) ++ " mentions in last 24h", (0.8 : ℚ)))
    (fun _ _ => rfl) (rangeOrder (topicCounts e.posts).keys) []
  simp only [decide_eq_true_eq, List.map_nil, List.nil_append] at this
  exact this

/-- Claim C15: whatever the order in which the map of topic counts is visited,
`DetectTrending` emits exactly one insight for each topic that occurs in more than
5 posts and none for a topic that occurs in 5 posts or fewer; every insight
emitted has type trending and confidence 0.8, and its description carries the
post count of its topic. -/
theorem DetectTrending_threshold (e : Engine) (rangeOrder : List String → List String)
    (now : Nat → Time) (hperm : ∀ ks, (rangeOrder ks).Perm ks) :
    (∀ t, topicCount e.posts t > 5 →
      ((DetectTrending e rangeOrder now).map (fun i => i.Title)).count (t ++ " is trending") = 1) ∧
    (∀ t, topicCount e.posts t ≤ 5 →
      ∀ i ∈ DetectTrending e rangeOrder now, i.Title ≠ t ++ " is trending") ∧
    (∀ i ∈ DetectTrending e rangeOrder now,
      i.Type_ = "trending" ∧ i.Confidence = 0.8 ∧
      ∃ t, topicCount e.posts t > 5 ∧ i.Title = t ++ " is trending" ∧
        i.Description = fmtInt (topicCount e.posts t) ++ " mentions in last 24h") := by
  have hcore := DetectTrending_core e rangeOrder now
  have hnodup : (rangeOrder (topicCounts e.posts).keys).Nodup :=
    (hperm _).nodup_iff.mpr (foldl_incr_keys_nodup e.posts CountMap.empty List.nodup_nil)
  have hmem : ∀ t, t ∈ rangeOrder (topicCounts e.posts).keys ↔ 0 < topicCount e.posts t := by
    intro t
    rw [(hperm _).mem_iff, topicCount_pos_iff]
    unfold topicCounts
    rw [foldl_incr_keys_mem]
    simp [CountMap.empty]
  have htitles : (DetectTrending e rangeOrder now).map (fun i => i.Title) =
      ((rangeOrder (topicCounts e.posts).keys).filter
        (fun t => decide (topicCount e.posts t > 5))).map (fun t => t ++ " is trending") := by
    have := congrArg (List.map (fun c : String × String × String × ℚ => c.2.1)) hcore
    simpa [List.map_map, Function.comp_def, Insight.core] using this
  have hall : ∀ i ∈ DetectTrending e rangeOrder now,
      i.Type_ = "trending" ∧ i.Confidence = 0.8 ∧
      ∃ t, topicCount e.posts t > 5 ∧ i.Title = t ++ " is trending" ∧
        i.Description = fmtInt (topicCount e.posts t) ++ " mentions in last 24h" := by
    intro i hi
    have hm : i.core ∈ (DetectTrending e rangeOrder now).map Insight.core :=
      List.mem_map_of_mem _ hi
    rw [hcore] at hm
    obtain ⟨t, ht, hp⟩ := List.mem_map.mp hm
    rw [List.mem_filter] at ht
    simp only [Insight.core, Prod.mk.injEq] at hp
    exact ⟨hp.1.symm, hp.2.2.2.symm, t, by simpa using ht.2, hp.2.1.symm, hp.2.2.1.symm⟩
  refine ⟨?_, ?_, hall⟩
  · intro t ht
    rw [htitles]
    apply List.count_eq_one_of_mem
    · exact (hnodup.filter _).map (fun a b hab => title_injective a b hab)
    · exact List.mem_map.mpr ⟨t, List.mem_filter.mpr ⟨(hmem t).mpr (by omega), by simpa using ht⟩,
        rfl⟩
  · intro t ht i hi heq
    obtain ⟨_, _, t2, ht2, htitle, _⟩ := hall i hi
    have := title_injective t2 t (htitle.symm.trans heq)
    subst this
    omega

/-- Witness of C15: in a window of seven `ai` posts and two `cloud` posts, visited
in reverse order, one insight says that `ai` is trending with 7 mentions. -/
theorem DetectTrending_threshold_witness :
    (∀ ks : List String, (List.reverse ks).Perm ks) ∧
    (DetectTrending topicWindow List.reverse (fun k => k)).map Insight.core =
      [("trending", "ai is trending", "7 mentions in last 24h", 0.8)] ∧
    ((DetectTrending topicWindow List.reverse (fun k => k)).map
      (fun i => i.Title)).count ("ai" ++ " is trending") = 1 :=
  ⟨fun ks => List.reverse_perm ks, by rfl,
    (DetectTrending_threshold topicWindow List.reverse (fun k => k)
      (fun ks => List.reverse_perm ks)).1 "ai" (by decide)⟩

/-- Claim C16: for every post and every `avgEngagement > 0`, over exact rationals,
`CalculateScore` equals 0.5·(1/(1 + hours/24)) + 0.3·min(engagement/avgEngagement, 1)
+ 0.2·v, where hours is the time elapsed since `created_at` in hours,
engagement = likes + 2·comments + 3·shares and v = 0.5 if
engagement > 2·avgEngagement and 0 otherwise. -/
theorem CalculateScore_formula (s : Scorer) (post : Post) (now : Time)
    (havg : s.avgEngagement > 0) :
    CalculateScore s post now =
      0.5 * (1 / (1 + Hours (now - post.CreatedAt) / 24)) +
      0.3 * min ((engagementOf post : ℚ) / (s.avgEngagement : ℚ)) 1 +
      0.2 * (if (engagementOf post : ℚ) > 2 * (s.avgEngagement : ℚ) then (0.5 : ℚ) else 0) := by
  have he : post.Likes + post.Comments * 2 + post.Shares * 3 = engagementOf post := by
    unfold engagementOf; ring
  have hv : (engagementOf post > s.avgEngagement * 2) ↔
      ((engagementOf post : ℚ) > 2 * (s.avgEngagement : ℚ)) := by
    rw [gt_iff_lt, gt_iff_lt, mul_comm, ← Int.cast_lt (R := ℚ)]
    push_cast
    rfl
  unfold CalculateScore
  simp only [he, havg, if_true, Since]
  have hmin : (if (engagementOf post : ℚ) / (s.avgEngagement : ℚ) > 1 then (1 : ℚ)
      else (engagementOf post : ℚ) / (s.avgEngagement : ℚ)) =
      min ((engagementOf post : ℚ) / (s.avgEngagement : ℚ)) 1 := by
    rw [min_def]
    by_cases h : (engagementOf post : ℚ) / (s.avgEngagement : ℚ) > 1
    · rw [if_pos h, if_neg (not_le.mpr h)]
    · rw [if_neg h, if_pos (not_lt.mp h)]
  rw [hmin]
  by_cases h : engagementOf post > s.avgEngagement * 2
  · rw [if_pos h, if_pos (hv.mp h)]; ring
  · rw [if_neg h, if_neg (fun h2 => h (hv.mpr h2))]; ring

/-- Witness of C16: a post of engagement 30, one day old, with `avgEngagement = 10`
scores 0.5·0.5 + 0.3·1 + 0.2·0.5 = 0.65. -/
theorem CalculateScore_formula_witness :
    (10 : Int) > 0 ∧
    CalculateScore ⟨10, []⟩ (likedPost "p" 30) (1 + 24 * 3600000000000) = 0.65 ∧
    CalculateScore ⟨10, []⟩ (likedPost "p" 30) (1 + 24 * 3600000000000) =
      0.5 * (1 / (1 + Hours (1 + 24 * 3600000000000 - (likedPost "p" 30).CreatedAt) / 24)) +
      0.3 * min ((engagementOf (likedPost "p" 30) : ℚ) / ((10 : Int) : ℚ)) 1 +
      0.2 * (if (engagementOf (likedPost "p" 30) : ℚ) > 2 * ((10 : Int) : ℚ)
        then (0.5 : ℚ) else 0) :=
  ⟨by decide, by norm_num [CalculateScore, Hours, Since, likedPost],
    CalculateScore_formula ⟨10, []⟩ (likedPost "p" 30) (1 + 24 * 3600000000000) (by decide)⟩

/-- Claim C19, refuted on the code: for the title "Our startup just raised"
`detectTopic` returns `ai`, not `startup`, whatever the table of
`unicode.ToLower`: the lowercased title contains `ai` (in "raised"), and the AI
keywords are tested first. -/
theorem detectTopic_startup_counterexample :
    (∀ lower : Char → Char, detectTopic lower "Our startup just raised" = "ai") ∧
    Contains "our startup just raised" "ai" = true ∧
    ¬ (detectTopic Char.toLower "Our startup just raised" = "startup") :=
  ⟨fun _ => rfl, by decide, by decide⟩

/-- Claim C19 as amended: `detectTopic` returns `ai` for the title
"Introducing GPT-5", `ai` for the title "Our startup just raised" (it contains
`ai`), and `programming` for the title "On hash tables"; a startup title with no
AI keyword in it, such as "Our startup just closed", gives `startup`. -/
theorem detectTopic_examples (lower : Char → Char) :
    detectTopic lower "Introducing GPT-5" = "ai" ∧
    detectTopic lower "Our startup just raised" = "ai" ∧
    detectTopic lower "On hash tables" = "programming" ∧
    detectTopic lower "Our startup just closed" = "startup" :=
  ⟨rfl, rfl, rfl, rfl⟩

theorem find_tails_some (P : List Char → Bool) (l : List Char) :
    ∀ t, l.tails.find? P = some t →
      t <:+ l ∧ P t = true ∧ ∀ t1, t1 <:+ l → t.length < t1.length → P t1 = false := by
  induction l with
  | nil =>
    intro t h
    simp only [List.tails, List.find?_cons, List.find?_nil] at h
    split at h
    · rename_i hp
      simp only [Option.some.injEq] at h
      subst h
      refine ⟨List.suffix_refl _, hp, ?_⟩
      intro t1 ht1 hlen
      rw [List.suffix_nil] at ht1
      subst ht1
      simp at hlen
    · simp at h
  | cons a l ih =>
    intro t h
    simp only [List.tails, List.find?_cons] at h
    split at h
    · rename_i hp
      simp only [Option.some.injEq] at h
      subst h
      refine ⟨List.suffix_refl _, hp, ?_⟩
      intro t1 ht1 hlen
      have := ht1.length_le
      omega
    · rename_i hp
      obtain ⟨h1, h2, h3⟩ := ih t h
      refine ⟨h1.trans (List.suffix_cons a l), h2, ?_⟩
      intro t1 ht1 hlen
      rcases List.suffix_cons_iff.mp ht1 with rfl | ht1
      · simpa using hp
      · exact h3 t1 ht1 hlen

theorem find_tails_none (P : List Char → Bool) (l : List Char)
    (h : l.tails.find? P = none) : ∀ t, t <:+ l → P t = false := by
  intro t ht
  have := List.find?_eq_none.mp h t ((List.mem_tails t l).mpr ht)
  simpa using this

theorem parseItem_eq (unescape : String → String) (parseTime : String → String → Option Time)
    (item : MediumItem) (topic : String) (now : Time) :
    (findHexTail item.Link = none → parseItem unescape parseTime item topic now = none) ∧
    (∀ id, findHexTail item.Link = some id →
      ∃ post, parseItem unescape parseTime item topic now = some post ∧ post.ID = id) := by
  constructor
  · intro h
    unfold parseItem
    simp only [h]
    split <;> rfl
  · intro id h
    have hne : item.Link ≠ "" := by
      intro h0
      rw [h0] at h
      have hn : findHexTail "" = none := by decide
      rw [hn] at h
      exact absurd h (by simp)
    unfold parseItem
    simp only [h, hne, if_false]
    exact ⟨_, rfl, rfl⟩

/-- Claim C20: `parseItem` returns a post if and only if the link of the item ends
in a run of at least 8 characters of `[a-f0-9]`, and then the id of the post is
the longest suffix of the link made only of such characters.  The link
`https://medium.com/@alice/why-foo-abc123def` gives the id `abc123def`; the link
`https://medium.com/no-hex/` gives no post. -/
theorem parseItem_id_is_hex_tail (unescape : String → String)
    (parseTime : String → String → Option Time) (item : MediumItem) (topic : String)
    (now : Time) :
    ((parseItem unescape parseTime item topic now).isSome = true ↔
      ∃ t : List Char, t <:+ item.Link.data ∧ (∀ c ∈ t, isHexLower c = true) ∧ 8 ≤ t.length) ∧
    (∀ post, parseItem unescape parseTime item topic now = some post →
      post.ID.data <:+ item.Link.data ∧
      (∀ c ∈ post.ID.data, isHexLower c = true) ∧
      8 ≤ post.ID.data.length ∧
      ∀ t : List Char, t <:+ item.Link.data → (∀ c ∈ t, isHexLower c = true) →
        t.length ≤ post.ID.data.length) ∧
    (∃ post, parseItem unescape parseTime
        ⟨"Why foo", "", "https://medium.com/@alice/why-foo-abc123def", "", ""⟩ topic now =
          some post ∧ post.ID = "abc123def") ∧
    parseItem unescape parseTime ⟨"No hex", "", "https://medium.com/no-hex/", "", ""⟩ topic now =
      none := by
  have hP : ∀ t : List Char,
      (t.all isHexLower && decide (8 ≤ t.length)) = true ↔
        (∀ c ∈ t, isHexLower c = true) ∧ 8 ≤ t.length := by
    intro t
    simp [List.all_eq_true]
  obtain ⟨hnone, hsome⟩ := parseItem_eq unescape parseTime item topic now
  have hid : ∀ id, findHexTail item.Link = some id →
      id.data <:+ item.Link.data ∧ (∀ c ∈ id.data, isHexLower c = true) ∧ 8 ≤ id.data.length ∧
      ∀ t : List Char, t <:+ item.Link.data → (∀ c ∈ t, isHexLower c = true) →
        t.length ≤ id.data.length := by
    intro id h
    unfold findHexTail at h
    obtain ⟨t, ht, hmk⟩ := Option.map_eq_some'.mp h
    subst hmk
    obtain ⟨h1, h2, h3⟩ := find_tails_some _ _ t ht
    have h2' := (hP t).mp h2
    refine ⟨h1, h2'.1, h2'.2, ?_⟩
    intro t1 ht1 hall
    by_contra hlt
    have hlen : t.length < t1.length := by
      simp only [not_le] at hlt
      exact hlt
    have hf := h3 t1 ht1 hlen
    have ht1P : (t1.all isHexLower && decide (8 ≤ t1.length)) = true :=
      (hP t1).mpr ⟨hall, by omega⟩
    rw [hf] at ht1P
    exact absurd ht1P (by decide)
  refine ⟨⟨?_, ?_⟩, ?_, ?_, ?_⟩
  · intro h
    cases hf : findHexTail item.Link with
    | none => rw [hnone hf] at h; exact absurd h (by decide)
    | some id =>
      obtain ⟨h1, h2, h3, _⟩ := hid id hf
      exact ⟨id.data, h1, h2, h3⟩
  · rintro ⟨t, ht1, ht2, ht3⟩
    cases hf : findHexTail item.Link with
    | none =>
      exfalso
      unfold findHexTail at hf
      have hn := Option.map_eq_none'.mp hf
      have := find_tails_none _ _ hn t ht1
      rw [(hP t).mpr ⟨ht2, ht3⟩] at this
      exact absurd this (by decide)
    | some id =>
      obtain ⟨post, hp, _⟩ := hsome id hf
      rw [hp]; rfl
  · intro post hp
    cases hf : findHexTail item.Link with
    | none => rw [hnone hf] at hp; exact absurd hp (by simp)
    | some id =>
      obtain ⟨post1, hp1, hid1⟩ := hsome id hf
      rw [hp1] at hp
      simp only [Option.some.injEq] at hp
      subst hp
      rw [hid1]
      exact hid id hf
  · exact ⟨_, rfl, rfl⟩
  · rfl

theorem swapIfGreater_split (pre mid ys : List TrendingPost) (x y : TrendingPost) (i j : Nat)
    (hi : i = pre.length) (hj : j = pre.length + 1 + mid.length) :
    swapIfGreater (pre ++ x :: (mid ++ y :: ys)) i j =
      if y.Score > x.Score then pre ++ y :: (mid ++ x :: ys)
      else pre ++ x :: (mid ++ y :: ys) := by
  subst hi hj
  have h1 : (pre ++ x :: (mid ++ y :: ys))[pre.length]? = some x := by
    rw [List.getElem?_append_right (le_refl _)]
    simp
  have h2 : (pre ++ x :: (mid ++ y :: ys))[pre.length + 1 + mid.length]? = some y := by
    rw [List.getElem?_append_right (by omega)]
    have : pre.length + 1 + mid.length - pre.length = mid.length + 1 := by omega
    rw [this, List.getElem?_cons_succ, List.getElem?_append_right (le_refl _)]
    simp
  unfold swapIfGreater
  rw [h1, h2]
  simp only []
  split
  · rw [List.set_append_right _ _ (le_refl _)]
    simp only [Nat.sub_self, List.set_cons_zero]
    rw [List.set_append_right _ _ (by omega)]
    have : pre.length + 1 + mid.length - pre.length = mid.length + 1 := by omega
    rw [this, List.set_cons_succ, List.set_append_right _ _ (le_refl _)]
    simp
  · rfl

theorem foldl_swap_pass (pre : List TrendingPost) (i : Nat) (hi : i = pre.length)
    (rest : List TrendingPost) :
    ∀ (x : TrendingPost) (mid : List TrendingPost),
      (List.range' (i + 1 + mid.length) rest.length).foldl (fun a j => swapIfGreater a i j)
        (pre ++ x :: (mid ++ rest)) =
      pre ++ (pass x rest).1 :: (mid ++ (pass x rest).2) := by
  induction rest with
  | nil => intro x mid; simp [pass]
  | cons y ys ih =>
    intro x mid
    simp only [List.length_cons, List.range'_succ, List.foldl_cons]
    rw [swapIfGreater_split pre mid ys x y i (i + 1 + mid.length) hi (by omega)]
    have hidx : i + 1 + mid.length + 1 = i + 1 + (mid ++ [x]).length := by simp; omega
    have hidy : i + 1 + mid.length + 1 = i + 1 + (mid ++ [y]).length := by simp; omega
    by_cases h : y.Score > x.Score
    · rw [if_pos h]
      have := ih y (mid ++ [x])
      rw [← hidx] at this
      simp only [List.append_assoc, List.singleton_append] at this
      rw [this]
      simp [pass, h]
    · rw [if_neg h]
      have := ih x (mid ++ [y])
      rw [← hidy] at this
      simp only [List.append_assoc, List.singleton_append] at this
      rw [this]
      simp [pass, h]

theorem sortInner_split (pre rest : List TrendingPost) (x : TrendingPost) :
    sortInner (pre ++ x :: rest) pre.length = pre ++ (pass x rest).1 :: (pass x rest).2 := by
  unfold sortInner
  have hlen : (pre ++ x :: rest).length - (pre.length + 1) = rest.length := by
    simp only [List.length_append, List.length_cons]; omega
  rw [hlen]
  have := foldl_swap_pass pre pre.length rfl rest x []
  simpa using this

theorem pass_perm (l : List TrendingPost) :
    ∀ x : TrendingPost, ((pass x l).1 :: (pass x l).2).Perm (x :: l) := by
  induction l with
  | nil => intro x; simp [pass]
  | cons y ys ih =>
    intro x
    unfold pass
    split
    · exact (List.Perm.swap x _ _).trans ((ih y).cons x)
    · exact ((List.Perm.swap y _ _).trans ((ih x).cons y)).trans (List.Perm.swap x y ys)

theorem pass_ge_start (l : List TrendingPost) :
    ∀ x : TrendingPost, x.Score ≤ (pass x l).1.Score := by
  induction l with
  | nil => intro x; simp [pass]
  | cons y ys ih =>
    intro x
    unfold pass
    split
    · rename_i h
      exact le_trans (le_of_lt h) (ih y)
    · exact ih x

theorem pass_max (l : List TrendingPost) :
    ∀ x : TrendingPost, ∀ z ∈ (pass x l).2, z.Score ≤ (pass x l).1.Score := by
  induction l with
  | nil => intro x z hz; simp [pass] at hz
  | cons y ys ih =>
    intro x z hz
    unfold pass at hz ⊢
    split at hz
    · rename_i h
      rw [if_pos h]
      rcases List.mem_cons.mp hz with rfl | hz
      · exact le_trans (le_of_lt h) (pass_ge_start ys y)
      · exact ih y z hz
    · rename_i h
      rw [if_neg h]
      rcases List.mem_cons.mp hz with rfl | hz
      · exact le_trans (not_lt.mp h) (pass_ge_start ys x)
      · exact ih x z hz

/-- The state of the sort after `k` rounds of the outer loop: the first `k`
places hold, in non-increasing order, elements that dominate all the others. -/
theorem sortRounds (a : List TrendingPost) :
    ∀ k, k ≤ a.length →
      ∃ pre suf, (List.range k).foldl (fun a i => sortInner a i) a = pre ++ suf ∧
        pre.length = k ∧
        pre.Pairwise (fun u v => v.Score ≤ u.Score) ∧
        (∀ u ∈ pre, ∀ v ∈ suf, v.Score ≤ u.Score) ∧
        (pre ++ suf).Perm a := by
  intro k
  induction k with
  | zero =>
    intro _
    exact ⟨[], a, by simp, rfl, List.Pairwise.nil, by simp, by simp⟩
  | succ k ih =>
    intro hk
    obtain ⟨pre, suf, heq, hlen, hsorted, hdom, hperm⟩ := ih (by omega)
    rw [List.range_succ, List.foldl_append, heq]
    simp only [List.foldl_cons, List.foldl_nil]
    have hsuf : suf ≠ [] := by
      intro h0
      have := hperm.length_eq
      rw [h0] at this
      simp at this
      omega
    obtain ⟨x, rest, rfl⟩ := List.exists_cons_of_ne_nil hsuf
    rw [← hlen, sortInner_split]
    have hp := pass_perm rest x
    refine ⟨pre ++ [(pass x rest).1], (pass x rest).2, by simp, by simp, ?_, ?_, ?_⟩
    · rw [List.pairwise_append]
      refine ⟨hsorted, List.pairwise_singleton _ _, ?_⟩
      intro u hu v hv
      rw [List.mem_singleton] at hv
      subst hv
      exact hdom u hu _ (hp.mem_iff.mp (List.mem_cons_self _ _))
    · intro u hu v hv
      rcases List.mem_append.mp hu with hu | hu
      · exact hdom u hu v (hp.mem_iff.mp (List.mem_cons_of_mem _ hv))
      · rw [List.mem_singleton] at hu
        subst hu
        exact pass_max rest x v hv
    · have : (pre ++ [(pass x rest).1] ++ (pass x rest).2).Perm (pre ++ x :: rest) := by
        simp only [List.append_assoc, List.singleton_append]
        exact List.Perm.append_left pre hp
      exact this.trans hperm

theorem sortByScore_sorted (a : List TrendingPost) :
    (sortByScore a).Pairwise (fun u v => v.Score ≤ u.Score) ∧ (sortByScore a).Perm a := by
  obtain ⟨pre, suf, heq, hlen, hsorted, _, hperm⟩ := sortRounds a a.length (le_refl _)
  have hsuf : suf = [] := by
    have := hperm.length_eq
    simp only [List.length_append] at this
    exact List.length_eq_zero.mp (by omega)
  subst hsuf
  unfold sortByScore
  rw [heq]
  simp only [List.append_nil] at hperm ⊢
  exact ⟨hsorted, hperm⟩

theorem rankFrom_entry (l : List TrendingPost) :
    ∀ i, (rankFrom i l).map entryOf = l.map entryOf := by
  induction l with
  | nil => intro i; rfl
  | cons tp tps ih => intro i; simp [rankFrom, entryOf, ih]

theorem rankFrom_length (l : List TrendingPost) : ∀ i, (rankFrom i l).length = l.length := by
  induction l with
  | nil => intro i; rfl
  | cons tp tps ih => intro i; simp [rankFrom, ih]

theorem rankFrom_rank (l : List TrendingPost) :
    ∀ (i k : Nat) (h : k < (rankFrom i l).length),
      ((rankFrom i l).get ⟨k, h⟩).Rank = (i : Int) + k + 1 := by
  induction l with
  | nil => intro i k h; simp [rankFrom] at h
  | cons tp tps ih =>
    intro i k h
    cases k with
    | zero => simp [rankFrom]
    | succ k =>
      simp only [rankFrom, List.get_eq_getElem, List.getElem_cons_succ]
      have := ih (i + 1) k (by simpa [rankFrom] using h)
      simp only [List.get_eq_getElem] at this
      rw [this]
      push_cast
      ring

theorem pairwise_entry (l : List TrendingPost) :
    l.Pairwise (fun u v => v.Score ≤ u.Score) ↔
      (l.map entryOf).Pairwise (fun e1 e2 => e2.2 ≤ e1.2) := by
  rw [List.pairwise_map]
  rfl

/-- The ranked list that `GetTrending` and `GetMostEngaging` cut at `limit`: its
scores never increase, it is a rearrangement of the scored posts, and place `k`
has rank `k + 1`. -/
theorem ranked_sorted (a : List TrendingPost) :
    (rankFrom 0 (sortByScore a)).Pairwise (fun u v => v.Score ≤ u.Score) ∧
    ((rankFrom 0 (sortByScore a)).map entryOf).Perm (a.map entryOf) ∧
    (rankFrom 0 (sortByScore a)).length = a.length ∧
    ∀ (k : Nat) (h : k < (rankFrom 0 (sortByScore a)).length),
      ((rankFrom 0 (sortByScore a)).get ⟨k, h⟩).Rank = (k : Int) + 1 := by
  obtain ⟨hs, hp⟩ := sortByScore_sorted a
  refine ⟨?_, ?_, ?_, ?_⟩
  · rw [pairwise_entry, rankFrom_entry, ← pairwise_entry]
    exact hs
  · rw [rankFrom_entry]
    exact hp.map entryOf
  · rw [rankFrom_length]
    exact hp.length_eq
  · intro k h
    rw [rankFrom_rank]
    simp

theorem scoreFrom_posts (s : Scorer) (now : Nat → Time) (posts : List Post) :
    ∀ i, (scoreFrom s now i posts).map (fun tp => tp.Post) = posts := by
  induction posts with
  | nil => intro i; rfl
  | cons p ps ih => intro i; simp [scoreFrom, ih]

theorem engagementScores_posts (posts : List Post) :
    (engagementScores posts).map (fun tp => tp.Post) = posts := by
  induction posts with
  | nil => rfl
  | cons p ps ih => simp [engagementScores, ih]

theorem topN_full (a : List TrendingPost) (limit : Int) (h : (a.length : Int) ≤ limit) :
    topN a limit = some a := by
  unfold topN
  simp only []
  by_cases hgt : limit > (a.length : Int)
  · rw [if_pos hgt, if_neg (by omega)]
    simp
  · have : limit = (a.length : Int) := by omega
    rw [if_neg hgt, if_neg (by omega), this]
    simp

theorem topN_take (a : List TrendingPost) (limit : Int) (h : 0 ≤ limit) :
    topN a limit = some (a.take limit.toNat) ∧
    ((a.take limit.toNat).length : Int) = min limit (a.length : Int) := by
  unfold topN
  simp only []
  by_cases hgt : limit > (a.length : Int)
  · rw [if_pos hgt, if_neg (by omega)]
    have h1 : List.take (a.length : Int).toNat a = a := by simp
    have h2 : List.take limit.toNat a = a := List.take_of_length_le (by omega)
    rw [h1, h2]
    exact ⟨rfl, by rw [min_eq_right (by omega)]⟩
  · rw [if_neg hgt, if_neg (by omega)]
    refine ⟨rfl, ?_⟩
    have hle : limit.toNat ≤ a.length := by omega
    rw [List.length_take, Nat.min_eq_left hle, min_eq_left (by omega)]
    omega

/-- Claim C17, evaluated on the code: posts a, b, c are added in this order with
engagement 1, 1 and 2; `GetMostEngaging` and `GetTrending` (all three posts
scored at the same instant) both return c, b, a: the posts a and b have equal
scores and come out in the reverse of the order in which they were added.  The
loops, which the code calls a bubble sort, swap `a[i]` with every later `a[j]` of
greater score, and the swap of places 0 and 2 puts a behind b; a stable sort
returns c, a, b. -/
theorem ranking_reverses_ties :
    tiedScorer.recentPosts.map (fun p => p.ID) = ["a", "b", "c"] ∧
    (GetMostEngaging tiedScorer 3).map (List.map (fun tp => (tp.Post.ID, tp.Score))) =
      some [("c", 2), ("b", 1), ("a", 1)] ∧
    (GetTrending tiedScorer 3 (fun _ => 1)).map (List.map (fun tp => (tp.Post.ID, tp.Score))) =
      some [("c", 0.56), ("b", 0.53), ("a", 0.53)] ∧
    (bubbleSort (engagementScores tiedScorer.recentPosts)).map
      (fun tp => (tp.Post.ID, tp.Score)) = [("c", 2), ("a", 1), ("b", 1)] := by
  refine ⟨rfl, ?_, ?_, ?_⟩
  · simp [GetMostEngaging, tiedScorer, likedPost, engagementScores, sortByScore, sortInner,
      swapIfGreater, rankFrom, topN, List.range, List.range.loop, List.range']
  · norm_num [GetTrending, tiedScorer, likedPost, scoreFrom, CalculateScore, Hours, Since,
      sortByScore, sortInner, swapIfGreater, rankFrom, topN, List.range, List.range.loop,
      List.range']
  · simp [bubbleSort, bubbleCarry, tiedScorer, likedPost, engagementScores, Nat.iterate]

/-- With a limit of at least the number of posts, the output of `GetTrending` and
of `GetMostEngaging` is a rearrangement of the scored posts in which the scores
never increase. -/
theorem ranking_sorted_by_score (s : Scorer) (limit : Int) (now : Nat → Time)
    (hl : (s.recentPosts.length : Int) ≤ limit) :
    (∃ out, GetTrending s limit now = some out ∧
      out.Pairwise (fun u v => v.Score ≤ u.Score) ∧
      (out.map entryOf).Perm ((scoreFrom s now 0 s.recentPosts).map entryOf) ∧
      (out.map (fun tp => tp.Post)).Perm s.recentPosts) ∧
    (∃ out, GetMostEngaging s limit = some out ∧
      out.Pairwise (fun u v => v.Score ≤ u.Score) ∧
      (out.map entryOf).Perm ((engagementScores s.recentPosts).map entryOf) ∧
      (out.map (fun tp => tp.Post)).Perm s.recentPosts) := by
  have key : ∀ a : List TrendingPost, a.map (fun tp => tp.Post) = s.recentPosts →
      ∃ out, topN (rankFrom 0 (sortByScore a)) limit = some out ∧
        out.Pairwise (fun u v => v.Score ≤ u.Score) ∧
        (out.map entryOf).Perm (a.map entryOf) ∧
        (out.map (fun tp => tp.Post)).Perm s.recentPosts := by
    intro a ha
    obtain ⟨hs, hp, hlen, _⟩ := ranked_sorted a
    have hla : a.length = s.recentPosts.length := by rw [← ha, List.length_map]
    refine ⟨_, topN_full _ limit (by rw [hlen, hla]; exact hl), hs, hp, ?_⟩
    have := hp.map Prod.fst
    simp only [List.map_map] at this
    rw [← ha]
    exact this
  exact ⟨key _ (scoreFrom_posts s now s.recentPosts 0), key _ (engagementScores_posts s.recentPosts)⟩

/-- The ranking of the three posts a, b, c is sorted by descending score. -/
theorem ranking_sorted_by_score_example :
    (tiedScorer.recentPosts.length : Int) ≤ 3 ∧
    ∃ out, GetMostEngaging tiedScorer 3 = some out ∧
      out.Pairwise (fun u v => v.Score ≤ u.Score) ∧
      (out.map entryOf).Perm ((engagementScores tiedScorer.recentPosts).map entryOf) ∧
      (out.map (fun tp => tp.Post)).Perm tiedScorer.recentPosts :=
  ⟨by decide, (ranking_sorted_by_score tiedScorer 3 (fun _ => 1) (by decide)).2⟩

/-- Claim C18: for a Scorer holding n posts and a limit ≥ 0, `GetTrending` returns
min(limit, n) entries whose scores never increase; together with the entries left
out they are a rearrangement of the scored posts, so they are distinct members of
the added posts; every entry left out has a score no greater than every entry
returned; and the entry at place i (from 0) has rank i + 1. -/
theorem GetTrending_top (s : Scorer) (limit : Int) (now : Nat → Time) (hl : 0 ≤ limit) :
    ∃ out rest : List TrendingPost,
      GetTrending s limit now = some out ∧
      (out.length : Int) = min limit (s.recentPosts.length : Int) ∧
      out.Pairwise (fun u v => v.Score ≤ u.Score) ∧
      (∀ u ∈ out, ∀ v ∈ rest, v.Score ≤ u.Score) ∧
      ((out ++ rest).map entryOf).Perm ((scoreFrom s now 0 s.recentPosts).map entryOf) ∧
      ((out ++ rest).map (fun tp => tp.Post)).Perm s.recentPosts ∧
      ∀ (k : Nat) (h : k < out.length), (out.get ⟨k, h⟩).Rank = (k : Int) + 1 := by
  obtain ⟨hs, hp, hlen, hrank⟩ := ranked_sorted (scoreFrom s now 0 s.recentPosts)
  have hposts := scoreFrom_posts s now s.recentPosts 0
  have hla : (scoreFrom s now 0 s.recentPosts).length = s.recentPosts.length := by
    conv_rhs => rw [← hposts]
    rw [List.length_map]
  obtain ⟨htop, htoplen⟩ := topN_take (rankFrom 0 (sortByScore (scoreFrom s now 0 s.recentPosts)))
    limit hl
  have hsplit := List.take_append_drop limit.toNat
    (rankFrom 0 (sortByScore (scoreFrom s now 0 s.recentPosts)))
  refine ⟨_, List.drop limit.toNat (rankFrom 0 (sortByScore (scoreFrom s now 0 s.recentPosts))),
    htop, ?_, ?_, ?_, ?_, ?_, ?_⟩
  · rw [htoplen, hlen, hla]
  · exact hs.sublist (List.take_sublist _ _)
  · rw [← hsplit, List.pairwise_append] at hs
    exact hs.2.2
  · rw [hsplit]
    exact hp
  · rw [hsplit]
    have := hp.map Prod.fst
    simp only [List.map_map] at this
    have h2 : ((rankFrom 0 (sortByScore (scoreFrom s now 0 s.recentPosts))).map
        (fun tp => tp.Post)).Perm ((scoreFrom s now 0 s.recentPosts).map (fun tp => tp.Post)) :=
      this
    rw [hposts] at h2
    exact h2
  · intro k h
    have hk : k < (rankFrom 0 (sortByScore (scoreFrom s now 0 s.recentPosts))).length := by
      rw [List.length_take] at h
      omega
    have := hrank k hk
    simp only [List.get_eq_getElem] at this ⊢
    rw [List.getElem_take]
    exact this

/-- Witness of C18: of the three posts a, b, c, `GetTrending` with limit 2 returns
two entries, c first, with ranks 1 and 2. -/
theorem GetTrending_top_witness :
    (0 : Int) ≤ 2 ∧
    (GetTrending tiedScorer 2 (fun _ => 1)).map
      (List.map (fun tp => (tp.Post.ID, tp.Score, tp.Rank))) =
        some [("c", 0.56, 1), ("b", 0.53, 2)] ∧
    ∃ out rest : List TrendingPost,
      GetTrending tiedScorer 2 (fun _ => 1) = some out ∧
      (out.length : Int) = min 2 (tiedScorer.recentPosts.length : Int) ∧
      out.Pairwise (fun u v => v.Score ≤ u.Score) ∧
      (∀ u ∈ out, ∀ v ∈ rest, v.Score ≤ u.Score) ∧
      ((out ++ rest).map entryOf).Perm
        ((scoreFrom tiedScorer (fun _ => 1) 0 tiedScorer.recentPosts).map entryOf) ∧
      ((out ++ rest).map (fun tp => tp.Post)).Perm tiedScorer.recentPosts ∧
      ∀ (k : Nat) (h : k < out.length), (out.get ⟨k, h⟩).Rank = (k : Int) + 1 :=
  ⟨by decide,
    by norm_num [GetTrending, tiedScorer, likedPost, scoreFrom, CalculateScore, Hours, Since,
      sortByScore, sortInner, swapIfGreater, rankFrom, topN, List.range, List.range.loop,
      List.range', Int.toNat],
    GetTrending_top tiedScorer 2 (fun _ => 1) (by decide)⟩

theorem processPost_counts (hash : String → String) (lower : Char → Char) (b : BaseCrawler)
    (o : PostOutcomes) (post : Post) (s : Loop) :
    (processPost hash lower b o post s).sent + (processPost hash lower b o post s).skipped =
      s.sent + s.skipped + 1 := by
  unfold processPost
  simp only []
  split_ifs <;> simp only [] <;> omega

theorem processLoop_counts (hash : String → String) (lower : Char → Char) (b : BaseCrawler)
    (posts : List Post) :
    ∀ (os : List PostOutcomes) (s : Loop),
      (processLoop hash lower b posts os s).sent + (processLoop hash lower b posts os s).skipped =
        s.sent + s.skipped + posts.length := by
  induction posts with
  | nil => intro os s; rfl
  | cons p ps ih =>
    intro os s
    simp only [processLoop, List.length_cons]
    rw [ih, processPost_counts]
    omega

/-- Claim C25: for every crawler, every batch of posts and every outcome of the
validator, of the dedup-store operations and of the producer, `ProcessAndSend`
returns a nil error and counts each post exactly once: sent + skipped is the
number of posts of the batch. -/
theorem ProcessAndSend_counts_every_post (hash : String → String) (lower : Char → Char)
    (b : BaseCrawler) (posts : List Post) (env : CrawlEnv) (st : Pipeline) :
    (ProcessAndSend hash lower b posts env st).1.err = none ∧
    (ProcessAndSend hash lower b posts env st).1.sent +
      (ProcessAndSend hash lower b posts env st).1.skipped = posts.length := by
  unfold ProcessAndSend
  simp only []
  split
  · rename_i h
    exact ⟨rfl, by simp only []; omega⟩
  · refine ⟨rfl, ?_⟩
    simp only []
    rw [processLoop_counts]
    simp
theorem onFailure_maxFailures {σ : Type} (cb : CircuitBreaker σ) (now : Time) (w : σ) :
    (onFailure cb now w).1.maxFailures = cb.maxFailures := by
  unfold onFailure setState
  by_cases h : cb.failureCount + 1 ≥ cb.maxFailures <;> simp [h]

theorem onFailure_inv {σ : Type} (m : Int) (cb : CircuitBreaker σ) (now : Time) (w : σ)
    (hno : cb.state ≠ State.StateOpen) (h : BreakerInv m cb) :
    BreakerInv m (onFailure cb now w).1 := by
  obtain ⟨h1, h2, h3, h4, h5⟩ := h
  have hf := onFailure_fields cb now w
  refine ⟨hf.2.1.trans h1, (onFailure_maxFailures cb now w).trans h2, ?_, ?_, Or.inl hf.1⟩
  · intro hs
    rw [hf.2.2.2.2] at hs
    rw [hf.2.2.2.1]
    split at hs
    · exact absurd hs (by decide)
    · omega
  · intro hs
    rw [hf.2.2.2.2] at hs
    rw [hf.2.2.2.1]
    split at hs
    · omega
    · exact absurd hs hno

theorem onSuccess_inv {σ : Type} (m : Int) (hm : 1 ≤ m) (cb : CircuitBreaker σ) (w : σ)
    (hno : cb.state ≠ State.StateOpen) (h : BreakerInv m cb) :
    BreakerInv m (onSuccess cb w).1 := by
  obtain ⟨h1, h2, h3, h4, h5⟩ := h
  have hf := onSuccess_fields cb w
  have hmf : (onSuccess cb w).1.maxFailures = cb.maxFailures := by
    unfold onSuccess setState
    by_cases hs : cb.state = State.StateHalfOpen <;>
      by_cases h2 : cb.successCount + 1 ≥ cb.successThreshold <;> simp [hs, h2]
  refine ⟨hf.1.trans h1, hmf.trans h2, ?_, ?_, ?_⟩
  · intro _; rw [hf.2.1]; omega
  · intro ho
    rw [hf.2.2.1] at ho
    split at ho
    · exact absurd ho (by decide)
    · exact absurd ho hno
  · rw [hf.2.2.2.1]
    split
    · split
      · exact Or.inl rfl
      · rename_i hlt
        rw [h1] at hlt
        rcases h5 with h5 | h5
        · right; rw [h5]; rfl
        · exfalso; rw [h5] at hlt; exact hlt (by decide)
    · exact h5

theorem setState_halfOpen_inv {σ : Type} (m : Int) (cb : CircuitBreaker σ) (w : σ)
    (h : BreakerInv m cb) : BreakerInv m (setState cb State.StateHalfOpen w).1 := by
  obtain ⟨h1, h2, h3, h4, h5⟩ := h
  have hf := setState_fields cb State.StateHalfOpen w
  have hc := hf.2.2.2.2.2.1 (by decide)
  refine ⟨hf.2.1.trans h1, hf.2.2.1.trans h2, ?_, ?_, ?_⟩
  · intro hs; rw [hf.1] at hs; exact absurd hs (by decide)
  · intro hs; rw [hf.1] at hs; exact absurd hs (by decide)
  · rw [hc.1]; exact h5

theorem Call_breakerInv {σ : Type} (m : Int) (hm : 1 ≤ m) (cb : CircuitBreaker σ)
    (fn : σ → Option String × σ) (clk : Clock) (w : σ) (h : BreakerInv m cb) :
    BreakerInv m (Call cb fn clk w).1 := by
  have key : ∀ (cb1 : CircuitBreaker σ) (w1 : σ), cb1.state ≠ State.StateOpen →
      BreakerInv m cb1 → BreakerInv m (Call cb1 fn clk w1).1 := by
    intro cb1 w1 hno hinv
    cases hf : (fn w1).1 with
    | some msg =>
      rw [Call_not_open_fail cb1 fn clk w1 msg hno hf]
      exact onFailure_inv m cb1 _ _ hno hinv
    | none =>
      rw [Call_not_open_success cb1 fn clk w1 hno hf]
      exact onSuccess_inv m hm cb1 _ hno hinv
  by_cases hs : cb.state = State.StateOpen
  · by_cases ht : Since clk.checkNow cb.lastFailureTime > cb.resetTimeout
    · rw [(Call_open_elapsed cb fn clk w hs ht).2]
      exact key _ _ (by rw [(setState_fields cb State.StateHalfOpen w).1]; decide)
        (setState_halfOpen_inv m cb w h)
    · rw [Call_open_within cb fn clk w hs (not_lt.mp ht)]
      exact h
  · exact key cb w hs h

theorem Reachable_breakerInv {σ : Type} (m : Int) (t : Duration) (hm : 1 ≤ m)
    (cb : CircuitBreaker σ) (h : Reachable m t cb) : BreakerInv m cb := by
  induction h with
  | new =>
    refine ⟨rfl, rfl, ?_, ?_, Or.inl rfl⟩
    · intro _; show (0 : Int) < m; omega
    · intro hs; simp [New] at hs
  | call cb fn clk w _ ih => exact Call_breakerInv m hm cb fn clk w ih
  | setCallback cb f _ ih => exact ih

/-- Claim C26: in every state reachable from `New maxFailures resetTimeout` with
`maxFailures ≥ 1` by any sequence of calls (succeeding or failing, at any times)
and callback changes, a Closed breaker has failure count < `maxFailures`, an Open
breaker has failure count ≥ `maxFailures`, and the success count is 0 or 1. -/
theorem breaker_reachable_invariant {σ : Type} (maxFailures : Int) (resetTimeout : Duration)
    (cb : CircuitBreaker σ) (hm : 1 ≤ maxFailures)
    (hr : Reachable maxFailures resetTimeout cb) :
    (cb.state = State.StateClosed → cb.failureCount < maxFailures) ∧
    (cb.state = State.StateOpen → cb.failureCount ≥ maxFailures) ∧
    (cb.successCount = 0 ∨ cb.successCount = 1) :=
  (Reachable_breakerInv maxFailures resetTimeout hm cb hr).2.2

/-- Witness of C26: the breaker `New 1 1000` after one failing call is Open with
failure count 1. -/
theorem breaker_reachable_invariant_witness :
    (1 : Int) ≤ 1 ∧
    Reachable 1 1000 openBreaker ∧
    openBreaker.state = State.StateOpen ∧
    (openBreaker.state = State.StateOpen → openBreaker.failureCount ≥ 1) :=
  have hr : Reachable 1 1000 openBreaker :=
    Reachable.call (New 1 1000) failingFn ⟨10, 10, 11⟩ 0 Reachable.new
  ⟨by decide, hr, by decide,
    (breaker_reachable_invariant 1 1000 openBreaker (by decide) hr).2.1⟩
theorem setState_log {W : Type} (cb : CircuitBreaker (W × List (State × State))) (st : State)
    (w : W × List (State × State)) (hcb : cb.onStateChange = some logTransition) :
    (setState cb st w).2.2 = w.2 ++ [(cb.state, st)] ∧
    (setState cb st w).1.onStateChange = some logTransition := by
  unfold setState
  simp only [hcb]
  by_cases h : st = State.StateClosed <;> simp [h, logTransition]

theorem onFailure_log {W : Type} (cb : CircuitBreaker (W × List (State × State))) (now : Time)
    (w : W × List (State × State)) (hcb : cb.onStateChange = some logTransition)
    (hno : cb.state ≠ State.StateOpen) (hlog : ∀ p ∈ w.2, p ∈ allowedTransitions) :
    (∀ p ∈ (onFailure cb now w).2.2, p ∈ allowedTransitions) ∧
    (onFailure cb now w).1.onStateChange = some logTransition := by
  unfold onFailure
  simp only []
  split
  · have h := setState_log
      { cb with failureCount := cb.failureCount + 1, lastFailureTime := now, successCount := 0 }
      State.StateOpen w hcb
    refine ⟨?_, h.2⟩
    intro p hp
    rw [h.1] at hp
    rcases List.mem_append.mp hp with hp | hp
    · exact hlog p hp
    · rw [List.mem_singleton] at hp
      subst hp
      simp only []
      cases hs : cb.state with
      | StateClosed => decide
      | StateOpen => exact absurd hs hno
      | StateHalfOpen => decide
  · exact ⟨hlog, hcb⟩

theorem onSuccess_log {W : Type} (cb : CircuitBreaker (W × List (State × State)))
    (w : W × List (State × State)) (hcb : cb.onStateChange = some logTransition)
    (hlog : ∀ p ∈ w.2, p ∈ allowedTransitions) :
    (∀ p ∈ (onSuccess cb w).2.2, p ∈ allowedTransitions) ∧
    (onSuccess cb w).1.onStateChange = some logTransition := by
  unfold onSuccess
  simp only []
  split
  · rename_i hs
    split
    · have h := setState_log { cb with successCount := cb.successCount + 1 }
        State.StateClosed w hcb
      refine ⟨?_, h.2⟩
      intro p hp
      rw [h.1] at hp
      rcases List.mem_append.mp hp with hp | hp
      · exact hlog p hp
      · rw [List.mem_singleton] at hp
        subst hp
        simp only [hs]
        decide
    · exact ⟨hlog, hcb⟩
  · exact ⟨hlog, hcb⟩

theorem Call_log {W : Type} (cb : CircuitBreaker (W × List (State × State)))
    (g : W → Option String × W) (clk : Clock) (w : W × List (State × State))
    (hcb : cb.onStateChange = some logTransition)
    (hlog : ∀ p ∈ w.2, p ∈ allowedTransitions) :
    (∀ p ∈ (Call cb (liftFn g) clk w).2.2.2, p ∈ allowedTransitions) ∧
    (Call cb (liftFn g) clk w).1.onStateChange = some logTransition := by
  have key : ∀ (cb1 : CircuitBreaker (W × List (State × State)))
      (w1 : W × List (State × State)), cb1.state ≠ State.StateOpen →
      cb1.onStateChange = some logTransition → (∀ p ∈ w1.2, p ∈ allowedTransitions) →
      (∀ p ∈ (Call cb1 (liftFn g) clk w1).2.2.2, p ∈ allowedTransitions) ∧
      (Call cb1 (liftFn g) clk w1).1.onStateChange = some logTransition := by
    intro cb1 w1 hno hcb1 hlog1
    have hw : ((liftFn g) w1).2.2 = w1.2 := rfl
    cases hf : ((liftFn g) w1).1 with
    | some msg =>
      rw [Call_not_open_fail cb1 (liftFn g) clk w1 msg hno hf]
      exact onFailure_log cb1 _ _ hcb1 hno (by rw [hw]; exact hlog1)
    | none =>
      rw [Call_not_open_success cb1 (liftFn g) clk w1 hno hf]
      exact onSuccess_log cb1 _ hcb1 (by rw [hw]; exact hlog1)
  by_cases hs : cb.state = State.StateOpen
  · by_cases ht : Since clk.checkNow cb.lastFailureTime > cb.resetTimeout
    · rw [(Call_open_elapsed cb (liftFn g) clk w hs ht).2]
      have h := setState_log cb State.StateHalfOpen w hcb
      refine key _ _ (by rw [(setState_fields cb State.StateHalfOpen w).1]; decide) h.2 ?_
      intro p hp
      rw [h.1] at hp
      rcases List.mem_append.mp hp with hp | hp
      · exact hlog p hp
      · rw [List.mem_singleton] at hp
        subst hp
        rw [hs]
        decide
    · rw [Call_open_within cb (liftFn g) clk w hs (not_lt.mp ht)]
      exact ⟨hlog, hcb⟩
  · exact key cb w hs hcb hlog

theorem runCalls_log {W : Type} (calls : List ((W → Option String × W) × Clock)) :
    ∀ (cb : CircuitBreaker (W × List (State × State))) (w : W × List (State × State)),
      cb.onStateChange = some logTransition → (∀ p ∈ w.2, p ∈ allowedTransitions) →
      ∀ p ∈ (runCalls cb (liftCalls calls) w).world.2, p ∈ allowedTransitions := by
  induction calls with
  | nil => intro cb w _ hlog; exact hlog
  | cons c cs ih =>
    intro cb w hcb hlog
    have h := Call_log cb c.1 c.2 w hcb hlog
    exact ih _ _ h.2 h.1

/-- Claim C29: over every run of the breaker from `New` (for any `maxFailures`),
with a callback that records its invocations, every recorded invocation is one of
Closed→Open, Open→Half-Open, Half-Open→Open, Half-Open→Closed; in particular the
callback is never invoked with `from` equal to `to`. -/
theorem callback_transitions {W : Type} (maxFailures : Int) (resetTimeout : Duration)
    (calls : List ((W → Option String × W) × Clock)) (w0 : W) :
    ∀ p ∈ (runCalls (SetStateChangeCallback (New maxFailures resetTimeout)
        (some logTransition)) (liftCalls calls) (w0, [])).world.2,
      p ∈ allowedTransitions ∧ p.1 ≠ p.2 := by
  intro p hp
  have hmem := runCalls_log calls
    (SetStateChangeCallback (New maxFailures resetTimeout) (some logTransition)) (w0, []) rfl
    (by intro q hq; simp at hq) p hp
  refine ⟨hmem, ?_⟩
  unfold allowedTransitions at hmem
  simp only [List.mem_cons, List.mem_singleton, List.not_mem_nil, or_false] at hmem
  rcases hmem with h | h | h | h <;> rw [h] <;> decide

/-- Witness of C29: a breaker with `maxFailures = 1` that meets one failing call
invokes the callback once, with Closed→Open. -/
theorem callback_transitions_witness :
    (runCalls (SetStateChangeCallback (New 1 1000) (some logTransition))
      (liftCalls [(failingFn, ⟨10, 10, 11⟩)]) (0, [])).world.2 =
        [(State.StateClosed, State.StateOpen)] ∧
    (State.StateClosed, State.StateOpen) ∈ allowedTransitions ∧
    State.StateClosed ≠ State.StateOpen :=
  ⟨by decide,
    callback_transitions 1 1000 [(failingFn, ⟨10, 10, 11⟩)] 0
      (State.StateClosed, State.StateOpen) (by decide)⟩

theorem CalculateScore_terms (s : Scorer) (post : Post) (now : Time)
    (havg : s.avgEngagement > 0) :
    CalculateScore s post now =
      recencyTerm post now + engagementTerm s post + viralityTerm s post := by
  have he : post.Likes + post.Comments * 2 + post.Shares * 3 = engagementOf post := by
    unfold engagementOf; ring
  have hv : (engagementOf post > s.avgEngagement * 2) ↔
      ((engagementOf post : ℚ) > 2 * (s.avgEngagement : ℚ)) := by
    rw [gt_iff_lt, gt_iff_lt, mul_comm, ← Int.cast_lt (R := ℚ)]
    push_cast
    rfl
  unfold CalculateScore recencyTerm engagementTerm viralityTerm
  simp only [he, havg, if_true, Since]
  have hmin : (if (engagementOf post : ℚ) / (s.avgEngagement : ℚ) > 1 then (1 : ℚ)
      else (engagementOf post : ℚ) / (s.avgEngagement : ℚ)) =
      min ((engagementOf post : ℚ) / (s.avgEngagement : ℚ)) 1 := by
    rw [min_def]
    by_cases h : (engagementOf post : ℚ) / (s.avgEngagement : ℚ) > 1
    · rw [if_pos h, if_neg (not_le.mpr h)]
    · rw [if_neg h, if_pos (not_lt.mp h)]
  rw [hmin]
  by_cases h : engagementOf post > s.avgEngagement * 2
  · rw [if_pos h, if_pos (hv.mp h)]; ring
  · rw [if_neg h, if_neg (fun h2 => h (hv.mpr h2))]; ring

/-- Claim C30: for a post whose `created_at` is not in the future and whose likes,
comments and shares are ≥ 0, and `avgEngagement > 0`, over exact rationals the
score is the sum of the recency, engagement and virality terms and lies in
(0, 0.9]: the virality term is at most 0.1, and when it is non-zero the
engagement term is at its cap 0.3. -/
theorem CalculateScore_bounds (s : Scorer) (post : Post) (now : Time)
    (havg : s.avgEngagement > 0) (hnow : post.CreatedAt ≤ now)
    (hl : 0 ≤ post.Likes) (hc : 0 ≤ post.Comments) (hs : 0 ≤ post.Shares) :
    CalculateScore s post now =
      recencyTerm post now + engagementTerm s post + viralityTerm s post ∧
    0 < CalculateScore s post now ∧ CalculateScore s post now ≤ 0.9 ∧
    0 ≤ viralityTerm s post ∧ viralityTerm s post ≤ 0.1 ∧
    0 ≤ engagementTerm s post ∧ engagementTerm s post ≤ 0.3 ∧
    (viralityTerm s post ≠ 0 → engagementTerm s post = 0.3) := by
  have hA : (0 : ℚ) < (s.avgEngagement : ℚ) := by exact_mod_cast havg
  have hE : (0 : ℚ) ≤ (engagementOf post : ℚ) := by
    have : 0 ≤ engagementOf post := by unfold engagementOf; omega
    exact_mod_cast this
  have hH : (0 : ℚ) ≤ Hours (now - post.CreatedAt) := by
    unfold Hours
    have : (0 : ℚ) ≤ ((now - post.CreatedAt : Int) : ℚ) := by
      have h0 : (0 : Int) ≤ now - post.CreatedAt := Int.sub_nonneg_of_le hnow
      exact_mod_cast h0
    positivity
  have hden : (1 : ℚ) ≤ 1 + Hours (now - post.CreatedAt) / 24 := by
    have : (0 : ℚ) ≤ Hours (now - post.CreatedAt) / 24 := by positivity
    linarith
  have hrec1 : 0 < recencyTerm post now := by
    unfold recencyTerm
    have : (0 : ℚ) < 1 / (1 + Hours (now - post.CreatedAt) / 24) := by
      apply one_div_pos.mpr; linarith
    linarith
  have hrec2 : recencyTerm post now ≤ 0.5 := by
    unfold recencyTerm
    have : 1 / (1 + Hours (now - post.CreatedAt) / 24) ≤ (1 : ℚ) := by
      rw [div_le_one (by linarith)]; exact hden
    linarith
  have hq : (0 : ℚ) ≤ (engagementOf post : ℚ) / (s.avgEngagement : ℚ) := div_nonneg hE hA.le
  have heng1 : 0 ≤ engagementTerm s post := by
    unfold engagementTerm
    have : (0 : ℚ) ≤ min ((engagementOf post : ℚ) / (s.avgEngagement : ℚ)) 1 :=
      le_min hq (by norm_num)
    linarith
  have heng2 : engagementTerm s post ≤ 0.3 := by
    unfold engagementTerm
    have : min ((engagementOf post : ℚ) / (s.avgEngagement : ℚ)) 1 ≤ (1 : ℚ) := min_le_right _ _
    linarith
  have hvir : viralityTerm s post = 0 ∨
      (viralityTerm s post = 0.1 ∧ (engagementOf post : ℚ) > 2 * (s.avgEngagement : ℚ)) := by
    unfold viralityTerm
    by_cases h : (engagementOf post : ℚ) > 2 * (s.avgEngagement : ℚ)
    · right; rw [if_pos h]; exact ⟨by norm_num, h⟩
    · left; rw [if_neg h]; norm_num
  have hsum := CalculateScore_terms s post now havg
  refine ⟨hsum, ?_, ?_, ?_, ?_, heng1, heng2, ?_⟩
  · rw [hsum]; rcases hvir with h | h
    · rw [h]; linarith
    · rw [h.1]; linarith
  · rw [hsum]; rcases hvir with h | h
    · rw [h]; linarith
    · rw [h.1]; linarith
  · rcases hvir with h | h
    · rw [h]
    · rw [h.1]; norm_num
  · rcases hvir with h | h
    · rw [h]; norm_num
    · rw [h.1]
  · intro hne
    rcases hvir with h | h
    · exact absurd h hne
    · unfold engagementTerm
      have h1 : (1 : ℚ) ≤ (engagementOf post : ℚ) / (s.avgEngagement : ℚ) := by
        rw [le_div_iff₀ hA]; linarith [h.2]
      rw [min_eq_right h1]
      norm_num

/-- Witness of C30: the one-day-old post of engagement 30 with `avgEngagement = 10`
scores 0.65, inside (0, 0.9], with both the virality and the engagement term at
their caps. -/
theorem CalculateScore_bounds_witness :
    (10 : Int) > 0 ∧ (likedPost "p" 30).CreatedAt ≤ 1 + 24 * 3600000000000 ∧
    CalculateScore ⟨10, []⟩ (likedPost "p" 30) (1 + 24 * 3600000000000) = 0.65 ∧
    0 < CalculateScore ⟨10, []⟩ (likedPost "p" 30) (1 + 24 * 3600000000000) ∧
    CalculateScore ⟨10, []⟩ (likedPost "p" 30) (1 + 24 * 3600000000000) ≤ 0.9 :=
  have h := CalculateScore_bounds ⟨10, []⟩ (likedPost "p" 30) (1 + 24 * 3600000000000)
    (by decide) (by decide) (by decide) (by decide) (by decide)
  ⟨by decide, by decide, by norm_num [CalculateScore, Hours, Since, likedPost], h.2.1, h.2.2.1⟩

theorem ProcessAndSend_single_sent (hash : String → String) (lower : Char → Char)
    (b : BaseCrawler) (p : Post) (env : CrawlEnv) (st : Pipeline) (hok : env.allSucceed)
    (hsent : (ProcessAndSend hash lower b [p] env st).1.sent = 1) :
    isSeen (ProcessAndSend hash lower b [p] env st).2.redis
      (seenKey "content_hash" (contentHash hash (validateStep lower b p).2)) = true ∧
    (ProcessAndSend hash lower b [p] env st).2.produced =
      st.produced ++ [(validateStep lower b p).2] := by
  rw [ProcessAndSend] at hsent ⊢
  simp only [List.length_cons, Nat.add_one_ne_zero, if_false] at hsent ⊢
  rw [processLoop_single, headD_ok env.perPost hok, processPost_ok_eq] at hsent ⊢
  split_ifs at hsent with hc
  rw [if_neg hc]
  refine ⟨?_, rfl⟩
  simp only []
  unfold isSeen
  rw [SetLastCrawl_seen]
  exact MarkAsSeen_isSeen_self _ _ _ _

theorem sanitized_collidingPostA (lower : Char → Char) :
    sanitized lower collidingPostA = collidingPostA := by
  have h1 : TrimSpace "c" = "c" := by decide
  have h2 : TrimSpace "a|b" = "a|b" := by decide
  have h3 : TrimSpace "ai" = "ai" := by decide
  have h4 : ToLower lower "ai" = "ai" := by
    unfold ToLower
    rw [if_pos (by decide)]
    decide
  simp [sanitized, collidingPostA, h1, h2, h3, h4]

theorem sanitized_collidingPostB (lower : Char → Char) :
    sanitized lower collidingPostB = collidingPostB := by
  have h1 : TrimSpace "b|c" = "b|c" := by decide
  have h2 : TrimSpace "a" = "a" := by decide
  have h3 : TrimSpace "ai" = "ai" := by decide
  have h4 : ToLower lower "ai" = "ai" := by
    unfold ToLower
    rw [if_pos (by decide)]
    decide
  simp [sanitized, collidingPostB, h1, h2, h3, h4]

/-- Claim C27: the posts with content `a|b`, author `c` and with content `a`,
author `b|c` differ in content and in author, are both accepted and left
unchanged by `ValidatePost`, and have the same content hash whatever the hash
function; once a `ProcessAndSend` call has sent the first, a `ProcessAndSend` of
the second by any crawler, with no operation failing, sends nothing, skips it and
produces nothing. -/
theorem content_hash_collision (hash : String → String) (lower : Char → Char)
    (source1 source2 topic1 topic2 : String) (env1 env2 : CrawlEnv) (st : Pipeline)
    (h1 : env1.allSucceed) (h2 : env2.allSucceed)
    (hsent : (ProcessAndSend hash lower (NewBaseCrawler source1 topic1) [collidingPostA]
      env1 st).1.sent = 1) :
    collidingPostA.Content ≠ collidingPostB.Content ∧
    collidingPostA.Author ≠ collidingPostB.Author ∧
    (ValidatePost lower collidingPostA).1 = true ∧
    (ValidatePost lower collidingPostA).2.2 = collidingPostA ∧
    (ValidatePost lower collidingPostB).1 = true ∧
    (ValidatePost lower collidingPostB).2.2 = collidingPostB ∧
    collidingPostA.Content ++ "|" ++ collidingPostA.Author =
      collidingPostB.Content ++ "|" ++ collidingPostB.Author ∧
    contentHash hash collidingPostA = contentHash hash collidingPostB ∧
    (ProcessAndSend hash lower (NewBaseCrawler source2 topic2) [collidingPostB] env2
      (ProcessAndSend hash lower (NewBaseCrawler source1 topic1) [collidingPostA]
        env1 st).2).1 = ⟨0, 1, none⟩ ∧
    (ProcessAndSend hash lower (NewBaseCrawler source2 topic2) [collidingPostB] env2
      (ProcessAndSend hash lower (NewBaseCrawler source1 topic1) [collidingPostA]
        env1 st).2).2.produced = st.produced ++ [collidingPostA] := by
  have hA : (ValidatePost lower collidingPostA).2.2 = collidingPostA := by
    rw [ValidatePost_post, sanitized_collidingPostA]
  have hB : (ValidatePost lower collidingPostB).2.2 = collidingPostB := by
    rw [ValidatePost_post, sanitized_collidingPostB]
  have hAok : (ValidatePost lower collidingPostA).1 = true := by
    rw [ValidatePost_ok]; decide
  have hBok : (ValidatePost lower collidingPostB).1 = true := by
    rw [ValidatePost_ok]; decide
  have hstr : collidingPostA.Content ++ "|" ++ collidingPostA.Author =
      collidingPostB.Content ++ "|" ++ collidingPostB.Author := by decide
  have hhash : contentHash hash collidingPostA = contentHash hash collidingPostB := by
    unfold contentHash; rw [hstr]
  have hfirst := ProcessAndSend_single_sent hash lower (NewBaseCrawler source1 topic1)
    collidingPostA env1 st h1 hsent
  rw [validateStep_new_snd, hA] at hfirst
  have hblocked : Blocked hash lower (NewBaseCrawler source2 topic2)
      (ProcessAndSend hash lower (NewBaseCrawler source1 topic1) [collidingPostA]
        env1 st).2.redis collidingPostB := by
    refine Or.inr (Or.inl ?_)
    rw [validateStep_new_snd, hB, ← hhash]
    exact hfirst.1
  have hsecond := ProcessAndSend_duplicate hash lower (NewBaseCrawler source2 topic2)
    collidingPostB env2 _ h2 hblocked
  refine ⟨by decide, by decide, hAok, hA, hBok, hB, hstr, hhash, hsecond.1, ?_⟩
  rw [hsecond.2, hfirst.2]

/-- Witness of C27: from the empty pipeline the first post is sent, and the second
is then skipped as a content duplicate. -/
theorem content_hash_collision_witness :
    CrawlEnv.allSucceed ⟨10, 11, false, false, []⟩ ∧
    (ProcessAndSend (fun s => s) Char.toLower (NewBaseCrawler "hn" "posts") [collidingPostA]
      ⟨10, 11, false, false, []⟩ Pipeline.empty).1 = ⟨1, 0, none⟩ ∧
    (ProcessAndSend (fun s => s) Char.toLower (NewBaseCrawler "medium" "posts")
      [collidingPostB] ⟨20, 21, false, false, []⟩
      (ProcessAndSend (fun s => s) Char.toLower (NewBaseCrawler "hn" "posts") [collidingPostA]
        ⟨10, 11, false, false, []⟩ Pipeline.empty).2).1 = ⟨0, 1, none⟩ :=
  have h : CrawlEnv.allSucceed ⟨10, 11, false, false, []⟩ := by simp [CrawlEnv.allSucceed]
  have h2 : CrawlEnv.allSucceed ⟨20, 21, false, false, []⟩ := by simp [CrawlEnv.allSucceed]
  ⟨h, by decide,
    (content_hash_collision (fun s => s) Char.toLower "hn" "medium" "posts" "posts"
      ⟨10, 11, false, false, []⟩ ⟨20, 21, false, false, []⟩ Pipeline.empty h h2
      (by decide)).2.2.2.2.2.2.2.2.1⟩

theorem Trimmed_TrimSpace_eq (s : String) (h : Trimmed s) : TrimSpace s = s := by
  apply String.ext
  rw [TrimSpace_data]
  have hd : List.dropWhile isSpace s.data = s.data := by
    cases hl : s.data with
    | nil => rfl
    | cons c l =>
      have hc := h.1 c (by rw [hl]; rfl)
      simp [List.dropWhile_cons, hc]
  rw [hd, List.rdropWhile_eq_self_iff]
  intro hne
  have hc := h.2 (s.data.getLast hne) (List.getLast?_eq_getLast _ hne)
  simp [hc]

theorem asciiLower_toNat (c : Char) :
    (asciiLower c).toNat = if 65 ≤ c.toNat ∧ c.toNat ≤ 90 then c.toNat + 32 else c.toNat := by
  unfold asciiLower
  by_cases h : 65 ≤ c.toNat ∧ c.toNat ≤ 90
  · rw [if_pos h, if_pos h]
    obtain ⟨h1, h2⟩ := h
    generalize c.toNat = n at h1 h2
    interval_cases n <;> rfl
  · rw [if_neg h, if_neg h]

theorem asciiLower_idem (c : Char) : asciiLower (asciiLower c) = asciiLower c := by
  have hfix : ∀ d : Char, ¬(65 ≤ d.toNat ∧ d.toNat ≤ 90) → asciiLower d = d :=
    fun d hd => if_neg hd
  apply hfix
  rw [asciiLower_toNat]
  split <;> omega

theorem asciiLower_ascii (c : Char) (h : c.toNat < 128) : (asciiLower c).toNat < 128 := by
  rw [asciiLower_toNat]
  split <;> omega

theorem asciiLower_isSpace (c : Char) (h : isSpace c = false) :
    isSpace (asciiLower c) = false := by
  by_cases hu : 65 ≤ c.toNat ∧ c.toNat ≤ 90
  · have ht := asciiLower_toNat c
    rw [if_pos hu] at ht
    unfold isSpace
    simp only [ht]
    simp
    omega
  · have e : asciiLower c = c := if_neg hu
    rw [e]; exact h

theorem LowerTable_asciiLower : LowerTable asciiLower :=
  ⟨asciiLower_idem, asciiLower_idem, asciiLower_isSpace⟩

theorem Trimmed_map (f : Char → Char) (hf : ∀ c, isSpace c = false → isSpace (f c) = false)
    (s : String) (hs : Trimmed s) : Trimmed ⟨s.data.map f⟩ := by
  constructor
  · intro c hc
    simp only [List.head?_map, Option.map_eq_some'] at hc
    obtain ⟨a, ha, rfl⟩ := hc
    exact hf a (hs.1 a ha)
  · intro c hc
    simp only [List.getLast?_map, Option.map_eq_some'] at hc
    obtain ⟨a, ha, rfl⟩ := hc
    exact hf a (hs.2 a ha)

theorem ToLower_trimmed (lower : Char → Char) (h : LowerTable lower) (s : String)
    (hs : Trimmed s) : Trimmed (ToLower lower s) := by
  unfold ToLower
  split
  · exact Trimmed_map asciiLower asciiLower_isSpace s hs
  · exact Trimmed_map lower h.2.2 s hs

theorem ToLower_idem (lower : Char → Char) (h : LowerTable lower) (s : String) :
    ToLower lower (ToLower lower s) = ToLower lower s := by
  unfold ToLower
  by_cases ha : s.data.all (fun c => decide (c.toNat < 128)) = true
  · have hb : (s.data.map asciiLower).all (fun c => decide (c.toNat < 128)) = true := by
      rw [List.all_eq_true] at ha ⊢
      intro c hc
      obtain ⟨a, ha1, rfl⟩ := List.mem_map.mp hc
      have := ha a ha1
      simp only [decide_eq_true_eq] at this ⊢
      exact asciiLower_ascii a this
    rw [if_pos ha]
    simp only []
    rw [if_pos hb]
    apply String.ext
    simp only [List.map_map]
    apply List.map_congr_left
    intro a _
    exact asciiLower_idem a
  · rw [if_neg ha]
    simp only []
    split
    · apply String.ext
      simp only [List.map_map]
      apply List.map_congr_left
      intro a _
      exact h.2.1 a
    · apply String.ext
      simp only [List.map_map]
      apply List.map_congr_left
      intro a _
      exact h.1 a

theorem Post_eq_of_fields (a b : Post) (h1 : a.ID = b.ID) (h2 : a.Author = b.Author)
    (h3 : a.Content = b.Content) (h4 : a.Topic = b.Topic) (h5 : a.Sentiment = b.Sentiment)
    (h6 : a.Likes = b.Likes) (h7 : a.Comments = b.Comments) (h8 : a.Shares = b.Shares)
    (h9 : a.Platform = b.Platform) (h10 : a.CreatedAt = b.CreatedAt) : a = b := by
  cases a; cases b; simp_all

theorem sanitized_idem (lower : Char → Char) (h : LowerTable lower) (p : Post) :
    sanitized lower (sanitized lower p) = sanitized lower p := by
  have hA : ∀ a : String,
      (if TrimSpace (if TrimSpace a = "" then "Anonymous" else TrimSpace a) = "" then "Anonymous"
        else TrimSpace (if TrimSpace a = "" then "Anonymous" else TrimSpace a)) =
      (if TrimSpace a = "" then "Anonymous" else TrimSpace a) := by
    intro a
    by_cases ha : TrimSpace a = ""
    · rw [if_pos ha]; decide
    · rw [if_neg ha, TrimSpace_idem, if_neg ha]
  have hT : ∀ t : String,
      (if ToLower lower (TrimSpace (if ToLower lower (TrimSpace t) = "" then "programming"
          else ToLower lower (TrimSpace t))) = "" then "programming"
        else ToLower lower (TrimSpace (if ToLower lower (TrimSpace t) = "" then "programming"
          else ToLower lower (TrimSpace t)))) =
      (if ToLower lower (TrimSpace t) = "" then "programming"
        else ToLower lower (TrimSpace t)) := by
    intro t
    by_cases ht : ToLower lower (TrimSpace t) = ""
    · rw [if_pos ht]
      have e1 : TrimSpace "programming" = "programming" := by decide
      have e2 : ToLower lower "programming" = "programming" := by
        unfold ToLower
        rw [if_pos (by decide)]
        decide
      rw [e1, e2]
      decide
    · rw [if_neg ht,
        Trimmed_TrimSpace_eq _ (ToLower_trimmed lower h _ (TrimSpace_trimmed t)),
        ToLower_idem lower h, if_neg ht]
  have hN : ∀ n : Int, (if (if n < 0 then 0 else n) < 0 then 0 else (if n < 0 then 0 else n)) =
      (if n < 0 then 0 else n) := by
    intro n
    split_ifs <;> omega
  apply Post_eq_of_fields
  · rfl
  · simp only [sanitized]; exact hA p.Author
  · simp only [sanitized]; exact TrimSpace_idem p.Content
  · simp only [sanitized]; exact hT p.Topic
  · rfl
  · simp only [sanitized]; exact hN p.Likes
  · simp only [sanitized]; exact hN p.Comments
  · simp only [sanitized]; exact hN p.Shares
  · rfl
  · rfl

/-- Claim C28: `ValidatePost` is idempotent.  For every post, and every table of
`unicode.ToLower` that is idempotent, never yields an ASCII capital and maps only
white space to white space, applying `ValidatePost` to the post produced by a first
application returns the same ok verdict and the same post, field by field. -/
theorem ValidatePost_idempotent (lower : Char → Char) (h : LowerTable lower) (p : Post) :
    (ValidatePost lower (ValidatePost lower p).2.2).1 = (ValidatePost lower p).1 ∧
    (ValidatePost lower (ValidatePost lower p).2.2).2.2 = (ValidatePost lower p).2.2 := by
  rw [ValidatePost_post lower p, ValidatePost_post, ValidatePost_ok, ValidatePost_ok]
  refine ⟨?_, sanitized_idem lower h p⟩
  have e : TrimSpace (sanitized lower p).Content = TrimSpace p.Content := TrimSpace_idem p.Content
  rw [e]

/-- Witness of C28: with the ASCII table, a post with blank author, padded content,
mixed-case topic and negative counts is sanitised by the first application and
left as it is by the second. -/
theorem ValidatePost_idempotent_witness :
    LowerTable asciiLower ∧
    (ValidatePost asciiLower ⟨"1", "  ", " hi ", " AI ", "neutral", -3, 4, -1, "hn", 0⟩).2.2 =
      ⟨"1", "Anonymous", "hi", "ai", "neutral", 0, 4, 0, "hn", 0⟩ ∧
    (ValidatePost asciiLower (ValidatePost asciiLower
      ⟨"1", "  ", " hi ", " AI ", "neutral", -3, 4, -1, "hn", 0⟩).2.2).2.2 =
      (ValidatePost asciiLower ⟨"1", "  ", " hi ", " AI ", "neutral", -3, 4, -1, "hn", 0⟩).2.2 :=
  ⟨LowerTable_asciiLower, by rw [ValidatePost_post]; decide,
    (ValidatePost_idempotent asciiLower LowerTable_asciiLower
      ⟨"1", "  ", " hi ", " AI ", "neutral", -3, 4, -1, "hn", 0⟩).2⟩

theorem wrapInt64_eq (x : Int) (h1 : -9223372036854775808 ≤ x) (h2 : x < 9223372036854775808) :
    wrapInt64 x = x := by
  unfold wrapInt64
  norm_num
  omega

theorem NewClient_delays (timeout : Duration) :
    (NewClient timeout).baseDelay = 500000000 ∧ (NewClient timeout).maxDelay = 30000000000 := by
  constructor <;> simp [NewClient, Millisecond, Second]

theorem calculateBackoff_small (timeout : Duration) (int63n : Int → Int) (attempt : Nat)
    (ha : attempt ≤ 34) (hr : ∀ n, 0 < n → 0 ≤ int63n n ∧ int63n n < n) :
    ∃ j : Int, (NewClient timeout).calculateBackoff int63n attempt =
        specBackoff (NewClient timeout) attempt + j ∧
      0 ≤ j ∧ j < specBackoff (NewClient timeout) attempt / 5 := by
  have hp1 : (1 : Int) ≤ 2 ^ attempt := one_le_pow₀ (by norm_num)
  have hp2 : (2 : Int) ^ attempt ≤ 2 ^ 34 := pow_le_pow_right₀ (by norm_num) ha
  norm_num at hp2
  obtain ⟨hbase, hmax⟩ := NewClient_delays timeout
  unfold Client.calculateBackoff specBackoff
  simp only []
  rw [hbase, hmax]
  generalize (2 : Int) ^ attempt = P at hp1 hp2
  have hw1 : wrapInt64 P = P := wrapInt64_eq P (by omega) (by omega)
  have hw2 : wrapInt64 (500000000 * P) = 500000000 * P := wrapInt64_eq _ (by omega) (by omega)
  rw [hw1, hw2]
  have hmin : (if 500000000 * P > 30000000000 then (30000000000 : Int) else 500000000 * P) =
      min (500000000 * P) 30000000000 := by
    rw [min_def]
    split_ifs <;> omega
  rw [hmin]
  generalize min (500000000 * P) (30000000000 : Int) = B at *
  have hB1 : 500000000 ≤ B := by
    rw [← hmin]; split_ifs <;> omega
  have hB2 : B ≤ 30000000000 := by
    rw [← hmin]; split_ifs <;> omega
  have ht : Int.tdiv B 5 = B / 5 := Int.tdiv_eq_ediv (by omega) (by norm_num)
  rw [ht]
  have hj := hr (B / 5) (by omega)
  rw [if_neg (by omega)]
  exact ⟨int63n (B / 5), wrapInt64_eq _ (by omega) (by omega), hj.1, hj.2⟩

/-- Claim C21, evaluated on the code: with the default delays, the product
`baseDelay · 2^35` wraps around in `int64`, so `calculateBackoff 35` returns the
negative duration −1266874889709551616 ns whatever the jitter draw, while
min(baseDelay · 2^35, maxDelay) is 30 s. -/
theorem calculateBackoff_overflow (timeout : Duration) (int63n : Int → Int) :
    (NewClient timeout).calculateBackoff int63n 35 = -1266874889709551616 ∧
    specBackoff (NewClient timeout) 35 = 30000000000 ∧
    ¬ ∃ j : Int, 0 ≤ j ∧ (NewClient timeout).calculateBackoff int63n 35 =
      specBackoff (NewClient timeout) 35 + j := by
  obtain ⟨hbase, hmax⟩ := NewClient_delays timeout
  have h1 : (NewClient timeout).calculateBackoff int63n 35 = -1266874889709551616 := by
    have hw : wrapInt64 (500000000 * wrapInt64 (2 ^ 35)) = -1266874889709551616 := by decide
    unfold Client.calculateBackoff
    simp only []
    rw [hbase, hmax, hw,
      if_neg (show ¬ ((-1266874889709551616 : Int) > 30000000000) by decide),
      if_pos (show Int.tdiv (-1266874889709551616) 5 ≤ 0 by decide)]
  have h2 : specBackoff (NewClient timeout) 35 = 30000000000 := by
    unfold specBackoff
    rw [hbase, hmax]
    decide
  refine ⟨h1, h2, ?_⟩
  rintro ⟨j, hj, he⟩
  rw [h1, h2] at he
  have he2 : (-1266874889709551616 : Int) = 30000000000 + j := he
  omega

theorem getLoop_requests_le (c : Client) (parseTime : String → String → Option Time)
    (env : Nat → AttemptEnv) :
    ∀ (remaining attempt : Nat) (lastErr : Option HttpErr) (sleeps : List Duration),
      (c.getLoop parseTime env remaining attempt lastErr sleeps).requests ≤
        attempt + remaining := by
  intro remaining
  induction remaining with
  | zero => intro attempt lastErr sleeps; exact Nat.le_refl _
  | succ k ih =>
    intro attempt lastErr sleeps
    unfold Client.getLoop
    split
    · simp only []; omega
    · rename_i le sl _
      have := ih (attempt + 1) le (sleeps ++ [sl])
      omega

/-- Claim C22, evaluated on the code: `Get` never makes more than `maxRetries`
requests, but a 429 response does not set `lastErr`.  With the default client,
three 429 responses give the error `failed after 3 retries` wrapping a nil error,
and two 500 responses followed by a 429 response give an error wrapping the
`HTTP 500` of the second attempt, not the failure of the last attempt. -/
theorem Get_rate_limited_last_error (timeout : Duration)
    (parseTime : String → String → Option Time) :
    (∀ (c : Client) (env : Nat → AttemptEnv),
      (c.Get parseTime env).requests ≤ c.maxRetries.toNat) ∧
    ((NewClient timeout).Get parseTime rateLimitedEnv).body = none ∧
    ((NewClient timeout).Get parseTime rateLimitedEnv).requests = 3 ∧
    ((NewClient timeout).Get parseTime rateLimitedEnv).err = some ⟨3, none⟩ ∧
    ((NewClient timeout).Get parseTime errorThenRateLimitedEnv).requests = 3 ∧
    ((NewClient timeout).Get parseTime errorThenRateLimitedEnv).err =
      some ⟨3, some (HttpErr.status 500 "500 Internal Server Error")⟩ := by
  refine ⟨?_, rfl, rfl, rfl, rfl, rfl⟩
  intro c env
  have := getLoop_requests_le c parseTime env c.maxRetries.toNat 0 none []
  unfold Client.Get
  omega

theorem getRetryAfter_seconds (c : Client) (parseTime : String → String → Option Time)
    (now1 now2 : Time) (resp : Response) (n : Int)
    (hn : Atoi (headerGet resp.Header "Retry-After") = some n) :
    c.getRetryAfter parseTime now1 now2 (some resp) = wrapInt64 (n * Second) := by
  have hne : headerGet resp.Header "Retry-After" ≠ "" := by
    intro h0
    have he : Atoi "" = none := by decide
    rw [h0, he] at hn
    exact Option.noConfusion hn
  unfold Client.getRetryAfter
  simp only []
  rw [if_neg hne, hn]

theorem getRetryAfter_no_wait (c : Client) (parseTime : String → String → Option Time)
    (now1 now2 : Time) (resp : Response)
    (hn : Atoi (headerGet resp.Header "Retry-After") = none)
    (h1 : ∀ t, parseTime RFC1123 (headerGet resp.Header "Retry-After") = some t →
      Until t now1 ≤ 0)
    (h2 : ∀ t, parseTime RFC1123Z (headerGet resp.Header "Retry-After") = some t →
      Until t now2 ≤ 0) :
    c.getRetryAfter parseTime now1 now2 (some resp) = 0 := by
  unfold Client.getRetryAfter
  simp only []
  split_ifs with h0
  · rfl
  · rw [hn]
    simp only []
    cases hp1 : parseTime RFC1123 (headerGet resp.Header "Retry-After") with
    | some t =>
      simp only []
      rw [if_neg (not_lt.mpr (h1 t hp1))]
      simp only []
      cases hp2 : parseTime RFC1123Z (headerGet resp.Header "Retry-After") with
      | some u => simp only []; rw [if_neg (not_lt.mpr (h2 u hp2))]
      | none => rfl
    | none =>
      simp only []
      cases hp2 : parseTime RFC1123Z (headerGet resp.Header "Retry-After") with
      | some u => simp only []; rw [if_neg (not_lt.mpr (h2 u hp2))]
      | none => rfl

theorem getAttempt_429 (c : Client) (parseTime : String → String → Option Time)
    (e : AttemptEnv) (attempt : Nat) (lastErr : Option HttpErr) (resp : Response)
    (hres : e.result = DoResult.resp resp) (h429 : resp.StatusCode = 429) :
    c.getAttempt parseTime e attempt lastErr =
      if c.getRetryAfter parseTime e.now1 e.now2 (some resp) > 0 then
        AttemptOutcome.retry lastErr (c.getRetryAfter parseTime e.now1 e.now2 (some resp))
      else AttemptOutcome.retry lastErr (c.calculateBackoff e.int63n attempt) := by
  unfold Client.getAttempt
  rw [hres]
  simp only []
  rw [if_pos h429]

/-- Counterexample to C23 as stated: a 429 response with `Retry-After: 0`, a
non-negative decimal integer, is followed by the computed backoff of 500 ms, not
by a wait of exactly 0 seconds. -/
theorem Get_retry_after_zero_counterexample :
    Atoi "0" = some 0 ∧
    (NewClient (10 * Second)).calculateBackoff noJitter 0 = 500000000 ∧
    (NewClient (10 * Second)).Get noDate (retryAfterEnv "0") =
      ⟨some "ok", none, 2, [500000000]⟩ := by
  refine ⟨by decide, by decide, by decide⟩

theorem getRetryAfter_date1 (c : Client) (parseTime : String → String → Option Time)
    (now1 now2 : Time) (resp : Response) (t : Time)
    (hne : headerGet resp.Header "Retry-After" ≠ "")
    (hn : Atoi (headerGet resp.Header "Retry-After") = none)
    (hp : parseTime RFC1123 (headerGet resp.Header "Retry-After") = some t)
    (ht : 0 < Until t now1) :
    c.getRetryAfter parseTime now1 now2 (some resp) = Until t now1 := by
  unfold Client.getRetryAfter
  simp only []
  rw [if_neg hne, hn]
  simp only []
  rw [hp]
  simp only []
  rw [if_pos ht]

theorem getRetryAfter_date2 (c : Client) (parseTime : String → String → Option Time)
    (now1 now2 : Time) (resp : Response) (t : Time)
    (hne : headerGet resp.Header "Retry-After" ≠ "")
    (hn : Atoi (headerGet resp.Header "Retry-After") = none)
    (h1 : NoFutureDate parseTime RFC1123 (headerGet resp.Header "Retry-After") now1)
    (hp : parseTime RFC1123Z (headerGet resp.Header "Retry-After") = some t)
    (ht : 0 < Until t now2) :
    c.getRetryAfter parseTime now1 now2 (some resp) = Until t now2 := by
  unfold Client.getRetryAfter
  simp only []
  rw [if_neg hne, hn]
  simp only []
  cases hp1 : parseTime RFC1123 (headerGet resp.Header "Retry-After") with
  | some u =>
    simp only []
    rw [if_neg (not_lt.mpr (h1 u hp1))]
    simp only []
    rw [hp]
    simp only []
    rw [if_pos ht]
  | none =>
    simp only []
    rw [hp]
    simp only []
    rw [if_pos ht]

theorem getAttempt_header_wait (c : Client) (parseTime : String → String → Option Time)
    (e : AttemptEnv) (attempt : Nat) (lastErr : Option HttpErr) (resp : Response)
    (hres : e.result = DoResult.resp resp) (h429 : resp.StatusCode = 429) (d : Duration)
    (hd : HeaderWait parseTime e.now1 e.now2 (headerGet resp.Header "Retry-After") d) :
    c.getAttempt parseTime e attempt lastErr = AttemptOutcome.retry lastErr d := by
  obtain ⟨hne, hpos, hcase⟩ := hd
  have hra : c.getRetryAfter parseTime e.now1 e.now2 (some resp) = d := by
    rcases hcase with ⟨n, hn, hdn⟩ | ⟨hn, t, hp, hdt⟩ | ⟨hn, h1, t, hp, hdt⟩
    · rw [getRetryAfter_seconds c parseTime e.now1 e.now2 resp n hn, hdn]
    · rw [hdt] at hpos ⊢
      exact getRetryAfter_date1 c parseTime e.now1 e.now2 resp t hne hn hp hpos
    · rw [hdt] at hpos ⊢
      exact getRetryAfter_date2 c parseTime e.now1 e.now2 resp t hne hn h1 hp hpos
  rw [getAttempt_429 c parseTime e attempt lastErr resp hres h429, hra, if_pos hpos]

theorem getAttempt_backoff_case (c : Client) (parseTime : String → String → Option Time)
    (e : AttemptEnv) (attempt : Nat) (lastErr : Option HttpErr) (resp : Response)
    (hres : e.result = DoResult.resp resp) (h429 : resp.StatusCode = 429)
    (hb : BackoffCase parseTime e.now1 e.now2 (headerGet resp.Header "Retry-After")) :
    c.getAttempt parseTime e attempt lastErr =
      AttemptOutcome.retry lastErr (c.calculateBackoff e.int63n attempt) := by
  have hra : ¬ (c.getRetryAfter parseTime e.now1 e.now2 (some resp) > 0) := by
    rcases hb with h0 | ⟨n, hn, hle⟩ | ⟨hn, h1, h2⟩
    · have hz : c.getRetryAfter parseTime e.now1 e.now2 (some resp) = 0 := by
        unfold Client.getRetryAfter
        simp only []
        rw [if_pos h0]
      rw [hz]
      exact lt_irrefl _
    · rw [getRetryAfter_seconds c parseTime e.now1 e.now2 resp n hn]
      exact not_lt.mpr hle
    · rw [getRetryAfter_no_wait c parseTime e.now1 e.now2 resp hn h1 h2]
      exact lt_irrefl _
  rw [getAttempt_429 c parseTime e attempt lastErr resp hres h429, if_neg hra]

theorem HeaderWait_of_not_BackoffCase (parseTime : String → String → Option Time)
    (now1 now2 : Time) (ra : String) (h : ¬ BackoffCase parseTime now1 now2 ra) :
    ∃ d, HeaderWait parseTime now1 now2 ra d := by
  have hne : ra ≠ "" := fun h0 => h (Or.inl h0)
  cases hn : Atoi ra with
  | some n =>
    have hpos : 0 < wrapInt64 (n * Second) := by
      by_contra hle
      exact h (Or.inr (Or.inl ⟨n, hn, not_lt.mp hle⟩))
    exact ⟨_, hne, hpos, Or.inl ⟨n, hn, rfl⟩⟩
  | none =>
    by_cases h1 : NoFutureDate parseTime RFC1123 ra now1
    · have h2 : ¬ NoFutureDate parseTime RFC1123Z ra now2 :=
        fun h2 => h (Or.inr (Or.inr ⟨hn, h1, h2⟩))
      unfold NoFutureDate at h2
      push_neg at h2
      obtain ⟨t, hp, ht⟩ := h2
      exact ⟨_, hne, ht, Or.inr (Or.inr ⟨hn, h1, t, hp, rfl⟩)⟩
    · unfold NoFutureDate at h1
      push_neg at h1
      obtain ⟨t, hp, ht⟩ := h1
      exact ⟨_, hne, ht, Or.inr (Or.inl ⟨hn, t, hp, rfl⟩)⟩

/-- Claim C23, amended: on a 429 response, when the `Retry-After` header is a
decimal integer n with 1 ≤ n ≤ 9223372036 the attempt is followed by a wait of
exactly n seconds, and when it is no integer but an HTTP date lying in the future
(layout RFC1123, else RFC1123Z) by a wait until that date.  The computed backoff
is used when, and only when, the header is absent or empty, or is an integer whose
duration in `int64` nanoseconds is not positive (every n with −9223372036 ≤ n ≤ 0),
or is no integer and no HTTP date lying in the future: in every other case the
attempt is followed by the positive wait that the header asks for.  The error
kept in `lastErr` is unchanged in every case. -/
theorem getAttempt_retry_after (c : Client) (parseTime : String → String → Option Time)
    (e : AttemptEnv) (attempt : Nat) (lastErr : Option HttpErr) (resp : Response)
    (hres : e.result = DoResult.resp resp) (h429 : resp.StatusCode = 429) :
    (∀ n, Atoi (headerGet resp.Header "Retry-After") = some n → 1 ≤ n → n ≤ 9223372036 →
      c.getAttempt parseTime e attempt lastErr = AttemptOutcome.retry lastErr (n * Second)) ∧
    (∀ t, headerGet resp.Header "Retry-After" ≠ "" →
      Atoi (headerGet resp.Header "Retry-After") = none →
      parseTime RFC1123 (headerGet resp.Header "Retry-After") = some t →
      0 < Until t e.now1 →
      c.getAttempt parseTime e attempt lastErr =
        AttemptOutcome.retry lastErr (Until t e.now1)) ∧
    (∀ t, headerGet resp.Header "Retry-After" ≠ "" →
      Atoi (headerGet resp.Header "Retry-After") = none →
      NoFutureDate parseTime RFC1123 (headerGet resp.Header "Retry-After") e.now1 →
      parseTime RFC1123Z (headerGet resp.Header "Retry-After") = some t →
      0 < Until t e.now2 →
      c.getAttempt parseTime e attempt lastErr =
        AttemptOutcome.retry lastErr (Until t e.now2)) ∧
    (BackoffCase parseTime e.now1 e.now2 (headerGet resp.Header "Retry-After") →
      c.getAttempt parseTime e attempt lastErr =
        AttemptOutcome.retry lastErr (c.calculateBackoff e.int63n attempt)) ∧
    (¬ BackoffCase parseTime e.now1 e.now2 (headerGet resp.Header "Retry-After") →
      ∃ d, HeaderWait parseTime e.now1 e.now2 (headerGet resp.Header "Retry-After") d ∧
        c.getAttempt parseTime e attempt lastErr = AttemptOutcome.retry lastErr d) ∧
    (∀ n, Atoi (headerGet resp.Header "Retry-After") = some n → -9223372036 ≤ n → n ≤ 0 →
      BackoffCase parseTime e.now1 e.now2 (headerGet resp.Header "Retry-After")) ∧
    (∀ d, HeaderWait parseTime e.now1 e.now2 (headerGet resp.Header "Retry-After") d →
      ¬ BackoffCase parseTime e.now1 e.now2 (headerGet resp.Header "Retry-After")) := by
  have hwait := getAttempt_header_wait c parseTime e attempt lastErr resp hres h429
  have hempty : Atoi "" = none := by decide
  refine ⟨?_, ?_, ?_, ?_, ?_, ?_, ?_⟩
  · intro n hn h1 h2
    have hw : wrapInt64 (n * Second) = n * Second := by
      unfold Second
      exact wrapInt64_eq _ (by omega) (by omega)
    have hpos : (0 : Int) < n * Second := by unfold Second; omega
    have hne : headerGet resp.Header "Retry-After" ≠ "" := by
      intro h0
      rw [h0, hempty] at hn
      exact Option.noConfusion hn
    exact hwait _ ⟨hne, hpos, Or.inl ⟨n, hn, hw.symm⟩⟩
  · intro t hne hn hp ht
    exact hwait _ ⟨hne, ht, Or.inr (Or.inl ⟨hn, t, hp, rfl⟩)⟩
  · intro t hne hn h1 hp ht
    exact hwait _ ⟨hne, ht, Or.inr (Or.inr ⟨hn, h1, t, hp, rfl⟩)⟩
  · exact getAttempt_backoff_case c parseTime e attempt lastErr resp hres h429
  · intro hb
    obtain ⟨d, hd⟩ := HeaderWait_of_not_BackoffCase parseTime e.now1 e.now2 _ hb
    exact ⟨d, hd, hwait d hd⟩
  · intro n hn h1 h2
    have hw : wrapInt64 (n * Second) = n * Second := by
      unfold Second
      exact wrapInt64_eq _ (by omega) (by omega)
    refine Or.inr (Or.inl ⟨n, hn, ?_⟩)
    rw [hw]
    unfold Second
    omega
  · rintro d ⟨hne, hpos, hcase⟩ hb
    rcases hb with h0 | ⟨n, hn, hle⟩ | ⟨hn, h1, h2⟩
    · exact hne h0
    · rcases hcase with ⟨m, hm, hdm⟩ | ⟨hm, _⟩ | ⟨hm, _⟩
      · rw [hn] at hm
        injection hm with hmn
        rw [hdm, ← hmn] at hpos
        exact absurd hpos (not_lt.mpr hle)
      · rw [hn] at hm; exact Option.noConfusion hm
      · rw [hn] at hm; exact Option.noConfusion hm
    · rcases hcase with ⟨m, hm, _⟩ | ⟨_, t, hp, hdt⟩ | ⟨_, _, t, hp, hdt⟩
      · rw [hn] at hm; exact Option.noConfusion hm
      · rw [hdt] at hpos
        exact absurd hpos (not_lt.mpr (h1 t hp))
      · rw [hdt] at hpos
        exact absurd hpos (not_lt.mpr (h2 t hp))

/-- Witness of C23: `Retry-After: 2` on the first attempt makes `Get` sleep
exactly 2 s before the second attempt, and a date 4 s ahead makes the attempt
wait 4 s. -/
theorem getAttempt_retry_after_witness :
    (retryAfterEnv "2" 0).result = DoResult.resp (tooManyRequests [("Retry-After", "2")]) ∧
    (tooManyRequests [("Retry-After", "2")]).StatusCode = 429 ∧
    (NewClient (10 * Second)).getAttempt noDate (retryAfterEnv "2" 0) 0 none =
      AttemptOutcome.retry none (2 * Second) ∧
    (NewClient (10 * Second)).Get noDate (retryAfterEnv "2") =
      ⟨some "ok", none, 2, [2000000000]⟩ ∧
    (NewClient (10 * Second)).getAttempt oneDate
      ⟨DoResult.resp (tooManyRequests [("Retry-After", "Wed, 21 Oct 2015 07:28:00 GMT")]),
        noJitter, 1000000000, 1000000000⟩ 0 none =
      AttemptOutcome.retry none 4000000000 :=
  ⟨rfl, rfl,
    (getAttempt_retry_after (NewClient (10 * Second)) noDate (retryAfterEnv "2" 0) 0 none
      (tooManyRequests [("Retry-After", "2")]) rfl rfl).1 2 (by decide) (by decide) (by decide),
    by decide,
    (getAttempt_retry_after (NewClient (10 * Second)) oneDate
      ⟨DoResult.resp (tooManyRequests [("Retry-After", "Wed, 21 Oct 2015 07:28:00 GMT")]),
        noJitter, 1000000000, 1000000000⟩ 0 none
      (tooManyRequests [("Retry-After", "Wed, 21 Oct 2015 07:28:00 GMT")]) rfl rfl).2.1
      5000000000 (by decide) (by decide) (by decide) (by decide)⟩

theorem zInsert_mem (e : String × Int) (z : ZSet) :
    ∀ x ∈ zInsert e z, x = e ∨ x ∈ z := by
  induction z with
  | nil => intro x hx; simp [zInsert] at hx; exact Or.inl hx
  | cons y ys ih =>
    intro x hx
    unfold zInsert at hx
    split_ifs at hx
    · rcases List.mem_cons.mp hx with h | h
      · exact Or.inl h
      · exact Or.inr h
    · rcases List.mem_cons.mp hx with h | h
      · exact Or.inr (by rw [h]; exact List.mem_cons_self _ _)
      · rcases ih x h with h2 | h2
        · exact Or.inl h2
        · exact Or.inr (List.mem_cons_of_mem _ h2)

theorem zInsert_sorted (e : String × Int) (z : ZSet) (hz : ZSorted z) :
    ZSorted (zInsert e z) := by
  induction z with
  | nil => simp [zInsert, ZSorted]
  | cons y ys ih =>
    unfold ZSorted at hz
    rw [List.pairwise_cons] at hz
    unfold zInsert
    split_ifs with hl
    · unfold ZSorted
      rw [List.pairwise_cons]
      have hey : e.2 ≤ y.2 := by
        unfold zLess at hl
        simp only [Bool.or_eq_true, Bool.and_eq_true, decide_eq_true_eq] at hl
        omega
      refine ⟨?_, List.pairwise_cons.mpr hz⟩
      intro b hb
      rcases List.mem_cons.mp hb with h | h
      · rw [h]; exact hey
      · exact le_trans hey (hz.1 b h)
    · unfold ZSorted
      rw [List.pairwise_cons]
      have hye : y.2 ≤ e.2 := by
        unfold zLess at hl
        simp only [Bool.or_eq_true, Bool.and_eq_true, decide_eq_true_eq, not_or, not_and] at hl
        omega
      refine ⟨?_, ih hz.2⟩
      intro b hb
      rcases zInsert_mem e ys b hb with h | h
      · rw [h]; exact hye
      · exact hz.1 b h

theorem ZAdd_sorted (z : ZSet) (score : Int) (member : String) (hz : ZSorted z) :
    ZSorted (ZAdd z score member) :=
  zInsert_sorted _ _ (List.Pairwise.filter _ hz)

theorem ZRemRangeByRank_trim (z : ZSet) :
    ZRemRangeByRank z 0 (-1001) = z.drop (z.length - 1000) := by
  unfold ZRemRangeByRank
  simp only []
  by_cases h : z.length ≤ 1000
  · have h0 : z.length - 1000 = 0 := by omega
    rw [h0, List.drop_zero, if_pos]
    left
    split_ifs <;> omega
  · have hs : (if (0 : Int) < 0 then (z.length : Int) + 0 else 0) = 0 := by simp
    have ht : (if (-1001 : Int) < 0 then (z.length : Int) + -1001 else -1001) =
        (z.length : Int) - 1001 := by simp; ring
    rw [hs, ht]
    simp only [lt_irrefl, if_false]
    rw [if_neg (by omega), if_neg (by omega)]
    simp only [Int.toNat_zero, List.take_zero, List.nil_append]
    have e : ((z.length : Int) - 1001).toNat + 1 = z.length - 1000 := by omega
    rw [e]

theorem zInsert_length (e : String × Int) (z : ZSet) :
    (zInsert e z).length = z.length + 1 := by
  induction z with
  | nil => rfl
  | cons y ys ih =>
    unfold zInsert
    split_ifs
    · rfl
    · rw [List.length_cons, ih, List.length_cons]

theorem ZAdd_length_le (z : ZSet) (score : Int) (member : String) :
    (ZAdd z score member).length ≤ z.length + 1 := by
  unfold ZAdd
  rw [zInsert_length]
  exact Nat.succ_le_succ (List.length_filter_le _ _)

theorem ZAdd_length_fresh (z : ZSet) (score : Int) (member : String)
    (h : ∀ e ∈ z, e.1 ≠ member) : (ZAdd z score member).length = z.length + 1 := by
  unfold ZAdd
  rw [zInsert_length]
  have hf : z.filter (fun e => e.1 != member) = z := by
    rw [List.filter_eq_self]
    intro a ha
    simpa using h a ha
  rw [hf]

theorem rangeSet_sorted (n : Nat) : ZSorted (rangeSet n) := by
  unfold ZSorted rangeSet
  rw [List.pairwise_map]
  have hlt : List.Pairwise (fun a b : Nat => a < b) (List.range n) := List.pairwise_lt_range n
  refine hlt.imp ?_
  intro a b hab
  show (a : Int) ≤ (b : Int)
  exact Int.ofNat_le.mpr (Nat.le_of_lt hab)

theorem rangeSet_length (n : Nat) : (rangeSet n).length = n := by
  unfold rangeSet
  rw [List.length_map, List.length_range]

theorem rangeSet_fresh (n : Nat) : ∀ e ∈ rangeSet n, e.1 ≠ "new" := by
  intro e he
  unfold rangeSet at he
  obtain ⟨i, _, rfl⟩ := List.mem_map.mp he
  intro h
  have hd := congrArg String.data h
  simp only [List.replicate_succ] at hd
  have hc : 'p' = 'n' := (List.cons.inj hd).1
  exact absurd hc (by decide)

theorem fullRecentSet_sorted : ZSorted fullRecentSet := rangeSet_sorted 1000

theorem AddToRecentPosts_failed_trim (z : ZSet) (post : Post) (err : String) :
    AddToRecentPosts (fun p => Except.ok p.ID) z post none (some err) =
      (ZAdd z (Unix post.CreatedAt) post.ID, some err) := rfl

/-- Counterexample to C24 as stated: the set holds 1000 members, `ZADD` of a new
member succeeds and the trim command fails; `AddToRecentPosts` returns the error
of the trim and the set holds 1001 members. -/
theorem AddToRecentPosts_failed_trim_counterexample :
    ZSorted fullRecentSet ∧ fullRecentSet.length = 1000 ∧
    (AddToRecentPosts (fun p => Except.ok p.ID) fullRecentSet (likedPost "new" 1)
      none (some "i/o timeout")).2 = some "i/o timeout" ∧
    (AddToRecentPosts (fun p => Except.ok p.ID) fullRecentSet (likedPost "new" 1)
      none (some "i/o timeout")).1.length = 1001 := by
  have hlen : fullRecentSet.length = 1000 := rangeSet_length 1000
  have hfresh : ∀ e ∈ fullRecentSet, e.1 ≠ (likedPost "new" 1).ID := rangeSet_fresh 1000
  rw [AddToRecentPosts_failed_trim]
  refine ⟨fullRecentSet_sorted, hlen, rfl, ?_⟩
  simp only []
  rw [ZAdd_length_fresh _ _ _ hfresh, hlen]

/-- Claim C24, amended: on the sorted set `recent_posts`, kept in ascending score
order, `AddToRecentPosts` leaves the set in score order and adds at most one
member; when it returns no error the set holds at most 1000 members (when it
returns an error nothing is trimmed, so a set of at most 1000 members can come to
hold 1001); and when both commands succeed the set after `ZADD` is the removed
members followed by the retained ones, every removed member having a score no
greater than every retained member. -/
theorem AddToRecentPosts_trims (marshal : Post → Except String String) (z : ZSet)
    (post : Post) (zaddErr zremErr : Option String) (hz : ZSorted z) :
    ZSorted (AddToRecentPosts marshal z post zaddErr zremErr).1 ∧
    (AddToRecentPosts marshal z post zaddErr zremErr).1.length ≤ z.length + 1 ∧
    ((AddToRecentPosts marshal z post zaddErr zremErr).2 = none →
      (AddToRecentPosts marshal z post zaddErr zremErr).1.length ≤ 1000) ∧
    (z.length ≤ 1000 → (AddToRecentPosts marshal z post zaddErr zremErr).1.length ≤ 1001) ∧
    (∀ data, marshal post = Except.ok data → zaddErr = none → zremErr = none →
      ∃ removed : ZSet,
        ZAdd z (Unix post.CreatedAt) data =
          removed ++ (AddToRecentPosts marshal z post zaddErr zremErr).1 ∧
        ∀ a ∈ removed, ∀ b ∈ (AddToRecentPosts marshal z post zaddErr zremErr).1,
          a.2 ≤ b.2) := by
  have hlen : (AddToRecentPosts marshal z post zaddErr zremErr).1.length ≤ z.length + 1 := by
    unfold AddToRecentPosts
    cases marshal post with
    | error err => exact Nat.le_succ _
    | ok data =>
      cases zaddErr with
      | some err => exact Nat.le_succ _
      | none =>
        cases zremErr with
        | some err => exact ZAdd_length_le z _ data
        | none =>
          simp only []
          rw [ZRemRangeByRank_trim, List.length_drop]
          exact le_trans (Nat.sub_le _ _) (ZAdd_length_le z _ data)
  refine ⟨?_, hlen, ?_, fun h => le_trans hlen (Nat.succ_le_succ h), ?_⟩
  · unfold AddToRecentPosts
    cases marshal post with
    | error err => exact hz
    | ok data =>
      cases zaddErr with
      | some err => exact hz
      | none =>
        have hs := ZAdd_sorted z (Unix post.CreatedAt) data hz
        cases zremErr with
        | some err => exact hs
        | none =>
          simp only []
          rw [ZRemRangeByRank_trim]
          exact List.Pairwise.sublist (List.drop_sublist _ _) hs
  · unfold AddToRecentPosts
    cases marshal post with
    | error err => intro h; simp at h
    | ok data =>
      cases zaddErr with
      | some err => intro h; simp at h
      | none =>
        cases zremErr with
        | some err => intro h; simp at h
        | none =>
          intro _
          simp only []
          rw [ZRemRangeByRank_trim, List.length_drop]
          omega
  · intro d hd h1 h2
    have hs := ZAdd_sorted z (Unix post.CreatedAt) d hz
    have hr : (AddToRecentPosts marshal z post zaddErr zremErr).1 =
        (ZAdd z (Unix post.CreatedAt) d).drop ((ZAdd z (Unix post.CreatedAt) d).length - 1000) := by
      unfold AddToRecentPosts
      rw [hd, h1, h2]
      simp only []
      rw [ZRemRangeByRank_trim]
    rw [hr]
    refine ⟨(ZAdd z (Unix post.CreatedAt) d).take
      ((ZAdd z (Unix post.CreatedAt) d).length - 1000),
      (List.take_append_drop _ _).symm, ?_⟩
    intro a ha b hb
    have hp := hs
    unfold ZSorted at hp
    rw [← List.take_append_drop
      ((ZAdd z (Unix post.CreatedAt) d).length - 1000)
      (ZAdd z (Unix post.CreatedAt) d), List.pairwise_append] at hp
    exact hp.2.2 a ha b hb

/-- Witness of C24 as amended: adding a post to a sorted set of 1000 members,
both commands succeeding, leaves at most 1000 members. -/
theorem AddToRecentPosts_trims_witness :
    ZSorted fullRecentSet ∧
    (AddToRecentPosts (fun p => Except.ok p.ID) fullRecentSet (likedPost "new" 1)
      none none).2 = none ∧
    (AddToRecentPosts (fun p => Except.ok p.ID) fullRecentSet (likedPost "new" 1)
      none none).1.length ≤ 1000 :=
  ⟨fullRecentSet_sorted, rfl,
    (AddToRecentPosts_trims (fun p => Except.ok p.ID) fullRecentSet (likedPost "new" 1)
      none none fullRecentSet_sorted).2.2.1 rfl⟩

end SocialInsight
